import Mathlib

/-! ## anlix-y/comp: asynchronous media-conversion jobs

A shallow embedding of the job orchestration code of the repository
(`internal/store`, `internal/media/ffmpeg`, `internal/media/yt`,
`internal/httpapi`, and the helper `itoa` of `transcoding`) together with the
properties its specification states.

Conventions of the embedding:

* Go `string` is `String`; the helpers of package `strings` are written over
  the character list of the string.
* Go `int` is `Int`; it is taken to be 64 bits wide where its range matters.
* Go `float64` is `Float64`: a finite value is the rational number it stands
  for, every arithmetic result is rounded to the nearest number with a 53-bit
  significand (ties to even, subnormal numbers included) and overflows to an
  infinity; infinities and NaN are values of their own. Operations are not
  fused (as on amd64). The conversion `int(x)` truncates toward zero; for a
  value that `int` cannot hold (also NaN and the infinities) Go leaves the
  result to the implementation, and the embedding takes it from a parameter
  `conv`.
* External processes (ffprobe, ffmpeg, yt-dlp) are inputs: what they print and
  how they exit is a parameter of the function that runs them.
* The code starts a goroutine for the output of each child process and never
  waits for it. The calls of that goroutine are kept apart from those of the
  job, and a schedule (a parameter) says how the two sequences interleave.
-/

namespace Comp

/-! ## Package `unicode` / `strings` -/

namespace unicode

/-- Go `unicode.IsSpace`: the code points with the White_Space property. -/
def IsSpace (c : Char) : Bool :=
  let n := c.toNat
  (9 ≤ n && n ≤ 13) || n == 32 || n == 0x85 || n == 0xA0 || n == 0x1680 ||
  (0x2000 ≤ n && n ≤ 0x200A) || n == 0x2028 || n == 0x2029 || n == 0x202F ||
  n == 0x205F || n == 0x3000

end unicode

namespace strings

/-- Go `strings.HasPrefix`. -/
def HasPrefix (s p : String) : Bool := p.data.isPrefixOf s.data

/-- Go `strings.HasSuffix`. -/
def HasSuffix (s p : String) : Bool := p.data.reverse.isPrefixOf s.data.reverse

/-- Go `strings.TrimPrefix`: `s` without the leading `p`, or `s` itself. -/
def TrimPrefix (s p : String) : String :=
  if HasPrefix s p then ⟨s.data.drop p.data.length⟩ else s

/-- Go `strings.TrimSuffix`: `s` without the trailing `p`, or `s` itself. -/
def TrimSuffix (s p : String) : String :=
  if HasSuffix s p then ⟨s.data.take (s.data.length - p.data.length)⟩ else s

/-- Go `strings.TrimSpace`: leading and trailing white space removed. -/
def TrimSpace (s : String) : String :=
  ⟨((s.data.dropWhile unicode.IsSpace).reverse.dropWhile unicode.IsSpace).reverse⟩

/-- Go `strings.ToLower` on ASCII letters (Go maps other letters by the Unicode
tables; no such letter maps to a character of the ASCII literals the result is
compared with here). -/
def ToLower (s : String) : String := ⟨s.data.map Char.toLower⟩

/-- Go `strings.Join`. -/
def Join (elems : List String) (sep : String) : String :=
  match elems with
  | [] => ""
  | e :: es => es.foldl (fun acc x => acc ++ sep ++ x) e

/-- Go `strings.Split(s, "/")` over characters: the pieces between slashes. -/
def splitSlash : List Char → List Char → List (List Char)
  | [], cur => [cur.reverse]
  | c :: cs, cur => if c = '/' then cur.reverse :: splitSlash cs [] else splitSlash cs (c :: cur)

end strings

namespace strings

/-- Pieces of a character list between occurrences of `sep`; `cur` is the
piece being read, last character first. -/
def splitOn (sep : Char) : List Char → List Char → List (List Char)
  | [], cur => [cur.reverse]
  | c :: cs, cur =>
    if c = sep then cur.reverse :: splitOn sep cs [] else splitOn sep cs (c :: cur)

/-- Go `strings.Split(s, sep)` for a separator of one character. -/
def Split (s : String) (sep : Char) : List String :=
  (splitOn sep s.data []).map String.mk

/-- Go `strings.Contains(s, sep)` for a separator of one character. -/
def Contains (s : String) (sep : Char) : Bool := s.data.contains sep

/-- Go `strings.SplitN(s, sep, 2)` for a separator of one character: the text
before the first separator and the text after it, or `s` alone when it has no
separator. -/
def SplitN (s : String) (sep : Char) : List String :=
  let before := s.data.takeWhile (fun c => c ≠ sep)
  if before.length < s.data.length then [⟨before⟩, ⟨s.data.drop (before.length + 1)⟩]
  else [s]

end strings

/-! ## Go `float64` -/

/-- A value of Go `float64` (IEEE 754 binary64): a finite number, an infinity
with its sign (`neg` for the negative one), or NaN. The sign of a zero is not
kept: no operation of the code embedded here tells the two zeros apart. -/
inductive Float64 where
  | fin (q : ℚ)
  | inf (neg : Bool)
  | nan
deriving DecidableEq, Repr

namespace Float64

/-- Exponent of the unit in the last place of the numbers of the size of
`q > 0`: 52 below the exponent of `q`, and never below that of the subnormal
numbers. -/
def ulpExp (q : ℚ) : Int := max (Int.log 2 q - 52) (-1074)

/-- The integer nearest to `x`, the even one of the two when `x` lies half way. -/
def roundHalfEven (x : ℚ) : Int :=
  if x - ⌊x⌋ < 1 / 2 then ⌊x⌋
  else if 1 / 2 < x - ⌊x⌋ then ⌊x⌋ + 1
  else if ⌊x⌋ % 2 = 0 then ⌊x⌋ else ⌊x⌋ + 1

/-- Rounding of a magnitude `q ≥ 0` to the nearest multiple of its unit in
the last place. -/
def roundMag (q : ℚ) : ℚ := (roundHalfEven (q / 2 ^ ulpExp q) : ℚ) * 2 ^ ulpExp q

/-- Rounding to nearest, ties to even, with an unbounded exponent range
above. -/
def round (q : ℚ) : ℚ := if q < 0 then - roundMag (-q) else roundMag q

/-- The `float64` an exact result `q` is stored as: `q` rounded, an infinity
when the rounded magnitude reaches `2^1024`. -/
def ofRat (q : ℚ) : Float64 :=
  if 2 ^ 1024 ≤ |round q| then inf (decide (q < 0)) else fin (round q)

/-- Go `x + y`. -/
def add : Float64 → Float64 → Float64
  | fin a, fin b => ofRat (a + b)
  | fin _, inf s => inf s
  | inf s, fin _ => inf s
  | inf s, inf t => if s = t then inf s else nan
  | _, _ => nan

/-- Go `x * y`. -/
def mul : Float64 → Float64 → Float64
  | fin a, fin b => ofRat (a * b)
  | fin a, inf s => if a = 0 then nan else inf (xor (decide (a < 0)) s)
  | inf s, fin b => if b = 0 then nan else inf (xor s (decide (b < 0)))
  | inf s, inf t => inf (xor s t)
  | _, _ => nan

/-- Go `x / y`. A zero divisor is taken as the positive zero; the code divides
only by constants and by values it has tested to be positive or not zero. -/
def div : Float64 → Float64 → Float64
  | fin a, fin b =>
    if b = 0 then (if a = 0 then nan else inf (decide (a < 0))) else ofRat (a / b)
  | fin _, inf _ => fin 0
  | inf s, fin b => inf (xor s (decide (b < 0)))
  | _, _ => nan

/-- Go `x < y`: false when either side is NaN. -/
def lt : Float64 → Float64 → Bool
  | fin a, fin b => decide (a < b)
  | fin _, inf s => !s
  | inf s, fin _ => s
  | inf s, inf t => s && !t
  | _, _ => false

/-- Go `x <= y`: false when either side is NaN. -/
def le : Float64 → Float64 → Bool
  | fin a, fin b => decide (a ≤ b)
  | fin _, inf s => !s
  | inf s, fin _ => s
  | inf s, inf t => s || !t
  | _, _ => false

/-- Go `x == y`: false when either side is NaN. -/
def eq : Float64 → Float64 → Bool
  | fin a, fin b => decide (a = b)
  | inf s, inf t => s == t
  | _, _ => false

/-- Truncation toward zero of a rational number. -/
def trunc (x : ℚ) : Int := Int.tdiv x.num x.den

/-- The result of `int(x)` on amd64 for a value `int` cannot hold: the least
`int`. -/
def amd64 : Float64 → Int := fun _ => -(2 ^ 63)

/-- The value `x` is finite and its integer part is an `int` (64 bits). -/
def fitsInt : Float64 → Bool
  | fin q => decide (-(2 ^ 63) ≤ trunc q ∧ trunc q < 2 ^ 63)
  | _ => false

/-- Go conversion `int(x)`: the fraction is discarded; when the value cannot
be held the result is what the implementation `conv` gives. -/
def toInt (conv : Float64 → Int) (x : Float64) : Int :=
  match x with
  | fin q => if fitsInt (fin q) then trunc q else conv x
  | _ => conv x

end Float64

/-! ## Package `strconv` -/

namespace strconv

/-- Value of an ASCII decimal digit. -/
def digitVal (c : Char) : Option Nat :=
  if 48 ≤ c.toNat ∧ c.toNat ≤ 57 then some (c.toNat - 48) else none

/-- Value of a hexadecimal letter, `a` to `f` in either case: the test
`\x27a\x27 <= lower(c) && lower(c) <= \x27f\x27` of the source. -/
def hexLetterVal (c : Char) : Option Nat :=
  if 97 ≤ c.toNat ∧ c.toNat ≤ 102 then some (c.toNat - 87)
  else if 65 ≤ c.toNat ∧ c.toNat ≤ 70 then some (c.toNat - 55)
  else none

/-- Go `commonPrefixLenIgnoreCase`: how many leading characters of `s`, with
ASCII capitals lowered, agree with `p`. -/
def commonPrefixLen : List Char → List Char → Nat
  | c :: cs, p :: ps => if c.toLower = p then commonPrefixLen cs ps + 1 else 0
  | _, _ => 0

/-- The length `special` accepts for a run that agrees with `infinity`:
anything longer than `inf` but shorter than the whole word counts as `inf`. -/
def infLen (s : List Char) : Nat :=
  let n := commonPrefixLen s "infinity".data
  if 3 < n ∧ n < 8 then 3 else n

/-- Go `special`: the spellings of the infinities (with an optional sign) and
of NaN at the head of `s`, in any case; the value and the number of characters
used. -/
def special (s : List Char) : Option (Float64 × Nat) :=
  match s with
  | [] => none
  | c :: cs =>
    if c = '+' ∨ c = '-' then
      if infLen cs = 3 ∨ infLen cs = 8 then some (Float64.inf (c = '-'), 1 + infLen cs)
      else none
    else if c = 'i' ∨ c = 'I' then
      if infLen (c :: cs) = 3 ∨ infLen (c :: cs) = 8 then
        some (Float64.inf false, infLen (c :: cs))
      else none
    else if c = 'n' ∨ c = 'N' then
      if commonPrefixLen (c :: cs) "nan".data = 3 then some (Float64.nan, 3) else none
    else none

/-- State of the mantissa scan of `readFloat`: the digits read so far as a
number in the base, how many of them follow the dot, and the flags of the
source. All digits count: the source keeps the first 19 (16 in base 16) and
notes whether a later one is not zero, which the conversion then takes into
account. -/
structure Mantissa where
  value : Nat
  fracDigits : Nat
  sawdot : Bool
  sawdigits : Bool
  underscores : Bool
deriving DecidableEq, Repr

/-- The state after one more digit `d` in base `base`. -/
def Mantissa.push (m : Mantissa) (base d : Nat) : Mantissa :=
  { m with value := base * m.value + d, sawdigits := true,
           fracDigits := if m.sawdot then m.fracDigits + 1 else m.fracDigits }

/-- Mantissa loop of `readFloat`: consumes digits of the base, underscores and
at most one dot; returns the state and the unread rest. -/
def readMantissa (hex : Bool) : List Char → Mantissa → Mantissa × List Char
  | [], m => (m, [])
  | c :: cs, m =>
    if c = '_' then readMantissa hex cs { m with underscores := true }
    else if c = '.' then
      if m.sawdot then (m, c :: cs)
      else readMantissa hex cs { m with sawdot := true }
    else
      match digitVal c with
      | some d => readMantissa hex cs (m.push (if hex then 16 else 10) d)
      | none =>
        if hex then
          match hexLetterVal c with
          | some d => readMantissa hex cs (m.push 16 d)
          | none => (m, c :: cs)
        else (m, c :: cs)

/-- Digit loop of the exponent of `readFloat`: digits and underscores; the
number stops growing once it has reached 10000. Returns the number, whether an
underscore was met, and the unread rest. -/
def readExpDigits : List Char → Nat → Bool → Nat × Bool × List Char
  | [], e, u => (e, u, [])
  | c :: cs, e, u =>
    if c = '_' then readExpDigits cs e true
    else
      match digitVal c with
      | some d => readExpDigits cs (if e < 10000 then e * 10 + d else e) u
      | none => (e, u, c :: cs)

/-- What `readFloat` finds: sign, base, mantissa with the count of its
fraction digits, exponent (decimal, or binary for base 16), whether an
underscore was met, and the unread rest of the string. -/
structure Scan where
  neg : Bool
  hex : Bool
  mantissa : Nat
  fracDigits : Nat
  exp : Int
  underscores : Bool
  rest : List Char
deriving DecidableEq, Repr

/-- The exponent part of `readFloat` at `rest`, the text after the mantissa
`m`: the letter (`e`, or `p` in base 16), an optional sign and at least one
digit. Without the letter a decimal number has exponent 0 and a hexadecimal
one is not well-formed. -/
def readExponent (neg hex : Bool) (m : Mantissa) (rest : List Char) : Option Scan :=
  match rest with
  | [] => if hex then none else some ⟨neg, hex, m.value, m.fracDigits, 0, m.underscores, []⟩
  | l :: more =>
    if (hex = true ∧ (l = 'p' ∨ l = 'P')) ∨ (hex = false ∧ (l = 'e' ∨ l = 'E')) then
      match more with
      | [] => none
      | g :: gs =>
        let esign : Int := if g = '-' then -1 else 1
        let ds := if g = '+' ∨ g = '-' then gs else g :: gs
        match ds with
        | [] => none
        | d :: _ =>
          if digitVal d = none then none
          else
            let r := readExpDigits ds 0 m.underscores
            some ⟨neg, hex, m.value, m.fracDigits, (r.1 : Int) * esign, r.2.1, r.2.2⟩
    else if hex then none
    else some ⟨neg, hex, m.value, m.fracDigits, 0, m.underscores, l :: more⟩

/-- The test for base 16 in `readFloat`: `0x` or `0X` with at least one more
character after it. -/
def hasHexPrefix : List Char → Bool
  | '0' :: x :: _ :: _ => x = 'x' ∨ x = 'X'
  | _ => false

/-- Go `readFloat` without the check of the underscores: `none` when its
result `ok` is false for another reason. -/
def readFloat (s : List Char) : Option Scan :=
  match s with
  | [] => none
  | c :: cs =>
    let neg : Bool := c = '-'
    let body := if c = '+' ∨ c = '-' then cs else c :: cs
    let hex := hasHexPrefix body
    let r := readMantissa hex (if hex then body.drop 2 else body) ⟨0, 0, false, false, false⟩
    if r.1.sawdigits then readExponent neg hex r.1 r.2 else none

/-- Loop of Go `underscoreOK`; `saw` is the kind of the last character seen:
`0` for a digit, `_` for an underscore, `!` for another character, `^` at the
start. -/
def underscoreLoop (hex : Bool) : List Char → Char → Bool
  | [], saw => saw ≠ '_'
  | c :: cs, saw =>
    if (digitVal c).isSome ∨ (hex = true ∧ (hexLetterVal c).isSome) then underscoreLoop hex cs '0'
    else if c = '_' then (if saw ≠ '0' then false else underscoreLoop hex cs '_')
    else if saw = '_' then false
    else underscoreLoop hex cs '!'

/-- Go `underscoreOK`: every underscore stands between two digits, or between
a base prefix and a digit. -/
def underscoreOK (s : List Char) : Bool :=
  let s :=
    match s with
    | c :: cs => if c = '-' ∨ c = '+' then cs else c :: cs
    | [] => []
  match s with
  | '0' :: x :: rest =>
    if x = 'b' ∨ x = 'B' ∨ x = 'o' ∨ x = 'O' ∨ x = 'x' ∨ x = 'X' then
      underscoreLoop (x = 'x' ∨ x = 'X') rest '0'
    else underscoreLoop false s '^'
  | _ => underscoreLoop false s '^'

/-- The exact value of a scanned number. -/
def Scan.value (r : Scan) : ℚ :=
  let q : ℚ :=
    if r.hex then (r.mantissa : ℚ) * 2 ^ (r.exp - 4 * (r.fracDigits : Int))
    else (r.mantissa : ℚ) * 10 ^ (r.exp - (r.fracDigits : Int))
  if r.neg then -q else q

/-- Go `strconv.ParseFloat(s, 64)`: the value and the error. A spelling of an
infinity or of NaN gives that value. A decimal or hexadecimal number (optional
sign, digits with an optional dot and underscores between digits, exponent)
gives the `float64` nearest to its exact value; when that is an infinity the
error is `value out of range`. Any other text gives 0 with the error
`invalid syntax`. -/
def ParseFloat (s : String) : Float64 × Option String :=
  match special s.data with
  | some (v, n) => if n = s.data.length then (v, none) else (Float64.fin 0, some "invalid syntax")
  | none =>
    match readFloat s.data with
    | none => (Float64.fin 0, some "invalid syntax")
    | some r =>
      if r.rest ≠ [] then (Float64.fin 0, some "invalid syntax")
      else if r.underscores = true ∧ underscoreOK s.data = false then
        (Float64.fin 0, some "invalid syntax")
      else
        match Float64.ofRat r.value with
        | Float64.inf neg => (Float64.inf neg, some "value out of range")
        | v => (v, none)

/-- Go `strconv.Itoa`, also the verb `%d` of `fmt.Sprintf`. -/
def Itoa (i : Int) : String :=
  if i < 0 then "-" ++ Nat.repr i.natAbs else Nat.repr i.natAbs

/-- Digits of `Atoi`, read to the end of the string; `none` when a character
that is not a digit is met. -/
def readInt : List Char → Nat → Option Nat
  | [], acc => some acc
  | c :: cs, acc =>
    match digitVal c with
    | some d => readInt cs (10 * acc + d)
    | none => none

/-- Go `strconv.Atoi` on a 64-bit platform: the value and the error. A text
that is not an optionally signed run of digits gives 0 with an error; a number
outside the range of `int` gives the nearest bound with an error. -/
def Atoi (s : String) : Int × Option String :=
  match s.data with
  | [] => (0, some "invalid syntax")
  | c :: cs =>
    let neg := c = '-'
    let body := if c = '+' ∨ c = '-' then cs else c :: cs
    if body = [] then (0, some "invalid syntax")
    else
      match readInt body 0 with
      | none => (0, some "invalid syntax")
      | some n =>
        if neg then
          if n > 2 ^ 63 then (-(2 ^ 63), some "value out of range") else (-(n : Int), none)
        else
          if n ≥ 2 ^ 63 then (2 ^ 63 - 1, some "value out of range") else ((n : Int), none)

end strconv

/-! ## Package `path/filepath` (Unix separators) -/

namespace filepath

/-- Scan of `filepath.Ext` from the end of the path: stops at a separator,
returns the suffix starting at the first dot met. -/
def extRev : List Char → List Char → Option (List Char)
  | [], _ => none
  | c :: cs, acc =>
    if c = '/' then none
    else if c = '.' then some ('.' :: acc)
    else extRev cs (c :: acc)

/-- Go `filepath.Ext`: the suffix beginning at the final dot of the final
element of the path, empty if there is no dot. -/
def Ext (path : String) : String :=
  match extRev path.data.reverse [] with
  | some e => ⟨e⟩
  | none => ""

/-- Go `filepath.Base`: the last element of the path, trailing separators
removed first; `.` for the empty path and `/` for a path of separators only. -/
def Base (path : String) : String :=
  if path = "" then "."
  else
    let stripped := path.data.reverse.dropWhile (fun c => c = '/')
    let last := (stripped.takeWhile (fun c => c ≠ '/')).reverse
    if last = [] then "/" else ⟨last⟩

/-- Element loop of `filepath.Clean`: `out` is the list of elements written so
far, last one first. Empty elements and `.` are skipped; `..` removes the last
written element when there is one to remove, is kept on a path that is not
rooted, and is dropped at the root. -/
def cleanElems (rooted : Bool) : List (List Char) → List (List Char) → List (List Char)
  | [], out => out
  | e :: es, out =>
    if e = [] ∨ e = ['.'] then cleanElems rooted es out
    else if e = ['.', '.'] then
      match out with
      | o :: os =>
        if o = ['.', '.'] then cleanElems rooted es (e :: out)
        else cleanElems rooted es os
      | [] => if rooted then cleanElems rooted es [] else cleanElems rooted es [e]
    else cleanElems rooted es (e :: out)

/-- Go `filepath.Clean`. -/
def Clean (path : String) : String :=
  if path = "" then "."
  else
    let rooted := path.data.head? = some '/'
    let elems := (cleanElems rooted (strings.splitSlash path.data []) []).reverse
    let body := strings.Join (elems.map String.mk) "/"
    if rooted then "/" ++ body
    else if body = "" then "." else body

/-- Go `filepath.Join`: the elements from the first non-empty one on, joined
with separators and cleaned; empty if all are empty. -/
def Join : List String → String
  | [] => ""
  | e :: es => if e ≠ "" then Clean (strings.Join (e :: es) "/") else Join es

end filepath

/-! ## Package `store` -/

namespace store

/-- The record `store.TaskStatus`. -/
structure TaskStatus where
  ID : String
  Status : String
  Error : String := ""
  OutputFile : String := ""
  Stage : String := ""
  Percent : Int := 0
deriving DecidableEq, Repr

/-- Go `time.Duration`, a count of nanoseconds. -/
abbrev Duration := Int

/-- Go `time.Minute`. -/
def Minute : Duration := 60 * 1000000000

/-- The in-memory implementation `store.MemoryStore`: the map `data` (the
mutex has no content in a sequential run). -/
structure MemoryStore where
  data : String → Option TaskStatus

/-- Go `store.NewMemoryStore`: the empty map. -/
def NewMemoryStore : MemoryStore := ⟨fun _ => none⟩

/-- Go `(*MemoryStore).Set`: `m.data[t.ID] = *t`; the ttl argument is the
blank identifier in the source. Returns the new store and the (nil) error. -/
def MemoryStore.Set (m : MemoryStore) (t : TaskStatus) (_ : Duration) :
    MemoryStore × Option String :=
  (⟨fun k => if k = t.ID then some t else m.data k⟩, none)

/-- Go `(*MemoryStore).Get`: a copy of the stored record, `none` standing for
`(nil, false)`. -/
def MemoryStore.Get (m : MemoryStore) (id : String) : Option TaskStatus :=
  match m.data id with
  | some v => some v
  | none => none

/-- What `RedisStore` uses of the redis client and of `encoding/json`, over a
backend state `R`: `SET key value ttl` with its error, `GET key` with its
value or error, `json.Marshal` and `json.Unmarshal` of a record. -/
structure Backend (R : Type) where
  set : R → String → String → Duration → R × Option String
  get : R → String → Except String String
  marshal : TaskStatus → String
  unmarshal : String → Option TaskStatus

/-- The struct `store.RedisStore`: the client (`none` for a nil pointer) and
the memory store it falls back to. -/
structure RedisStore (R : Type) where
  Rdb : Option R
  mem : MemoryStore

/-- Go `store.NewRedisStore`. -/
def NewRedisStore {R : Type} (rdb : Option R) : RedisStore R :=
  { Rdb := rdb, mem := NewMemoryStore }

/-- Go `(*RedisStore).Set`. -/
def RedisStore.Set {R : Type} (B : Backend R) (s : RedisStore R) (t : TaskStatus)
    (ttl : Duration) : RedisStore R × Option String :=
  match s.Rdb with
  | none =>
    let r := s.mem.Set t ttl
    ({ s with mem := r.1 }, r.2)
  | some rdb =>
    let b := B.marshal t
    let r := B.set rdb ("task:" ++ t.ID) b ttl
    ({ s with Rdb := some r.1 }, r.2)

/-- Go `(*RedisStore).Get`. -/
def RedisStore.Get {R : Type} (B : Backend R) (s : RedisStore R) (id : String) :
    Option TaskStatus :=
  match s.Rdb with
  | none => s.mem.Get id
  | some rdb =>
    match B.get rdb ("task:" ++ id) with
    | .error _ => none
    | .ok v => B.unmarshal v

/-- A call on the store together with the moment it is made (nanoseconds on
the wall clock). The store code never reads a clock, so the moment is a label
only. -/
inductive Call where
  | set (now : Int) (t : TaskStatus) (ttl : Duration)
  | get (now : Int) (id : String)

/-- Runs a sequence of timed calls on a `RedisStore`; returns the final store
and the results of the `Get` calls in order. -/
def runCalls {R : Type} (B : Backend R) : RedisStore R → List Call →
    RedisStore R × List (Option TaskStatus)
  | s, [] => (s, [])
  | s, Call.set _ t ttl :: cs => runCalls B (RedisStore.Set B s t ttl).1 cs
  | s, Call.get _ id :: cs =>
    let r := runCalls B s cs
    (r.1, RedisStore.Get B s id :: r.2)

end store

/-! ## Command `cmd/server` -/

namespace server

/-- Store selection of `main`: a client is created when a redis address is
configured and is dropped again (`rdb = nil`) when the ping fails. -/
def selectStore {R : Type} (redisAddr : String) (client : R) (pingErr : Option String) :
    store.RedisStore R :=
  let rdb : Option R :=
    if redisAddr ≠ "" then
      match pingErr with
      | some _ => none
      | none => some client
    else none
  store.NewRedisStore rdb

end server

/-! ## Effects of a job -/

/-- An externally visible action of the server, recorded in program order:
a `Store.Set`, a file-system call, a child process started with its argument
list, or a call of one of the two media probes of `ffmpeg.Runner`. -/
inductive Effect where
  | set (t : store.TaskStatus) (ttl : store.Duration)
  | saveUploadedFile (dst : String)
  | mkdirAll (path : String)
  | rename (oldpath newpath : String)
  | removeAll (path : String)
  | exec (name : String) (args : List String)
  | duration (input : String)
  | videoProps (input : String)
deriving DecidableEq, Repr

/-- The records passed to `Store.Set` in a trace, in order. -/
def records : List Effect → List store.TaskStatus
  | [] => []
  | Effect.set t _ :: es => t :: records es
  | _ :: es => records es

/-! ## Goroutines that are not waited for -/

/-- An interleaving of the calls `xs` of a reader goroutine with the calls
`ys` the job makes from the start of that goroutine on, each sequence in its
own order. The schedule says who moves next (`true` for the reader); when it
is used up the reader moves first, so the empty schedule lets the reader
finish before the job goes on. -/
def interleave {α : Type} : List Bool → List α → List α → List α
  | [], xs, ys => xs ++ ys
  | true :: s, x :: xs, ys => x :: interleave s xs ys
  | true :: _, [], ys => ys
  | false :: s, xs, y :: ys => y :: interleave s xs ys
  | false :: _, xs, [] => xs

/-- What a function does that starts a child process and a goroutine reading
its output: the effects of the caller up to the start of the child, the calls
of the reader goroutine, the effects of the caller from there to its return,
and the result. -/
structure Started (α : Type) where
  before : List Effect
  reader : List Effect
  after : List Effect
  result : α

/-- The trace of a started function followed by the effects `rest` of its
caller, under a schedule for the reader goroutine. -/
def Started.followedBy {α : Type} (r : Started α) (sched : List Bool) (rest : List Effect) :
    List Effect :=
  r.before ++ interleave sched r.reader (r.after ++ rest)

/-- A started function with one more effect of the caller in front. -/
def Started.cons {α : Type} (e : Effect) (r : Started α) : Started α :=
  { r with before := e :: r.before }

/-! ## Package `yt`: fetch with progress -/

namespace yt

open store

/-- The class `\d` of the pattern: an ASCII decimal digit. -/
def isDigit (c : Char) : Bool := 48 ≤ c.toNat && c.toNat ≤ 57

/-- The tail `\d+%` of the pattern at the head of `s`, greedy: the maximal run
of digits, which must be non-empty and followed by `%` (a shorter run is
followed by a digit, so backtracking finds nothing more). -/
def matchFrac (s : List Char) : Option (List Char) :=
  match s.dropWhile isDigit with
  | '%' :: _ => if s.takeWhile isDigit ≠ [] then some (s.takeWhile isDigit) else none
  | _ => none

/-- The pattern with exactly `k` integer digits, `\d{k}\.\d+%`, at the head of
`s`: the text of the capture group. -/
def matchWith (k : Nat) (s : List Char) : Option (List Char) :=
  if (s.take k).length = k ∧ (s.take k).all isDigit = true then
    match s.drop k with
    | '.' :: r =>
      match matchFrac r with
      | some ds => some (s.take k ++ '.' :: ds)
      | none => none
    | _ => none
  else none

/-- The pattern `(\d{1,3}\.\d+)%` anchored at the head of `s`; the greedy
`{1,3}` tries three digits, then two, then one. -/
def matchHere (s : List Char) : Option (List Char) :=
  match matchWith 3 s with
  | some g => some g
  | none =>
    match matchWith 2 s with
    | some g => some g
    | none => matchWith 1 s

/-- Leftmost match of the pattern in `s` (`re.FindStringSubmatch`): the text
of capture group 1, `none` when the pattern matches nowhere. -/
def findSubmatch : List Char → Option (List Char)
  | [] => none
  | c :: cs =>
    match matchHere (c :: cs) with
    | some g => some g
    | none => findSubmatch cs

/-- The number carried by a line of yt-dlp output: the capture group of the
leftmost match, parsed by `strconv.ParseFloat`; `none` when there is no match
or the parse returns an error. -/
def lineValue (line : String) : Option Float64 :=
  match findSubmatch line.data with
  | some g =>
    match strconv.ParseFloat ⟨g⟩ with
    | (f, none) => some f
    | (_, some _) => none
  | none => none

/-- The percent computed from the parsed number: `int(f + 0.5)` clamped to
`[0, 100]`. -/
def downloadPercent (conv : Float64 → Int) (f : Float64) : Int :=
  let pct := Float64.toInt conv (Float64.add f (Float64.fin (1 / 2)))
  let pct := if pct > 100 then 100 else pct
  if pct < 0 then 0 else pct

/-- One iteration of the scanner loop of `DownloadWithProgress`: the record
passed to `Store.Set` for a line, if any. -/
def readerStep (conv : Float64 → Int) (taskID : String) (line : String) : Option TaskStatus :=
  match lineValue line with
  | some f =>
    some { ID := taskID, Status := "processing", Stage := "download",
           Percent := downloadPercent conv f }
  | none => none

/-- Go `yt.binaryPath`, from the value of the environment variable `YT_DLP`. -/
def binaryPath (envYtDlp : String) : String :=
  if envYtDlp ≠ "" then envYtDlp else "yt-dlp"

/-- What yt-dlp does in one call of `DownloadWithProgress`: output and error of
the `--get-filename` run, error of starting the download run, the lines the
scanner goroutine gets from its standard output, whether the run blocks, and
the error of `cmd.Wait`. The run blocks when the child fills a pipe that no
one empties: the code never reads the standard error of the child, and the
scanner stops reading at a line longer than its buffer. `cmd.Wait` then never
returns. -/
structure Fetch where
  nameOut : String
  nameErr : Option String
  startErr : Option String
  lines : List String
  blocks : Bool
  waitErr : Option String

/-- The records the scanner goroutine of `DownloadWithProgress` writes for the
lines it gets, in order. -/
def readerWrites (conv : Float64 → Int) (taskID : String) (lines : List String) :
    List TaskStatus :=
  lines.filterMap (readerStep conv taskID)

/-- Go `yt.DownloadWithProgress`: the effects up to the start of the download,
the calls of the scanner goroutine (started then and never waited for), the
effects after `cmd.Wait`, and the result: the file name or the error, `none`
when `cmd.Wait` never returns. -/
def DownloadWithProgress (conv : Float64 → Int) (envYtDlp : String) (x : Fetch)
    (taskID url proxy jobDir : String) : Started (Option (Except String String)) :=
  let bin := binaryPath envYtDlp
  let outputPattern := filepath.Join [jobDir, "%(title)s.%(ext)s"]
  let argsName := ["--get-filename", "-o", outputPattern, "--restrict-filenames", url]
  let argsName := if strings.TrimSpace proxy ≠ "" then ["--proxy", proxy] ++ argsName else argsName
  let t0 := [Effect.exec bin argsName]
  match x.nameErr with
  | some e => ⟨t0, [], [], some (.error e)⟩
  | none =>
    let filename := strings.TrimSpace x.nameOut
    let args := ["-o", outputPattern, "--restrict-filenames", "--newline", url]
    let args := if strings.TrimSpace proxy ≠ "" then ["--proxy", proxy] ++ args else args
    let t1 := t0 ++
      [Effect.set { ID := taskID, Status := "processing", Stage := "download", Percent := 0 }
         (30 * Minute),
       Effect.exec bin args]
    match x.startErr with
    | some e => ⟨t1, [], [], some (.error e)⟩
    | none =>
      let reader := (readerWrites conv taskID x.lines).map fun t => Effect.set t (30 * Minute)
      if x.blocks then ⟨t1, reader, [], none⟩
      else
        match x.waitErr with
        | some e => ⟨t1, reader, [], some (.error e)⟩
        | none =>
          ⟨t1, reader,
           [Effect.set { ID := taskID, Status := "processing", Stage := "download",
                         Percent := 100 } (30 * Minute)],
           some (.ok filename)⟩

end yt

/-! ## Package `ffmpeg`: progress decoding -/

namespace ffmpeg

open store

/-- The expression `(ms/1e6)/dur*100 + 0.5` of the reader loop. -/
def knownValue (dur ms : Float64) : Float64 :=
  Float64.add
    (Float64.mul (Float64.div (Float64.div ms (Float64.fin 1000000)) dur) (Float64.fin 100))
    (Float64.fin (1 / 2))

/-- The expression `seconds / 120.0 * 90.0` of the reader loop, with
`seconds := ms / 1e6`. -/
def unknownValue (ms : Float64) : Float64 :=
  Float64.mul (Float64.div (Float64.div ms (Float64.fin 1000000)) (Float64.fin 120))
    (Float64.fin 90)

/-- The percent computed in the reader loop of `Runner.runWithProgress` from
the parsed value `ms` of an `out_time_ms=` line and the probed duration `dur`
(`0` when the probe failed). -/
def progressPercent (conv : Float64 → Int) (dur ms : Float64) : Int :=
  if Float64.lt (Float64.fin 0) dur then
    let pct := Float64.toInt conv (knownValue dur ms)
    let pct := if pct > 99 then 99 else pct
    if pct < 0 then 0 else pct
  else
    let pct := Float64.toInt conv (unknownValue ms)
    let pct := if pct > 90 then 90 else pct
    if pct < 0 then 0 else pct

/-- The `float64` the reader loop of `runWithProgress` converts with `int(...)`
for the parsed value `ms` and the probed duration `dur`. -/
def convertedValue (dur ms : Float64) : Float64 :=
  if Float64.lt (Float64.fin 0) dur then knownValue dur ms else unknownValue ms

/-- The number carried by a line the reader loop of `runWithProgress` gets
from `ReadString`: the text after the prefix `out_time_ms=`, trimmed and parsed
by `strconv.ParseFloat`; `none` for an empty line, a line without the prefix
and a value whose parse returns an error. -/
def lineValue (line : String) : Option Float64 :=
  if line ≠ "" then
    if strings.HasPrefix line "out_time_ms=" then
      let v := strings.TrimSpace (strings.TrimPrefix line "out_time_ms=")
      match strconv.ParseFloat v with
      | (ms, none) => some ms
      | (_, some _) => none
    else none
  else none

/-- One iteration of the reader loop of `Runner.runWithProgress` on a line
returned by `ReadString`: the record passed to `Store.Set`, if any. -/
def readerStep (conv : Float64 → Int) (taskID : String) (dur : Float64) (line : String) :
    Option TaskStatus :=
  match lineValue line with
  | some ms =>
    some { ID := taskID, Status := "processing", Stage := "transcode",
           Percent := progressPercent conv dur ms }
  | none => none

/-- The result tuple of `Runner.VideoProps`: width, height, frame-rate and
error. -/
structure VideoPropsResult where
  w : Int
  h : Int
  fps : Float64
  err : Option String

/-- What the probes and the ffmpeg child process do for one transform: the
result of `ffprobeDurationSeconds` (`dur` is `0` when `derr` is an error), the
result of `VideoProps`, the errors of `StdoutPipe`, `StderrPipe` and `Start`,
the lines `ReadString` returns to the reader goroutine from standard output,
and the error of `cmd.Wait`. Both pipes of the child are read, and the child
is taken to exit. -/
structure Transcode where
  dur : Float64
  derr : Option String
  props : VideoPropsResult
  stdoutPipeErr : Option String
  stderrPipeErr : Option String
  startErr : Option String
  lines : List String
  waitErr : Option String

/-- The records the reader loop of `runWithProgress` writes for the lines it
reads, in order. -/
def readerWrites (conv : Float64 → Int) (taskID : String) (dur : Float64)
    (lines : List String) : List TaskStatus :=
  lines.filterMap (readerStep conv taskID dur)

/-- Go `Runner.runWithProgress`: the effects up to the start of ffmpeg, the
calls of the reader goroutine (started then and never waited for), the
effects after `cmd.Wait`, and the returned error. -/
def runWithProgress (conv : Float64 → Int) (x : Transcode) (taskID : String)
    (baseArgs : List String) (input : String) : Started (Option String) :=
  let dur := x.dur
  let t0 := [Effect.duration input]
  let args := ["-y", "-progress", "pipe:1", "-nostats"] ++ baseArgs
  match x.stdoutPipeErr with
  | some e => ⟨t0, [], [], some e⟩
  | none =>
    match x.stderrPipeErr with
    | some e => ⟨t0, [], [], some e⟩
    | none =>
      let t1 := t0 ++ [Effect.exec "ffmpeg" args]
      match x.startErr with
      | some e => ⟨t1, [], [], some e⟩
      | none =>
        let reader := (readerWrites conv taskID dur x.lines).map fun t => Effect.set t (30 * Minute)
        match x.waitErr with
        | some e => ⟨t1, reader, [], some e⟩
        | none =>
          ⟨t1, reader,
           [Effect.set { ID := taskID, Status := "processing", Stage := "transcode",
                         Percent := 100 } (30 * Minute)],
           none⟩

/-- The variable `effWidth` of `Compress` and of `GIF`: the requested width,
replaced by the source width when both are positive and the request is larger. -/
def effWidth (maxWidth srcW : Int) : Int :=
  if maxWidth > 0 ∧ srcW > 0 ∧ maxWidth > srcW then srcW else maxWidth

/-- The variable `effFPS` of `Compress` and of `GIF`: with a positive request
and a positive source frame-rate, the request capped to
`int(srcFPS + 0.0001)` and then raised to at least 1. The constant is the
`float64` nearest to 0.0001. -/
def effFPS (conv : Float64 → Int) (fps : Int) (srcFPS : Float64) : Int :=
  if fps > 0 ∧ Float64.lt (Float64.fin 0) srcFPS = true then
    let srcInt := Float64.toInt conv (Float64.add srcFPS (Float64.ofRat (1 / 10000)))
    let e := if fps > srcInt then srcInt else fps
    if e < 1 then 1 else e
  else fps

/-- The scale filter of `Compress` and `Image`: `scale=\x27min(%d,iw)\x27:-2`. -/
def scaleFilter (width : Int) : String :=
  "scale=\x27min(" ++ strconv.Itoa width ++ ",iw)\x27:-2"

/-- The argument list `Compress` builds from the effective width and fps. -/
def compressArgs (input output : String) (crf effWidth effFPS : Int) : List String :=
  let args := ["-i", input]
  let args := if effWidth > 0 then args ++ ["-vf", scaleFilter effWidth] else args
  let args := if effFPS > 0 then args ++ ["-r", strconv.Itoa effFPS] else args
  let ext := strings.ToLower (filepath.Ext output)
  let codec := if ext = ".webm" then "libvpx-vp9" else "libx265"
  let audioCodec := if ext = ".webm" then "libopus" else "aac"
  let args := args ++ ["-c:v", codec, "-preset", "slow", "-crf", strconv.Itoa crf]
  let args := if ext ≠ ".webm" then args ++ ["-pix_fmt", "yuv420p"] else args
  args ++ ["-c:a", audioCodec, "-b:a", "96k", output]

/-- Go `Runner.Compress`. -/
def Compress (conv : Float64 → Int) (x : Transcode) (taskID input output : String)
    (crf maxWidth fps : Int) : Started (Option String) :=
  let srcW := x.props.w
  let srcFPS := x.props.fps
  let args := compressArgs input output crf (effWidth maxWidth srcW) (effFPS conv fps srcFPS)
  Started.cons (Effect.videoProps input) (runWithProgress conv x taskID args input)

/-- The argument list `GIF` builds from the effective width and fps. -/
def gifArgs (input output : String) (effWidth effFPS : Int) : List String :=
  let scale :=
    if effWidth > 0 then "scale=\x27min(" ++ strconv.Itoa effWidth ++ ",iw)\x27:-1:flags=lanczos"
    else "scale=iw:-1:flags=lanczos"
  let vf := if effFPS > 0 then "fps=" ++ strconv.Itoa effFPS ++ "," ++ scale else scale
  ["-i", input, "-vf", vf, output]

/-- Go `Runner.GIF`. -/
def GIF (conv : Float64 → Int) (x : Transcode) (taskID input output : String)
    (width fps : Int) : Started (Option String) :=
  let srcW := x.props.w
  let srcFPS := x.props.fps
  let args := gifArgs input output (effWidth width srcW) (effFPS conv fps srcFPS)
  Started.cons (Effect.videoProps input) (runWithProgress conv x taskID args input)

/-- Go `Runner.Audio`. -/
def Audio (conv : Float64 → Int) (x : Transcode) (taskID input output bitrate : String) :
    Started (Option String) :=
  runWithProgress conv x taskID
    ["-i", input, "-vn", "-c:a", "libmp3lame", "-b:a", bitrate, output] input

/-- Go `Runner.Image`. -/
def Image (conv : Float64 → Int) (x : Transcode) (taskID input output : String)
    (quality maxWidth : Int) : Started (Option String) :=
  let args := ["-i", input]
  let args := if maxWidth > 0 then args ++ ["-vf", scaleFilter maxWidth] else args
  let ext := strings.ToLower (filepath.Ext output)
  let args :=
    if ext = ".jpg" ∨ ext = ".jpeg" then args ++ ["-q:v", strconv.Itoa quality]
    else if ext = ".png" then
      let lvl := 9 - Int.tdiv quality 12
      let lvl := if lvl < 0 then 0 else lvl
      let lvl := if lvl > 9 then 9 else lvl
      args ++ ["-compression_level", strconv.Itoa lvl]
    else args
  runWithProgress conv x taskID (args ++ [output]) input

end ffmpeg

namespace execx

/-- The three results of `execx.Run`: standard output, standard error and the
error of the run (`none` for nil). The package is not part of the sources at
hand; what a run returns is an input of the function that calls it. -/
structure Result where
  out : String
  errStr : String
  err : Option String

end execx

namespace ffmpeg

/-- The closure `parseRatio` of `VideoProps`; the errors of `ParseFloat` are
dropped as in the source, the values are used as returned. -/
def parseRatio (s : String) : Float64 :=
  let s := strings.TrimSpace s
  if s = "" ∨ s = "N/A" then Float64.fin 0
  else if strings.Contains s '/' then
    let parts := strings.SplitN s '/'
    let num := (strconv.ParseFloat (parts.getD 0 "")).1
    let den := (strconv.ParseFloat (parts.getD 1 "")).1
    if Float64.eq den (Float64.fin 0) = false then Float64.div num den
    else if Float64.eq den (Float64.fin 0) = true ∧ Float64.lt (Float64.fin 0) num = true then num
    else Float64.fin 0
  else (strconv.ParseFloat s).1

/-- Go `Runner.VideoProps`, from the result of its ffprobe run. -/
def VideoProps (r : execx.Result) : VideoPropsResult :=
  match r.err with
  | some e => ⟨0, 0, Float64.fin 0, some e⟩
  | none =>
    let lines := strings.Split (strings.TrimSpace r.out) '\n'
    let w := if lines.length ≥ 1 then (strconv.Atoi (strings.TrimSpace (lines.getD 0 ""))).1 else 0
    let h := if lines.length ≥ 2 then (strconv.Atoi (strings.TrimSpace (lines.getD 1 ""))).1 else 0
    let fps := if lines.length ≥ 3 then parseRatio (lines.getD 2 "") else Float64.fin 0
    let fps :=
      if Float64.eq fps (Float64.fin 0) = true ∧ lines.length ≥ 4 then parseRatio (lines.getD 3 "")
      else fps
    if w ≤ 0 ∨ h ≤ 0 then ⟨0, 0, fps, some "ffprobe: no dimensions"⟩ else ⟨w, h, fps, none⟩

/-- One iteration of the loop over the stream durations in
`ffprobeDurationSeconds`. -/
def maxDurStep (maxDur : Float64) (ln : String) : Float64 :=
  if ln = "N/A" ∨ ln = "" then maxDur
  else
    match strconv.ParseFloat (strings.TrimSpace ln) with
    | (v, none) => if Float64.lt maxDur v then v else maxDur
    | (_, some _) => maxDur

/-- The first and the third strategy of `ffprobeDurationSeconds`: the run
succeeded, its trimmed output parses without error, and the value is
positive. -/
def singleDuration (r : execx.Result) : Option Float64 :=
  match r.err with
  | none =>
    match strconv.ParseFloat (strings.TrimSpace r.out) with
    | (v, none) => if Float64.lt (Float64.fin 0) v then some v else none
    | (_, some _) => none
  | some _ => none

/-- The second strategy of `ffprobeDurationSeconds`: the run succeeded and the
running maximum over the lines of its trimmed output ends positive. -/
def maxStreamDuration (r : execx.Result) : Option Float64 :=
  match r.err with
  | none =>
    let lines := strings.Split (strings.TrimSpace r.out) '\n'
    let maxDur := lines.foldl maxDurStep (Float64.fin 0)
    if Float64.lt (Float64.fin 0) maxDur then some maxDur else none
  | some _ => none

/-- Go `Runner.ffprobeDurationSeconds`, from the results of its three ffprobe
runs (container duration, duration of every stream, duration of the first
video stream): the duration and the error. -/
def ffprobeDurationSeconds (r1 r2 r3 : execx.Result) : Float64 × Option String :=
  match singleDuration r1 with
  | some v => (v, none)
  | none =>
    match maxStreamDuration r2 with
    | some v => (v, none)
    | none =>
      match singleDuration r3 with
      | some v => (v, none)
      | none => (Float64.fin 0, some "ffprobe: cannot determine duration")

end ffmpeg

/-! ## Package `httpapi`: the upload job -/

namespace httpapi

open store

/-- What the job reads from its surroundings: `os.TempDir()`, the uploads
directory chosen by `NewRouter`, the configured proxy and the value of the
environment variable `YT_DLP`. -/
structure Env where
  tempDir : String
  uploadsPath : String
  proxy : String
  envYtDlp : String

/-- What the job does not decide: what the external tools do, what the
platform makes of a conversion `int(x)` that does not fit, and how the calls
of the two reader goroutines (of the download and of the transcode) fall
between those of the job. -/
structure World where
  fetch : yt.Fetch
  transcode : ffmpeg.Transcode
  conv : Float64 → Int
  downloadSched : List Bool
  transcodeSched : List Bool

/-- The variable `outName` of the job after the `switch pType`: the default
`out_` name, replaced in each of the four cases. -/
def outName (pType imgFormat curName : String) : String :=
  let ext := filepath.Ext curName
  if pType = "video_compress" then "compressed_" ++ curName
  else if pType = "video_to_gif" then strings.TrimSuffix curName ext ++ ".gif"
  else if pType = "video_to_audio" then strings.TrimSuffix curName ext ++ ".mp3"
  else if pType = "image_compress" then
    let targetExt :=
      if imgFormat = "jpg" ∨ imgFormat = "jpeg" then ".jpg"
      else if imgFormat = "png" then ".png"
      else ""
    if targetExt = "" then "compressed_" ++ curName
    else "compressed_" ++ strings.TrimSuffix curName ext ++ targetExt
  else "out_" ++ curName

/-- The record every case of the switch writes before it calls the runner. -/
def transcodeStart (taskID : String) : Effect :=
  Effect.set { ID := taskID, Status := "processing", Stage := "transcode", Percent := 0 }
    (30 * Minute)

/-- The `switch pType` of the job: the effects of the chosen case with the
calls of its reader goroutine, and the value of `errProc` after it; no case
matches an unknown operation type. -/
def transform (conv : Float64 → Int) (x : ffmpeg.Transcode)
    (taskID pType curPath outPath : String) (crf width fps quality : Int) :
    Started (Option String) :=
  if pType = "video_compress" then
    Started.cons (transcodeStart taskID) (ffmpeg.Compress conv x taskID curPath outPath crf width fps)
  else if pType = "video_to_gif" then
    Started.cons (transcodeStart taskID) (ffmpeg.GIF conv x taskID curPath outPath width fps)
  else if pType = "video_to_audio" then
    Started.cons (transcodeStart taskID) (ffmpeg.Audio conv x taskID curPath outPath "128k")
  else if pType = "image_compress" then
    Started.cons (transcodeStart taskID) (ffmpeg.Image conv x taskID curPath outPath quality width)
  else ⟨[], [], [], none⟩

/-- The source file of the job once it is acquired: the values of `curPath`
and `curName` before the switch, with the rename that moves a local file into
the job directory. -/
def acquireLocal (jobDir url curPath curName : String) : List Effect × String × String :=
  if url = "" ∧ curPath ≠ "" then
    let dst := filepath.Join [jobDir, filepath.Base curPath]
    ([Effect.rename curPath dst], dst, filepath.Base dst)
  else ([], curPath, curName)

/-- The end of the job, after the switch: the failed record for an error of
the transform, else the move of the output, the completed record and the
removal of the job directory. -/
def finish (env : Env) (jobDir taskID outName outPath : String) (errProc : Option String) :
    List Effect :=
  match errProc with
  | some e =>
    [Effect.set { ID := taskID, Status := "failed", Error := "processing failed: " ++ e }
       (30 * Minute)]
  | none =>
    let final := filepath.Join [env.uploadsPath, outName]
    [Effect.rename outPath final,
     Effect.set { ID := taskID, Status := "completed", OutputFile := outName,
                  Stage := "finalize", Percent := 100 } (30 * Minute),
     Effect.removeAll jobDir]

/-- The part of the job that follows the download block. -/
def processJob (env : Env) (w : World) (jobDir taskID pType url curPath curName imgFormat : String)
    (crf width fps quality : Int) : List Effect :=
  let a := acquireLocal jobDir url curPath curName
  let curPath := a.2.1
  let curName := a.2.2
  let outName := outName pType imgFormat curName
  let outPath := filepath.Join [jobDir, outName]
  let r := transform w.conv w.transcode taskID pType curPath outPath crf width fps quality
  a.1 ++ r.followedBy w.transcodeSched (finish env jobDir taskID outName outPath r.result)

/-- The background function started by `POST /upload`: its trace of effects.
When the download never returns the job goes no further. -/
def uploadJob (env : Env) (w : World) (taskID pType url srcPath filename imgFormat : String)
    (crf width fps quality : Int) : List Effect :=
  let jobDir := filepath.Join [env.tempDir, "app", taskID]
  let t0 := [Effect.mkdirAll jobDir]
  if url ≠ "" then
    let r := yt.DownloadWithProgress w.conv env.envYtDlp w.fetch taskID url env.proxy jobDir
    t0 ++ r.followedBy w.downloadSched
      (match r.result with
       | none => []
       | some (.error e) =>
         [Effect.set { ID := taskID, Status := "failed", Error := "download failed: " ++ e }
            (30 * Minute)]
       | some (.ok f) =>
         processJob env w jobDir taskID pType url f (filepath.Base f) imgFormat
           crf width fps quality)
  else
    t0 ++ processJob env w jobDir taskID pType url srcPath filename imgFormat crf width fps quality

/-- The form of a `POST /upload` request as the handler reads it: the text
fields, the four numbers as `strconv.Atoi` returned them, the name of the
uploaded file (`none` when `FormFile` fails) and the error of
`SaveUploadedFile`. -/
structure Form where
  pType : String
  crf : Int
  width : Int
  fps : Int
  quality : Int
  img_format : String
  url : String
  file : Option String
  saveErr : Option String

/-- The handler of `POST /upload` with the job it starts, the job placed after
the first record: the trace of effects for a request that is given the task
id `taskID`. A request the handler rejects writes no record. -/
def upload (env : Env) (w : World) (form : Form) (taskID : String) : List Effect :=
  let imgFormat := strings.ToLower (strings.TrimSpace form.img_format)
  let url := strings.TrimSpace form.url
  let init := Effect.set { ID := taskID, Status := "processing", Stage := "init", Percent := 0 }
    (30 * Minute)
  if url = "" then
    match form.file with
    | none => []
    | some filename =>
      let srcPath := filepath.Join [env.uploadsPath, filename]
      match form.saveErr with
      | some _ => [Effect.saveUploadedFile srcPath]
      | none =>
        Effect.saveUploadedFile srcPath :: init ::
          uploadJob env w taskID form.pType url srcPath filename imgFormat
            form.crf form.width form.fps form.quality
  else
    init :: uploadJob env w taskID form.pType url "" "" imgFormat
      form.crf form.width form.fps form.quality

end httpapi

/-! ## Package `transcoding` -/

namespace transcoding

/-- The character a byte stands for in a Go string built by
`string([]byte\x7b...\x7d)`: the ASCII character for a byte below 128. A byte
from 128 on that no continuation byte follows is not valid UTF-8; it reads as
the rune U+FFFD, which is written here. -/
def byteChar (b : Int) : Char :=
  if 0 ≤ b ∧ b < 128 then Char.ofNat b.toNat else Char.ofNat 0xFFFD

/-- Go `transcoding.itoa`: the two bytes `0x30 + v/10` and `0x30 + v%10`
(`0x30` is the character `0`), each converted to `byte` (reduced modulo 256),
as a string with white space trimmed. -/
def itoa (v : Int) : String :=
  strings.TrimSpace
    (String.mk [byteChar ((48 + Int.tdiv v 10) % 256), byteChar ((48 + Int.tmod v 10) % 256)])

end transcoding

/-! ## Sample inputs -/

namespace Sample

/-- A backend over the one-point state whose calls all fail; it stands for
the redis client of a server whose store has no client. -/
def deadBackend : store.Backend Unit :=
  { set := fun r _ _ _ => (r, some "connection refused"),
    get := fun _ _ => .error "connection refused",
    marshal := fun _ => "",
    unmarshal := fun _ => none }

/-- A task record as the job writes it during a transcode. -/
def task : store.TaskStatus :=
  { ID := "6f1c", Status := "processing", Stage := "transcode", Percent := 42 }

/-- An ffmpeg run on a two-minute input whose progress goes from 30 s to
60 s; every probe and the process succeed. -/
def run : ffmpeg.Transcode :=
  { dur := Float64.fin 120, derr := none, props := ⟨1920, 1080, Float64.fin 30, none⟩,
    stdoutPipeErr := none, stderrPipeErr := none, startErr := none,
    lines := ["out_time_ms=30000000\n", "progress=continue\n", "out_time_ms=60000000\n"],
    waitErr := none }

/-- A yt-dlp whose `--get-filename` run fails. -/
def deadFetch : yt.Fetch :=
  { nameOut := "", nameErr := some "exit status 1", startErr := none, lines := [],
    blocks := false, waitErr := none }

/-- A yt-dlp that fetches `/tmp/app/6f1c/clip.mp4` and reports its progress
on two lines. -/
def goodFetch : yt.Fetch :=
  { nameOut := "/tmp/app/6f1c/clip.mp4\n", nameErr := none, startErr := none,
    lines := ["[download]  37.5% of 10.00MiB", "[download] 100.0% of 10.00MiB"],
    blocks := false, waitErr := none }

/-- A yt-dlp whose download run fills the pipe of its standard error, which
no one reads, and so never exits. -/
def stuckFetch : yt.Fetch :=
  { nameOut := "/tmp/app/6f1c/clip.mp4\n", nameErr := none, startErr := none, lines := [],
    blocks := true, waitErr := none }

/-- The surroundings of a server started in its source directory. -/
def env : httpapi.Env :=
  { tempDir := "/tmp", uploadsPath := "uploads", proxy := "", envYtDlp := "" }

/-- A request that asks for the compression of a remote video. -/
def urlForm : httpapi.Form :=
  { pType := "video_compress", crf := 28, width := 1280, fps := 30, quality := 0,
    img_format := "", url := "https://example.org/v", file := none, saveErr := none }

/-- An ffmpeg run that prints nothing and exits with an error; the duration
probe failed too. -/
def failedRun : ffmpeg.Transcode :=
  { dur := Float64.fin 0, derr := some "ffprobe: cannot determine duration",
    props := ⟨0, 0, Float64.fin 0, some "exit status 1"⟩,
    stdoutPipeErr := none, stderrPipeErr := none, startErr := none, lines := [],
    waitErr := some "exit status 1" }

/-- An ffmpeg run that prints nothing and succeeds. -/
def quietRun : ffmpeg.Transcode :=
  { dur := Float64.fin 0, derr := some "ffprobe: cannot determine duration",
    props := ⟨0, 0, Float64.fin 0, some "exit status 1"⟩,
    stdoutPipeErr := none, stderrPipeErr := none, startErr := none, lines := [],
    waitErr := none }

/-- A world on amd64 in which each reader goroutine makes all its calls
before the job goes on. -/
def world (f : yt.Fetch) (t : ffmpeg.Transcode) : httpapi.World :=
  { fetch := f, transcode := t, conv := Float64.amd64, downloadSched := [],
    transcodeSched := [] }

/-- A world on amd64 in which the reader goroutines come late: after the start
of a child process the job makes its next calls first (up to sixteen after the
start of the download, up to eight after the start of ffmpeg), and the reader
goroutine makes its calls after them. -/
def lateWorld (f : yt.Fetch) (t : ffmpeg.Transcode) : httpapi.World :=
  { fetch := f, transcode := t, conv := Float64.amd64,
    downloadSched := [false, false, false, false, false, false, false, false, false, false,
      false, false, false, false, false, false],
    transcodeSched := [false, false, false, false, false, false, false, false] }

/-- The output of the properties probe for a stream that reports no
dimensions and a frame-rate of 25. -/
def noDimensions : execx.Result :=
  { out := "0\n0\n25/1\n25/1\n", errStr := "", err := none }

/-- The output of a duration probe that reports 120.5 seconds. -/
def twoMinutes : execx.Result := { out := "120.5\n", errStr := "", err := none }

/-- The output of a probe that has no value to report. -/
def notAvailable : execx.Result := { out := "N/A\n", errStr := "", err := none }

end Sample

/-! ## Vocabulary of the specification -/

namespace Spec

/-- The number written by a list of decimal digits. -/
def digitsValue (ds : List Char) : Nat :=
  ds.foldl (fun n c => 10 * n + (c.toNat - 48)) 0

/-- The specification's percentage token `<1-3 digits>.<digits>`: `a` is the
integer part, `b` the fraction part, both made of ASCII digits. -/
def IsToken (a b : List Char) : Prop :=
  1 ≤ a.length ∧ a.length ≤ 3 ∧ (∀ c ∈ a, yt.isDigit c = true) ∧
  b ≠ [] ∧ (∀ c ∈ b, yt.isDigit c = true)

/-- The token `a.b%` stands in `line` at offset `n`. -/
def TokenAt (line : List Char) (n : Nat) (a b : List Char) : Prop :=
  IsToken a b ∧ ∃ post, line.drop n = a ++ '.' :: b ++ '%' :: post

/-- The value of the token `a.b`. -/
def tokenValue (a b : List Char) : ℚ :=
  (digitsValue a : ℚ) + (digitsValue b : ℚ) / 10 ^ b.length

/-- A number clamped to the interval from `lo` to `hi`. -/
def clamp (lo hi n : Int) : Int := max lo (min hi n)

/-- The nearest integer to `x`, the upper one when `x` lies half way. -/
def nearest (x : ℚ) : Int := ⌊x + 1 / 2⌋

/-- The percent the specification states for a known duration `d`:
`((v/1e6)/d*100)` rounded to the nearest integer and clamped to `[0, 99]`. -/
def knownPercent (d v : ℚ) : Int := clamp 0 99 (nearest (v / 1000000 / d * 100))

/-- The percent the specification states for an unknown duration:
`(v/1e6)/120*90` truncated to an integer and clamped to `[0, 90]`. -/
def unknownPercent (v : ℚ) : Int := clamp 0 90 (Float64.trunc (v / 1000000 / 120 * 90))

/-- The percent the specification states for a token of the fetch decoder:
its value rounded to the nearest integer and clamped to `[0, 100]`. -/
def tokenPercent (a b : List Char) : Int := clamp 0 100 (nearest (tokenValue a b))

/-- A completed record: status `completed`, an output file and no error. -/
def Completed (t : store.TaskStatus) : Prop :=
  t.Status = "completed" ∧ t.OutputFile ≠ "" ∧ t.Error = ""

/-- A failed record: status `failed`, an error and no output file. -/
def Failed (t : store.TaskStatus) : Prop :=
  t.Status = "failed" ∧ t.Error ≠ "" ∧ t.OutputFile = ""

/-- A record of a task under way: status `pending` or `processing`, neither an
output file nor an error. -/
def Running (t : store.TaskStatus) : Prop :=
  (t.Status = "pending" ∨ t.Status = "processing") ∧ t.Error = "" ∧ t.OutputFile = ""

/-- The invariant of a task record: exactly one of completed, failed and
running holds, and a record with status `completed` has percent 100. -/
def RecordInvariant (t : store.TaskStatus) : Prop :=
  ((Completed t ∧ ¬ Failed t ∧ ¬ Running t) ∨
   (¬ Completed t ∧ Failed t ∧ ¬ Running t) ∨
   (¬ Completed t ∧ ¬ Failed t ∧ Running t)) ∧
  (t.Status = "completed" → t.Percent = 100)

/-- The job directory of a task. -/
def jobDir (env : httpapi.Env) (taskID : String) : String :=
  filepath.Join [env.tempDir, "app", taskID]

/-- The fetch step of a job returns: the input is a local file, or
`cmd.Wait` of the download comes back. -/
def fetchReturns (env : httpapi.Env) (w : httpapi.World) (taskID url : String) : Prop :=
  url = "" ∨
  (yt.DownloadWithProgress w.conv env.envYtDlp w.fetch taskID url env.proxy
    (jobDir env taskID)).result ≠ none

/-- The error the fetch step of a job returns: `none` for a local file, for a
fetch that succeeds and for one that never returns. -/
def fetchErr (env : httpapi.Env) (w : httpapi.World) (taskID url : String) : Option String :=
  if url ≠ "" then
    match (yt.DownloadWithProgress w.conv env.envYtDlp w.fetch taskID url env.proxy
        (jobDir env taskID)).result with
    | some (.error e) => some e
    | _ => none
  else none

/-- The path and the name of the source file of a job after the fetch step:
the fetched file for a URL input, the uploaded file otherwise; `none` when
the fetch step failed or never returned. -/
def jobSource (env : httpapi.Env) (w : httpapi.World) (taskID url srcPath filename : String) :
    Option (String × String) :=
  if url ≠ "" then
    match (yt.DownloadWithProgress w.conv env.envYtDlp w.fetch taskID url env.proxy
        (jobDir env taskID)).result with
    | some (.ok f) => some (f, filepath.Base f)
    | _ => none
  else some (srcPath, filename)

/-- The call of the switch of the job on its source: `none` when the fetch
step failed or never returned (the switch is not reached). -/
def jobTransform (env : httpapi.Env) (w : httpapi.World)
    (taskID pType url srcPath filename imgFormat : String) (crf width fps quality : Int) :
    Option (Started (Option String)) :=
  match jobSource env w taskID url srcPath filename with
  | none => none
  | some src =>
    let a := httpapi.acquireLocal (jobDir env taskID) url src.1 src.2
    some (httpapi.transform w.conv w.transcode taskID pType a.2.1
      (filepath.Join [jobDir env taskID, httpapi.outName pType imgFormat a.2.2])
      crf width fps quality)

/-- The error the chosen transform of a job returns: `none` when the switch
is not reached, when no transform is chosen and when the transform
succeeds. -/
def transformErr (env : httpapi.Env) (w : httpapi.World)
    (taskID pType url srcPath filename imgFormat : String) (crf width fps quality : Int) :
    Option String :=
  match jobTransform env w taskID pType url srcPath filename imgFormat crf width fps quality with
  | none => none
  | some r => r.result

/-- The final record of a trace: the last record passed to `Store.Set`. -/
def finalRecord (trace : List Effect) : Option store.TaskStatus := (records trace).getLast?

/-- A terminal record: its status is `failed` or `completed`. -/
def isTerminal (t : store.TaskStatus) : Bool := t.Status == "failed" || t.Status == "completed"

/-- The terminal records of a trace, in order. -/
def terminalRecords (trace : List Effect) : List store.TaskStatus :=
  (records trace).filter isTerminal

/-- An effect that touches the media: a call of one of the two probes, or a
child process started with the arguments of `runWithProgress` (they begin
with `-y`). -/
def isMediaCall : Effect → Bool
  | Effect.duration _ => true
  | Effect.videoProps _ => true
  | Effect.exec _ args => args.head? == some "-y"
  | _ => false

/-- An effect that removes a directory tree. -/
def isRemoveAll : Effect → Bool
  | Effect.removeAll _ => true
  | _ => false

/-- The number a duration probe reports: the probe ran without error and its
trimmed output parses without error. -/
def probeValue (r : execx.Result) : Option Float64 :=
  match r.err with
  | none =>
    match strconv.ParseFloat (strings.TrimSpace r.out) with
    | (v, none) => some v
    | (_, some _) => none
  | some _ => none

/-- The number a line of the stream probe reports: the line is neither empty
nor `N/A` and parses, trimmed, without error. -/
def streamValue (ln : String) : Option Float64 :=
  if ln = "N/A" ∨ ln = "" then none
  else
    match strconv.ParseFloat (strings.TrimSpace ln) with
    | (v, none) => some v
    | (_, some _) => none

/-- The durations of the streams a probe reports: the values of the lines of
its trimmed output, none when the probe failed. -/
def streamValues (r : execx.Result) : List Float64 :=
  match r.err with
  | none => (strings.Split (strings.TrimSpace r.out) '\n').filterMap streamValue
  | some _ => []

/-- A probe gives a positive value. -/
def probePositive (r : execx.Result) : Prop :=
  ∃ v, probeValue r = some v ∧ Float64.lt (Float64.fin 0) v = true

/-- Some stream of the probe has a positive duration. -/
def streamPositive (r : execx.Result) : Prop :=
  ∃ v ∈ streamValues r, Float64.lt (Float64.fin 0) v = true

/-- The lines of the output of the properties probe, as `VideoProps` splits
them. -/
def propsLines (r : execx.Result) : List String :=
  strings.Split (strings.TrimSpace r.out) '\n'

/-- The width `VideoProps` parses: the first line read by `strconv.Atoi`. -/
def parsedWidth (r : execx.Result) : Int :=
  if (propsLines r).length ≥ 1 then
    (strconv.Atoi (strings.TrimSpace ((propsLines r).getD 0 ""))).1
  else 0

/-- The height `VideoProps` parses: the second line read by `strconv.Atoi`. -/
def parsedHeight (r : execx.Result) : Int :=
  if (propsLines r).length ≥ 2 then
    (strconv.Atoi (strings.TrimSpace ((propsLines r).getD 1 ""))).1
  else 0

end Spec

end Comp

/-! ## Lemmas on the numeric conversions -/

namespace Comp

namespace Float64

theorem trunc_of_nonneg {x : ℚ} (h : 0 ≤ x) : trunc x = ⌊x⌋ := by
  unfold trunc
  rw [Rat.floor_def]
  exact Int.tdiv_eq_ediv (Rat.num_nonneg.mpr h) (by exact_mod_cast Nat.zero_le _)

theorem trunc_neg (x : ℚ) : trunc (-x) = - trunc x := by
  unfold trunc
  simp [Int.neg_tdiv]

theorem trunc_of_nonpos {x : ℚ} (h : x ≤ 0) : trunc x = ⌈x⌉ := by
  have h1 : trunc (-x) = ⌊-x⌋ := trunc_of_nonneg (by linarith)
  rw [trunc_neg, Int.floor_neg] at h1
  omega

theorem trunc_mono {x y : ℚ} (h : x ≤ y) : trunc x ≤ trunc y := by
  rcases le_total 0 x with hx | hx
  · rw [trunc_of_nonneg hx, trunc_of_nonneg (le_trans hx h)]
    exact Int.floor_mono h
  · rcases le_total 0 y with hy | hy
    · rw [trunc_of_nonpos hx, trunc_of_nonneg hy]
      have h1 : ⌈x⌉ ≤ 0 := Int.ceil_le.mpr (by simpa using hx)
      have h2 : 0 ≤ ⌊y⌋ := Int.floor_nonneg.mpr hy
      omega
    · rw [trunc_of_nonpos hx, trunc_of_nonpos hy]
      exact Int.ceil_mono h

theorem roundHalfEven_intCast (n : Int) : roundHalfEven (n : ℚ) = n := by
  unfold roundHalfEven
  simp

theorem roundHalfEven_bounds (x : ℚ) :
    (roundHalfEven x : ℚ) ≤ x + 1 / 2 ∧ x - 1 / 2 ≤ roundHalfEven x := by
  have h1 := Int.floor_le x
  have h2 := Int.lt_floor_add_one x
  unfold roundHalfEven
  split_ifs <;> push_cast <;> constructor <;> linarith

theorem roundHalfEven_mono {x y : ℚ} (h : x ≤ y) : roundHalfEven x ≤ roundHalfEven y := by
  have hf := Int.floor_mono h
  rcases hf.lt_or_eq with hlt | heq
  · have h1 : roundHalfEven x ≤ ⌊x⌋ + 1 := by
      unfold roundHalfEven
      split_ifs <;> omega
    have h2 : ⌊y⌋ ≤ roundHalfEven y := by
      unfold roundHalfEven
      split_ifs <;> omega
    omega
  · unfold roundHalfEven
    rw [heq]
    split_ifs <;> first | omega | (exfalso; linarith)

theorem two_zpow_pos (e : Int) : (0 : ℚ) < 2 ^ e := zpow_pos (by norm_num) e

theorem ulpExp_ge (q : ℚ) : -1074 ≤ ulpExp q := le_max_right _ _

theorem ulpExp_mono {q1 q2 : ℚ} (h0 : 0 < q1) (h : q1 ≤ q2) : ulpExp q1 ≤ ulpExp q2 := by
  unfold ulpExp
  have := Int.log_mono_right (b := 2) h0 h
  exact max_le_max (by omega) le_rfl

theorem lt_pow_ulpExp {q : ℚ} : q < 2 ^ (ulpExp q + 53) := by
  have h1 := Int.lt_zpow_succ_log_self (b := 2) (by norm_num) q
  have h2 : Int.log 2 q + 1 ≤ ulpExp q + 53 := by
    have : Int.log 2 q - 52 ≤ ulpExp q := le_max_left _ _
    omega
  have h3 : (2 : ℚ) ^ (Int.log 2 q + 1) ≤ 2 ^ (ulpExp q + 53) :=
    zpow_le_zpow_right₀ (by norm_num) h2
  calc q < ((2 : ℕ) : ℚ) ^ (Int.log 2 q + 1) := h1
    _ = (2 : ℚ) ^ (Int.log 2 q + 1) := by norm_num
    _ ≤ _ := h3

theorem pow_ulpExp_le {q : ℚ} (h0 : 0 < q) (he : -1074 < ulpExp q) :
    (2 : ℚ) ^ (ulpExp q + 52) ≤ q := by
  have h1 := Int.zpow_log_le_self (b := 2) (by norm_num) h0
  have h2 : ulpExp q = Int.log 2 q - 52 := by
    unfold ulpExp at he ⊢
    rcases max_cases (Int.log 2 q - 52) (-1074) with ⟨h, _⟩ | ⟨h, _⟩
    · exact h
    · omega
  have h3 : ulpExp q + 52 = Int.log 2 q := by omega
  rw [h3]
  calc (2 : ℚ) ^ Int.log 2 q = ((2 : ℕ) : ℚ) ^ Int.log 2 q := by norm_num
    _ ≤ q := h1

theorem roundHalfEven_zero : roundHalfEven 0 = 0 := by
  simpa using roundHalfEven_intCast 0

theorem roundHalfEven_eq_of_abs_lt {x : ℚ} {n : Int} (h : |x - n| < 1 / 2) :
    roundHalfEven x = n := by
  obtain ⟨h1, h2⟩ := roundHalfEven_bounds x
  rw [abs_lt] at h
  have h3 : ((roundHalfEven x - n : Int) : ℚ) < 1 := by
    push_cast
    linarith [h.1, h.2]
  have h4 : (-1 : ℚ) < ((roundHalfEven x - n : Int) : ℚ) := by
    push_cast
    linarith [h.1, h.2]
  have h5 : roundHalfEven x - n < 1 := by exact_mod_cast h3
  have h6 : -1 < roundHalfEven x - n := by exact_mod_cast h4
  omega

theorem roundMag_zero : roundMag 0 = 0 := by
  unfold roundMag
  simp [roundHalfEven_zero]

theorem roundMag_nonneg {q : ℚ} (h : 0 ≤ q) : 0 ≤ roundMag q := by
  unfold roundMag
  have h1 : 0 ≤ q / 2 ^ ulpExp q := div_nonneg h (two_zpow_pos _).le
  have h2 := roundHalfEven_mono h1
  rw [roundHalfEven_zero] at h2
  exact mul_nonneg (by exact_mod_cast h2) (two_zpow_pos _).le

theorem roundMag_le_pow (q : ℚ) : roundMag q ≤ 2 ^ (ulpExp q + 53) := by
  unfold roundMag
  have h1 : q / 2 ^ ulpExp q ≤ ((2 ^ 53 : Int) : ℚ) := by
    rw [div_le_iff₀ (two_zpow_pos _)]
    have h := (lt_pow_ulpExp (q := q)).le
    rw [zpow_add₀ (by norm_num)] at h
    push_cast
    linarith [h]
  have h2 := roundHalfEven_mono h1
  rw [roundHalfEven_intCast] at h2
  have h3 : (roundHalfEven (q / 2 ^ ulpExp q) : ℚ) ≤ 2 ^ 53 := by exact_mod_cast h2
  rw [zpow_add₀ (by norm_num)]
  have h4 := mul_le_mul_of_nonneg_right h3 (two_zpow_pos (ulpExp q)).le
  linarith [h4]

theorem pow_le_roundMag {q : ℚ} (h0 : 0 < q) (he : -1074 < ulpExp q) :
    (2 : ℚ) ^ (ulpExp q + 52) ≤ roundMag q := by
  unfold roundMag
  have h1 : ((2 ^ 52 : Int) : ℚ) ≤ q / 2 ^ ulpExp q := by
    rw [le_div_iff₀ (two_zpow_pos _)]
    have h := pow_ulpExp_le h0 he
    rw [zpow_add₀ (by norm_num)] at h
    push_cast
    linarith [h]
  have h2 := roundHalfEven_mono h1
  rw [roundHalfEven_intCast] at h2
  have h3 : (2 ^ 52 : ℚ) ≤ (roundHalfEven (q / 2 ^ ulpExp q) : ℚ) := by exact_mod_cast h2
  rw [zpow_add₀ (by norm_num)]
  have h4 := mul_le_mul_of_nonneg_right h3 (two_zpow_pos (ulpExp q)).le
  linarith [h4]

theorem roundMag_mono {q1 q2 : ℚ} (h0 : 0 ≤ q1) (h : q1 ≤ q2) : roundMag q1 ≤ roundMag q2 := by
  rcases h0.lt_or_eq with hpos | hz
  · have he := ulpExp_mono hpos h
    rcases he.lt_or_eq with hlt | heq
    · have h1 := roundMag_le_pow q1
      have h2 := pow_le_roundMag (lt_of_lt_of_le hpos h)
        (lt_of_le_of_lt (ulpExp_ge q1) hlt)
      have h3 : (2 : ℚ) ^ (ulpExp q1 + 53) ≤ 2 ^ (ulpExp q2 + 52) :=
        zpow_le_zpow_right₀ (by norm_num) (by omega)
      linarith
    · unfold roundMag
      rw [heq]
      apply mul_le_mul_of_nonneg_right _ (two_zpow_pos _).le
      have := roundHalfEven_mono (div_le_div_of_nonneg_right h (two_zpow_pos (ulpExp q2)).le)
      exact_mod_cast this
  · rw [← hz, roundMag_zero]
    exact roundMag_nonneg (hz ▸ h)

theorem ulpExp_le_of_lt {q : ℚ} {k : Int} (h0 : 0 < q) (h : q < 2 ^ (k + 53))
    (hk : -1074 ≤ k) : ulpExp q ≤ k := by
  have h1 : Int.log 2 q < k + 53 := by
    rw [← Int.lt_zpow_iff_log_lt (by norm_num) h0]
    simpa using h
  unfold ulpExp
  exact max_le (by omega) hk

theorem ulpExp_eq {q : ℚ} {e : Int} (h1 : (2 : ℚ) ^ (e + 52) ≤ q) (h2 : q < 2 ^ (e + 53))
    (he : -1074 ≤ e) : ulpExp q = e := by
  have h0 : 0 < q := lt_of_lt_of_le (two_zpow_pos _) h1
  have h3 : e + 52 ≤ Int.log 2 q := by
    rw [← Int.zpow_le_iff_le_log (by norm_num) h0]
    simpa using h1
  have h4 := ulpExp_le_of_lt h0 h2 he
  have h5 : Int.log 2 q - 52 ≤ ulpExp q := le_max_left _ _
  omega

theorem ulpExp_subnormal {q : ℚ} (h0 : 0 < q) (h2 : q < 2 ^ (-1021 : Int)) :
    ulpExp q = -1074 :=
  le_antisymm (ulpExp_le_of_lt h0 (by simpa using h2) le_rfl) (ulpExp_ge q)

theorem roundMag_repr (n : Nat) (k : Int) (hn : n < 2 ^ 53) (hk : -1074 ≤ k) :
    roundMag ((n : ℚ) * 2 ^ k) = (n : ℚ) * 2 ^ k := by
  rcases Nat.eq_zero_or_pos n with hz | hpos
  · subst hz
    simp [roundMag_zero]
  · have hq : (0 : ℚ) < (n : ℚ) * 2 ^ k := mul_pos (by exact_mod_cast hpos) (two_zpow_pos _)
    have hlt : (n : ℚ) * 2 ^ k < 2 ^ (k + 53) := by
      rw [zpow_add₀ (by norm_num), mul_comm ((2 : ℚ) ^ k)]
      apply mul_lt_mul_of_pos_right _ (two_zpow_pos _)
      exact_mod_cast hn
    have he := ulpExp_le_of_lt hq hlt hk
    unfold roundMag
    generalize ulpExp ((n : ℚ) * 2 ^ k) = e at he
    obtain ⟨m, hm⟩ := Int.eq_ofNat_of_zero_le (show 0 ≤ k - e by omega)
    have hk2 : k = e + m := by omega
    have hx : (n : ℚ) * 2 ^ k / 2 ^ e = ((n * 2 ^ m : Nat) : Int) := by
      rw [hk2, zpow_add₀ (by norm_num), zpow_natCast]
      field_simp
      ring
    rw [hx, roundHalfEven_intCast, hk2, zpow_add₀ (by norm_num), zpow_natCast]
    push_cast
    ring

theorem roundMag_err {q : ℚ} (h0 : 0 ≤ q) :
    |roundMag q - q| ≤ q / 2 ^ 53 + 1 / 2 ^ 1075 := by
  rcases h0.lt_or_eq with hpos | hz
  · obtain ⟨h1, h2⟩ := roundHalfEven_bounds (q / 2 ^ ulpExp q)
    have hp := two_zpow_pos (ulpExp q)
    have hq : q = q / 2 ^ ulpExp q * 2 ^ ulpExp q := by field_simp
    have hbound : (2 : ℚ) ^ ulpExp q ≤ q / 2 ^ 52 + 1 / 2 ^ 1074 := by
      rcases (ulpExp_ge q).lt_or_eq with hlt | heq
      · have h3 := pow_ulpExp_le hpos hlt
        rw [zpow_add₀ (by norm_num)] at h3
        have h4 : (2 : ℚ) ^ ulpExp q ≤ q / 2 ^ 52 := by
          rw [le_div_iff₀ (by norm_num)]
          norm_num at h3 ⊢
          linarith [h3]
        linarith [show (0 : ℚ) < 1 / 2 ^ 1074 by positivity]
      · rw [← heq]
        have : (2 : ℚ) ^ (-1074 : Int) = 1 / 2 ^ 1074 := by
          norm_num
        rw [this]
        linarith [show (0 : ℚ) ≤ q / 2 ^ 52 by positivity]
    have herr : |roundMag q - q| ≤ 2 ^ ulpExp q / 2 := by
      unfold roundMag
      rw [abs_le]
      constructor
      · nlinarith [h1, h2, hp, hq]
      · nlinarith [h1, h2, hp, hq]
    have e1 : q / 2 ^ 53 = q / 2 ^ 52 / 2 := by ring
    have e2 : (1 : ℚ) / 2 ^ 1075 = 1 / 2 ^ 1074 / 2 := by ring
    rw [e1, e2]
    linarith
  · rw [← hz, roundMag_zero]
    simp

theorem roundMag_near {q : ℚ} {e n : Int} (he : ulpExp q = e) (hn : |q / 2 ^ e - n| < 1 / 2) :
    roundMag q = (n : ℚ) * 2 ^ e := by
  unfold roundMag
  rw [he, roundHalfEven_eq_of_abs_lt hn]

theorem round_of_nonneg {q : ℚ} (h : 0 ≤ q) : round q = roundMag q := by
  unfold round
  rw [if_neg (not_lt.mpr h)]

theorem round_of_neg {q : ℚ} (h : q < 0) : round q = - roundMag (-q) := by
  unfold round
  rw [if_pos h]

theorem round_zero : round 0 = 0 := by
  rw [round_of_nonneg le_rfl, roundMag_zero]

theorem round_neg (q : ℚ) : round (-q) = - round q := by
  rcases lt_trichotomy q 0 with h | h | h
  · rw [round_of_neg h, round_of_nonneg (by linarith : (0 : ℚ) ≤ -q)]
    simp
  · subst h
    simp [round_zero]
  · rw [round_of_neg (by linarith : -q < 0), round_of_nonneg h.le]
    simp

theorem round_nonneg {q : ℚ} (h : 0 ≤ q) : 0 ≤ round q := by
  rw [round_of_nonneg h]
  exact roundMag_nonneg h

theorem round_nonpos {q : ℚ} (h : q ≤ 0) : round q ≤ 0 := by
  have h1 := round_nonneg (by linarith : (0 : ℚ) ≤ -q)
  rw [round_neg] at h1
  linarith

theorem round_mono {q1 q2 : ℚ} (h : q1 ≤ q2) : round q1 ≤ round q2 := by
  rcases lt_or_le q1 0 with h1 | h1
  · rcases lt_or_le q2 0 with h2 | h2
    · rw [round_of_neg h1, round_of_neg h2]
      have := roundMag_mono (by linarith : (0 : ℚ) ≤ -q2) (by linarith : -q2 ≤ -q1)
      linarith
    · have := round_nonpos h1.le
      have := round_nonneg h2
      linarith
  · rw [round_of_nonneg h1, round_of_nonneg (le_trans h1 h)]
    exact roundMag_mono h1 h

theorem round_repr (n k : Int) (hn : |n| < 2 ^ 53) (hk : -1074 ≤ k) :
    round ((n : ℚ) * 2 ^ k) = (n : ℚ) * 2 ^ k := by
  rcases le_total 0 n with h | h
  · obtain ⟨m, rfl⟩ := Int.eq_ofNat_of_zero_le h
    have hm : m < 2 ^ 53 := by
      rw [abs_of_nonneg h] at hn
      exact_mod_cast hn
    rw [round_of_nonneg (mul_nonneg (by exact_mod_cast h) (two_zpow_pos _).le)]
    exact_mod_cast roundMag_repr m k hm hk
  · obtain ⟨m, hm⟩ := Int.eq_ofNat_of_zero_le (show 0 ≤ -n by omega)
    have hm2 : m < 2 ^ 53 := by
      rw [abs_of_nonpos h, hm] at hn
      exact_mod_cast hn
    have hn2 : n = -(m : Int) := by omega
    rw [hn2]
    push_cast
    rw [neg_mul, round_neg,
      round_of_nonneg (mul_nonneg (by exact_mod_cast Nat.zero_le m) (two_zpow_pos _).le)]
    rw [roundMag_repr m k hm2 hk]

theorem round_int (n : Int) (hn : |n| < 2 ^ 53) : round (n : ℚ) = n := by
  have := round_repr n 0 hn (by norm_num)
  simpa using this

theorem round_dyadic (n : Int) (k : Nat) (hn : |n| < 2 ^ 53) (hk : k ≤ 1074) :
    round ((n : ℚ) / 2 ^ k) = (n : ℚ) / 2 ^ k := by
  have := round_repr n (-(k : Int)) hn (by omega)
  rw [zpow_neg, zpow_natCast] at this
  rw [div_eq_mul_inv]
  exact this

theorem round_err (q : ℚ) : |round q - q| ≤ |q| / 2 ^ 53 + 1 / 2 ^ 1075 := by
  rcases lt_or_le q 0 with h | h
  · rw [round_of_neg h, abs_of_neg h]
    have := roundMag_err (by linarith : (0 : ℚ) ≤ -q)
    rw [show -roundMag (-q) - q = -(roundMag (-q) - -q) by ring, abs_neg]
    exact this
  · rw [round_of_nonneg h, abs_of_nonneg h]
    exact roundMag_err h

theorem round_eval {q : ℚ} (k n : Nat) (hk : k ≤ 1074) (h1 : (2 : ℚ) ^ 52 ≤ q * 2 ^ k)
    (h2 : q * 2 ^ k < 2 ^ 53) (hn : |q * 2 ^ k - n| < 1 / 2) :
    round q = (n : ℚ) / 2 ^ k := by
  have hp : (0 : ℚ) < 2 ^ k := by positivity
  have hq : 0 < q := by
    by_contra hc
    have : q * 2 ^ k ≤ 0 := mul_nonpos_of_nonpos_of_nonneg (not_lt.mp hc) hp.le
    linarith [show (0 : ℚ) < 2 ^ 52 by norm_num]
  have hz : (2 : ℚ) ^ (-(k : Int)) = 1 / 2 ^ k := by
    rw [zpow_neg, zpow_natCast]
    simp
  have he : ulpExp q = -(k : Int) := by
    apply ulpExp_eq
    · rw [zpow_add₀ (by norm_num), hz]
      rw [show ((2 : ℚ) ^ (52 : Int)) = 2 ^ 52 by norm_num, one_div_mul_eq_div,
        div_le_iff₀ hp]
      exact h1
    · rw [zpow_add₀ (by norm_num), hz]
      rw [show ((2 : ℚ) ^ (53 : Int)) = 2 ^ 53 by norm_num, one_div_mul_eq_div,
        lt_div_iff₀ hp]
      exact h2
    · omega
  rw [round_of_nonneg hq.le]
  have hn2 : |q / 2 ^ (-(k : Int)) - ((n : Int) : ℚ)| < 1 / 2 := by
    rw [hz]
    simpa using hn
  rw [roundMag_near he hn2, hz]
  push_cast
  ring

theorem round_eval_pos {q : ℚ} (e n : Nat) (h1 : (2 : ℚ) ^ 52 ≤ q / 2 ^ e)
    (h2 : q / 2 ^ e < 2 ^ 53) (hn : |q / 2 ^ e - n| < 1 / 2) :
    round q = (n : ℚ) * 2 ^ e := by
  have hp : (0 : ℚ) < 2 ^ e := by positivity
  have hq : 0 < q := by
    have := lt_of_lt_of_le (by norm_num : (0 : ℚ) < 2 ^ 52) h1
    exact (div_pos_iff_of_pos_right hp).mp this
  have hz : (2 : ℚ) ^ ((e : Int)) = 2 ^ e := zpow_natCast 2 e
  have he : ulpExp q = (e : Int) := by
    apply ulpExp_eq
    · rw [zpow_add₀ (by norm_num), hz]
      rw [show ((2 : ℚ) ^ (52 : Int)) = 2 ^ 52 by norm_num]
      rw [le_div_iff₀ hp] at h1
      linarith
    · rw [zpow_add₀ (by norm_num), hz]
      rw [show ((2 : ℚ) ^ (53 : Int)) = 2 ^ 53 by norm_num]
      rw [div_lt_iff₀ hp] at h2
      linarith
    · omega
  rw [round_of_nonneg hq.le]
  have hn2 : |q / 2 ^ ((e : Int)) - ((n : Int) : ℚ)| < 1 / 2 := by
    rw [hz]
    simpa using hn
  rw [roundMag_near he hn2, hz]
  push_cast
  ring

theorem round_abs_le_of_abs_le {q b : ℚ} (hb : round b = b) (h : |q| ≤ b) : |round q| ≤ b := by
  rw [abs_le] at h ⊢
  constructor
  · have := round_mono h.1
    rw [round_neg, hb] at this
    exact this
  · have := round_mono h.2
    rw [hb] at this
    exact this

theorem round_pow_1023 : round (2 ^ 1023) = 2 ^ 1023 := by
  have := round_repr 1 1023 (by norm_num) (by norm_num)
  rw [Int.cast_one, one_mul, zpow_ofNat] at this
  exact this

theorem ofRat_of_lt {q : ℚ} (h : |round q| < 2 ^ 1024) : ofRat q = fin (round q) := by
  unfold ofRat
  rw [if_neg (not_le.mpr h)]

theorem ofRat_of_abs_le {q : ℚ} (h : |q| ≤ 2 ^ 1023) : ofRat q = fin (round q) := by
  apply ofRat_of_lt
  have := round_abs_le_of_abs_le round_pow_1023 h
  linarith [show (2 : ℚ) ^ 1023 < 2 ^ 1024 by norm_num]

theorem ofRat_cases (q : ℚ) : ofRat q = fin (round q) ∨ ∃ s, ofRat q = inf s := by
  unfold ofRat
  split_ifs
  · exact Or.inr ⟨_, rfl⟩
  · exact Or.inl rfl

theorem ofRat_eq_fin {q r : ℚ} (h : ofRat q = fin r) : r = round q := by
  rcases ofRat_cases q with h1 | ⟨s, h1⟩
  · rw [h1] at h
    injection h with h
    exact h.symm
  · rw [h1] at h
    cases h

theorem ofRat_eval {q : ℚ} (k n : Nat) (hk : k ≤ 1074) (h1 : (2 : ℚ) ^ 52 ≤ q * 2 ^ k)
    (h2 : q * 2 ^ k < 2 ^ 53) (hn : |q * 2 ^ k - n| < 1 / 2) :
    ofRat q = fin ((n : ℚ) / 2 ^ k) := by
  have hp : (1 : ℚ) ≤ 2 ^ k := one_le_pow₀ (by norm_num)
  have hq : 0 ≤ q := by
    by_contra hc
    have : q * 2 ^ k ≤ 0 :=
      mul_nonpos_of_nonpos_of_nonneg (not_le.mp hc).le (by positivity)
    linarith [show (0 : ℚ) < 2 ^ 52 by norm_num]
  have hq2 : q ≤ 2 ^ 53 := by nlinarith
  rw [ofRat_of_abs_le, round_eval k n hk h1 h2 hn]
  rw [abs_of_nonneg hq]
  linarith [show (2 : ℚ) ^ 53 ≤ 2 ^ 1023 by norm_num]

theorem ofRat_eval_pos {q : ℚ} (e n : Nat) (he : e ≤ 900) (h1 : (2 : ℚ) ^ 52 ≤ q / 2 ^ e)
    (h2 : q / 2 ^ e < 2 ^ 53) (hn : |q / 2 ^ e - n| < 1 / 2) :
    ofRat q = fin ((n : ℚ) * 2 ^ e) := by
  have hp : (0 : ℚ) < 2 ^ e := by positivity
  have hr := round_eval_pos e n h1 h2 hn
  rw [ofRat_of_lt, hr]
  rw [hr]
  have hn1 : (n : ℚ) - q / 2 ^ e < 1 / 2 := by
    have := (abs_lt.mp hn).1
    linarith
  have hn0 : (0 : ℚ) ≤ n := by exact_mod_cast Nat.zero_le n
  rw [abs_of_nonneg (mul_nonneg hn0 hp.le)]
  have h3 : (n : ℚ) < 2 ^ 54 := by linarith [show (2 : ℚ) ^ 53 + 1 / 2 < 2 ^ 54 by norm_num]
  have h4 : (2 : ℚ) ^ e ≤ 2 ^ 900 := pow_le_pow_right₀ (by norm_num) he
  calc (n : ℚ) * 2 ^ e ≤ 2 ^ 54 * 2 ^ 900 := mul_le_mul h3.le h4 hp.le (by norm_num)
    _ < 2 ^ 1024 := by norm_num

theorem ofRat_int (n : Int) (hn : |n| < 2 ^ 53) : ofRat (n : ℚ) = fin n := by
  rw [ofRat_of_lt, round_int n hn]
  rw [round_int n hn]
  have : |(n : ℚ)| < 2 ^ 53 := by exact_mod_cast hn
  linarith [show (2 : ℚ) ^ 53 < 2 ^ 1024 by norm_num]

theorem ofRat_dyadic (n : Int) (k : Nat) (hn : |n| < 2 ^ 53) (hk : k ≤ 1074) :
    ofRat ((n : ℚ) / 2 ^ k) = fin ((n : ℚ) / 2 ^ k) := by
  rw [ofRat_of_lt, round_dyadic n k hn hk]
  rw [round_dyadic n k hn hk]
  have h1 : |(n : ℚ)| < 2 ^ 53 := by exact_mod_cast hn
  have h2 : (1 : ℚ) ≤ 2 ^ k := one_le_pow₀ (by norm_num)
  rw [abs_div, abs_of_pos (by positivity : (0 : ℚ) < 2 ^ k)]
  calc |(n : ℚ)| / 2 ^ k ≤ |(n : ℚ)| := div_le_self (abs_nonneg _) h2
    _ < 2 ^ 1024 := by linarith [show (2 : ℚ) ^ 53 < 2 ^ 1024 by norm_num]

theorem div_fin (a b : ℚ) (hb : b ≠ 0) : div (fin a) (fin b) = ofRat (a / b) := by
  show (if b = 0 then (if a = 0 then nan else inf (decide (a < 0))) else ofRat (a / b)) = _
  rw [if_neg hb]

theorem mul_fin (a b : ℚ) : mul (fin a) (fin b) = ofRat (a * b) := rfl

theorem add_fin (a b : ℚ) : add (fin a) (fin b) = ofRat (a + b) := rfl

theorem toInt_fin (conv : Float64 → Int) {q : ℚ} (h1 : -(2 ^ 63) ≤ trunc q)
    (h2 : trunc q < 2 ^ 63) : toInt conv (fin q) = trunc q := by
  show (if fitsInt (fin q) = true then trunc q else conv (fin q)) = trunc q
  have h : fitsInt (fin q) = true := decide_eq_true ⟨h1, h2⟩
  rw [if_pos h]

theorem toInt_of_fits (conv : Float64 → Int) {x : Float64} (h : fitsInt x = true) :
    ∃ q, x = fin q ∧ toInt conv x = trunc q := by
  cases x with
  | fin q =>
    refine ⟨q, rfl, ?_⟩
    show (if fitsInt (fin q) = true then trunc q else conv (fin q)) = trunc q
    rw [if_pos h]
  | inf s => cases h
  | nan => cases h

end Float64

/-! ## Rounding error of the quotient chains of the transcode decoder -/

namespace Float64

theorem round_err_weak (q : ℚ) : |round q - q| ≤ |q| / 2 ^ 53 + 1 / 2 ^ 100 := by
  have h := round_err q
  have h2 : (1 : ℚ) / 2 ^ 1075 ≤ 1 / 2 ^ 100 := by norm_num
  linarith

theorem round_div_err (qa d : ℚ) (hd : 1 / 1000000 ≤ d) :
    |round qa / d - qa / d| ≤ |qa / d| / 2 ^ 53 + 1 / 2 ^ 100 := by
  have hd0 : 0 < d := lt_of_lt_of_le (by norm_num) hd
  have h := round_err qa
  have h1 : |round qa / d - qa / d| = |round qa - qa| / d := by
    rw [← sub_div, abs_div, abs_of_pos hd0]
  have h2 : |qa / d| = |qa| / d := by rw [abs_div, abs_of_pos hd0]
  rw [h1, h2]
  have h3 : |round qa - qa| / d ≤ (|qa| / 2 ^ 53 + 1 / 2 ^ 1075) / d :=
    div_le_div_of_nonneg_right h hd0.le
  have h4 : (1 : ℚ) / 2 ^ 1075 / d ≤ 1 / 2 ^ 100 := by
    rw [div_le_iff₀ hd0]
    have : (1 : ℚ) / 2 ^ 1075 ≤ 1 / 2 ^ 100 * (1 / 1000000) := by norm_num
    calc (1 : ℚ) / 2 ^ 1075 ≤ 1 / 2 ^ 100 * (1 / 1000000) := this
      _ ≤ 1 / 2 ^ 100 * d := by
        apply mul_le_mul_of_nonneg_left hd
        positivity
  have h5 : (|qa| / 2 ^ 53 + 1 / 2 ^ 1075) / d = |qa| / d / 2 ^ 53 + 1 / 2 ^ 1075 / d := by
    rw [add_div, div_right_comm]
  linarith

/-- The three roundings of `qa / d * m`, with `qa` itself rounded first: the
result differs from the exact value by a few units in the last place. -/
theorem chain_err (qa d m : ℚ) (hd : 1 / 1000000 ≤ d) (hm0 : 0 < m) (hm : m ≤ 100) :
    |round (round qa / d) - qa / d| ≤ 3 * |qa / d| / 2 ^ 53 + 1 / 2 ^ 98 ∧
    |round (round (round qa / d) * m) - qa / d * m| ≤ 5 * |qa / d * m| / 2 ^ 53 + 1 / 2 ^ 90 := by
  have e1 := round_div_err qa d hd
  have e2 := round_err_weak (round qa / d)
  have e3 := round_err_weak (round (round qa / d) * m)
  generalize round qa = a at *
  generalize hb : round (a / d) = b at *
  generalize round (b * m) = c at *
  generalize hzd : qa / d = z at *
  have hz := abs_nonneg z
  have h1 : |a / d| ≤ |z| + |a / d - z| := by
    have := abs_sub_abs_le_abs_sub (a / d) z
    linarith
  have t1 : |b - z| ≤ |b - a / d| + |a / d - z| := abs_sub_le b (a / d) z
  have h2 : |b - z| ≤ 3 * |z| / 2 ^ 53 + 1 / 2 ^ 98 := by
    linarith
  refine ⟨h2, ?_⟩
  have h3 : |b * m - z * m| ≤ 3 * |z * m| / 2 ^ 53 + 1 / 2 ^ 91 := by
    rw [← sub_mul, abs_mul, abs_of_pos hm0, abs_mul, abs_of_pos hm0]
    have h := mul_le_mul_of_nonneg_right h2 hm0.le
    have k : (3 * |z| / 2 ^ 53 + 1 / 2 ^ 98) * m = 3 * (|z| * m) / 2 ^ 53 + m / 2 ^ 98 := by ring
    have k2 : m / 2 ^ 98 ≤ 1 / 2 ^ 91 := by
      rw [div_le_div_iff₀ (by norm_num) (by norm_num)]
      linarith
    linarith
  have hy := abs_nonneg (z * m)
  have h4 : |b * m| ≤ |z * m| + |b * m - z * m| := by
    have := abs_sub_abs_le_abs_sub (b * m) (z * m)
    linarith
  have t2 : |c - z * m| ≤ |c - b * m| + |b * m - z * m| := abs_sub_le c (b * m) (z * m)
  linarith

end Float64

theorem clamp_eq_ite (hi n : Int) (h0 : 0 ≤ hi) :
    (if (if n > hi then hi else n) < 0 then 0 else (if n > hi then hi else n)) =
      Spec.clamp 0 hi n := by
  unfold Spec.clamp
  split_ifs <;> omega

theorem clamp_bounds (hi n : Int) (h0 : 0 ≤ hi) :
    0 ≤ Spec.clamp 0 hi n ∧ Spec.clamp 0 hi n ≤ hi := by
  unfold Spec.clamp
  omega

theorem clamp_mono (lo hi : Int) {m n : Int} (h : m ≤ n) :
    Spec.clamp lo hi m ≤ Spec.clamp lo hi n := by
  unfold Spec.clamp
  omega

theorem clamp_trunc_floor (hi : Int) (h0 : 0 ≤ hi) (X : ℚ) :
    Spec.clamp 0 hi (Float64.trunc X) = Spec.clamp 0 hi ⌊X⌋ := by
  rcases le_or_lt 0 X with h | h
  · rw [Float64.trunc_of_nonneg h]
  · rw [Float64.trunc_of_nonpos h.le]
    have h1 : ⌈X⌉ ≤ 0 := Int.ceil_le.mpr (by simpa using h.le)
    have h2 : ⌊X⌋ < 0 := Int.floor_lt.mpr (by simpa using h)
    unfold Spec.clamp
    omega

theorem trunc_fits {x : ℚ} (h : |x| < 2 ^ 63) :
    -(2 ^ 63) ≤ Float64.trunc x ∧ Float64.trunc x < 2 ^ 63 := by
  rw [abs_lt] at h
  constructor
  · have := Float64.trunc_mono (le_of_lt h.1)
    have e : Float64.trunc (-(2 : ℚ) ^ 63) = -(2 ^ 63) := by
      rw [Float64.trunc_neg, Float64.trunc_of_nonneg (by norm_num)]
      have : ⌊(2 : ℚ) ^ 63⌋ = 2 ^ 63 := by
        have := Int.floor_intCast (α := ℚ) (2 ^ 63)
        push_cast at this
        exact this
      rw [this]
    rw [e] at this
    exact this
  · rcases le_or_lt 0 x with h0 | h0
    · rw [Float64.trunc_of_nonneg h0, Int.floor_lt]
      push_cast
      exact h.2
    · have := Float64.trunc_mono h0.le
      have e : Float64.trunc (0 : ℚ) = 0 := by
        rw [Float64.trunc_of_nonneg le_rfl]
        simp
      rw [e] at this
      omega

/-- Truncation and clamping of a computed value `x` against the floor and
clamping of the exact value `X` it approximates to a few units in the last
place. -/
theorem clamp_trunc_close (hi : Int) (h0 : 0 ≤ hi) (h100 : hi ≤ 100) (x X : ℚ)
    (hE : |x - X| ≤ (7 * |X| + 5) / 2 ^ 53) :
    |Spec.clamp 0 hi (Float64.trunc x) - Spec.clamp 0 hi ⌊X⌋| ≤ 1 ∧
    ((∀ k : Int, (1 : ℚ) / 2 ^ 40 ≤ |X - k|) →
      Spec.clamp 0 hi (Float64.trunc x) = Spec.clamp 0 hi ⌊X⌋) ∧
    ((hi : ℚ) + 1 ≤ X → Spec.clamp 0 hi (Float64.trunc x) = hi) := by
  have hhi : (hi : ℚ) ≤ 100 := by exact_mod_cast h100
  have hhi0 : (0 : ℚ) ≤ hi := by exact_mod_cast h0
  obtain ⟨hl, hu⟩ := abs_le.mp hE
  rcases le_or_lt ((hi : ℚ) + 1) X with hA | hA
  · -- the value is beyond the upper bound
    have hX : |X| = X := abs_of_nonneg (by linarith)
    rw [hX] at hl hu
    have hx : (hi : ℚ) ≤ x := by linarith
    have ht : hi ≤ Float64.trunc x := by
      rw [Float64.trunc_of_nonneg (by linarith)]
      exact Int.le_floor.mpr hx
    have hP : hi + 1 ≤ ⌊X⌋ := Int.le_floor.mpr (by push_cast; exact hA)
    have e1 : Spec.clamp 0 hi (Float64.trunc x) = hi := by
      unfold Spec.clamp
      omega
    have e2 : Spec.clamp 0 hi ⌊X⌋ = hi := by
      unfold Spec.clamp
      omega
    rw [e1, e2]
    simp
  · rcases lt_or_le X 0 with hB | hB
    · -- the value is negative
      have hX : |X| = -X := abs_of_neg hB
      rw [hX] at hl hu
      have hx : x < 1 := by linarith
      have ht : Float64.trunc x ≤ 0 := by
        rcases le_or_lt 0 x with h | h
        · rw [Float64.trunc_of_nonneg h]
          have : ⌊x⌋ < 1 := Int.floor_lt.mpr (by simpa using hx)
          omega
        · rw [Float64.trunc_of_nonpos h.le]
          exact Int.ceil_le.mpr (by simpa using h.le)
      have hP : ⌊X⌋ < 0 := Int.floor_lt.mpr (by simpa using hB)
      have e1 : Spec.clamp 0 hi (Float64.trunc x) = 0 := by
        unfold Spec.clamp
        omega
      have e2 : Spec.clamp 0 hi ⌊X⌋ = 0 := by
        unfold Spec.clamp
        omega
      rw [e1, e2]
      refine ⟨by simp, fun _ => rfl, fun h => ?_⟩
      linarith
    · -- the value is within the bounds
      have hX : |X| = X := abs_of_nonneg hB
      rw [hX] at hl hu
      have hsmall : (7 * X + 5) / 2 ^ 53 < 1 / 2 ^ 43 := by
        rw [div_lt_div_iff₀ (by norm_num) (by norm_num)]
        linarith
      have hfl := Int.floor_le X
      have hfu := Int.lt_floor_add_one X
      refine ⟨?_, ?_, fun h => ?_⟩
      · rcases le_or_lt 0 x with h | h
        · rw [Float64.trunc_of_nonneg h]
          have h1 : ⌊x⌋ ≤ ⌊X⌋ + 1 := by
            have : ⌊x⌋ < ⌊X⌋ + 2 := by
              rw [Int.floor_lt]
              push_cast
              linarith [show (1 : ℚ) / 2 ^ 43 < 1 by norm_num]
            omega
          have h2 : ⌊X⌋ - 1 ≤ ⌊x⌋ := by
            rw [Int.le_floor]
            push_cast
            linarith [show (1 : ℚ) / 2 ^ 43 < 1 by norm_num]
          rw [abs_le]
          unfold Spec.clamp
          omega
        · have e1 : Float64.trunc x = 0 := by
            rw [Float64.trunc_of_nonpos h.le]
            have h1 : ⌈x⌉ ≤ 0 := Int.ceil_le.mpr (by simpa using h.le)
            have h2 : -1 < ⌈x⌉ := by
              rw [Int.lt_ceil]
              push_cast
              linarith [show (1 : ℚ) / 2 ^ 43 < 1 by norm_num]
            omega
          have e2 : ⌊X⌋ = 0 := by
            have h1 : ⌊X⌋ < 1 := by
              rw [Int.floor_lt]
              push_cast
              linarith [show (1 : ℚ) / 2 ^ 43 < 1 by norm_num]
            have h2 : 0 ≤ ⌊X⌋ := Int.floor_nonneg.mpr hB
            omega
          rw [e1, e2]
          simp
      · intro hm
        have m1 := hm ⌊X⌋
        have m2 := hm (⌊X⌋ + 1)
        rw [abs_of_nonneg (by linarith)] at m1
        rw [abs_of_nonpos (by push_cast; linarith)] at m2
        push_cast at m2
        have k : (1 : ℚ) / 2 ^ 43 < 1 / 2 ^ 40 := by norm_num
        have hx0 : 0 ≤ x := by
          have : (0 : ℚ) ≤ ⌊X⌋ := by exact_mod_cast Int.floor_nonneg.mpr hB
          linarith
        rw [Float64.trunc_of_nonneg hx0]
        have h1 : ⌊x⌋ < ⌊X⌋ + 1 := by
          rw [Int.floor_lt]
          push_cast
          linarith
        have h2 : ⌊X⌋ ≤ ⌊x⌋ := by
          rw [Int.le_floor]
          linarith
        have : ⌊x⌋ = ⌊X⌋ := by omega
        rw [this]
      · linarith

theorem knownValue_close (d ms : ℚ) (hd : 1 / 1000000 ≤ d) (hms : |ms| ≤ 2 ^ 1024)
    (hr : |ms / 1000000 / d * 100| ≤ 2 ^ 62) :
    ∃ x, ffmpeg.knownValue (Float64.fin d) (Float64.fin ms) = Float64.fin x ∧
      |x - (ms / 1000000 / d * 100 + 1 / 2)| ≤
        (7 * |ms / 1000000 / d * 100 + 1 / 2| + 5) / 2 ^ 53 ∧
      |x| < 2 ^ 63 := by
  have hd0 : 0 < d := lt_of_lt_of_le (by norm_num) hd
  obtain ⟨c1, c2⟩ := Float64.chain_err (ms / 1000000) d 100 hd (by norm_num) (by norm_num)
  have e1 := Float64.round_div_err (ms / 1000000) d hd
  have e4 := Float64.round_err_weak
    (Float64.round (Float64.round (Float64.round (ms / 1000000) / d) * 100) + 1 / 2)
  have hz : |ms / 1000000 / d| * 100 = |ms / 1000000 / d * 100| := by
    rw [abs_mul, abs_of_pos (by norm_num : (0 : ℚ) < 100)]
  have f1 : Float64.ofRat (ms / 1000000) = Float64.fin (Float64.round (ms / 1000000)) := by
    apply Float64.ofRat_of_abs_le
    rw [abs_div, abs_of_pos (by norm_num : (0 : ℚ) < 1000000), div_le_iff₀ (by norm_num)]
    have : (2 : ℚ) ^ 1024 ≤ 2 ^ 1023 * 1000000 := by norm_num
    linarith
  have big : (2 : ℚ) ^ 70 ≤ 2 ^ 1023 := by norm_num
  have f2 : Float64.ofRat (Float64.round (ms / 1000000) / d) =
      Float64.fin (Float64.round (Float64.round (ms / 1000000) / d)) := by
    apply Float64.ofRat_of_abs_le
    have := abs_sub_abs_le_abs_sub (Float64.round (ms / 1000000) / d) (ms / 1000000 / d)
    have := abs_nonneg (ms / 1000000 / d)
    linarith
  have f3 : Float64.ofRat (Float64.round (Float64.round (ms / 1000000) / d) * 100) =
      Float64.fin (Float64.round (Float64.round (Float64.round (ms / 1000000) / d) * 100)) := by
    apply Float64.ofRat_of_abs_le
    rw [abs_mul, abs_of_pos (by norm_num : (0 : ℚ) < 100)]
    have := abs_sub_abs_le_abs_sub (Float64.round (Float64.round (ms / 1000000) / d))
      (ms / 1000000 / d)
    have := abs_nonneg (ms / 1000000 / d)
    linarith
  have g := abs_sub_abs_le_abs_sub
    (Float64.round (Float64.round (Float64.round (ms / 1000000) / d) * 100))
    (ms / 1000000 / d * 100)
  have gy := abs_nonneg (ms / 1000000 / d * 100)
  have f4 : Float64.ofRat
      (Float64.round (Float64.round (Float64.round (ms / 1000000) / d) * 100) + 1 / 2) =
      Float64.fin (Float64.round
        (Float64.round (Float64.round (Float64.round (ms / 1000000) / d) * 100) + 1 / 2)) := by
    apply Float64.ofRat_of_abs_le
    have := abs_add (Float64.round (Float64.round (Float64.round (ms / 1000000) / d) * 100))
      (1 / 2 : ℚ)
    rw [abs_of_pos (by norm_num : (0 : ℚ) < 1 / 2)] at this
    linarith
  refine ⟨Float64.round
    (Float64.round (Float64.round (Float64.round (ms / 1000000) / d) * 100) + 1 / 2),
    ?_, ?_, ?_⟩
  · unfold ffmpeg.knownValue
    rw [Float64.div_fin _ _ (by norm_num), f1, Float64.div_fin _ _ hd0.ne', f2,
      Float64.mul_fin, f3, Float64.add_fin, f4]
  · generalize Float64.round
      (Float64.round (Float64.round (Float64.round (ms / 1000000) / d) * 100) + 1 / 2) = x at *
    generalize Float64.round (Float64.round (Float64.round (ms / 1000000) / d) * 100) = c at *
    generalize ms / 1000000 / d * 100 = y at *
    have t1 : |x - (y + 1 / 2)| ≤ |x - (c + 1 / 2)| + |c + 1 / 2 - (y + 1 / 2)| :=
      abs_sub_le x (c + 1 / 2) (y + 1 / 2)
    have t2 : c + 1 / 2 - (y + 1 / 2) = c - y := by ring
    rw [t2] at t1
    have t3 : |c + 1 / 2| ≤ |y + 1 / 2| + |c - y| := by
      have := abs_add (y + 1 / 2) (c - y)
      rw [show y + 1 / 2 + (c - y) = c + 1 / 2 by ring] at this
      exact this
    have t4 : |y| ≤ |y + 1 / 2| + 1 / 2 := by
      have := abs_sub (y + 1 / 2) (1 / 2 : ℚ)
      rw [show y + 1 / 2 - 1 / 2 = y by ring,
        abs_of_pos (by norm_num : (0 : ℚ) < 1 / 2)] at this
      exact this
    have := abs_nonneg (y + 1 / 2)
    linarith
  · generalize Float64.round
      (Float64.round (Float64.round (Float64.round (ms / 1000000) / d) * 100) + 1 / 2) = x at *
    generalize Float64.round (Float64.round (Float64.round (ms / 1000000) / d) * 100) = c at *
    generalize ms / 1000000 / d * 100 = y at *
    have t1 := abs_sub_abs_le_abs_sub x (c + 1 / 2)
    have t3 := abs_add c (1 / 2 : ℚ)
    rw [abs_of_pos (by norm_num : (0 : ℚ) < 1 / 2)] at t3
    have : (2 : ℚ) ^ 62 + 2 ^ 20 < 2 ^ 63 := by norm_num
    linarith

theorem unknownValue_close (ms : ℚ) (hms : |ms| ≤ 2 ^ 1024)
    (hr : |ms / 1000000 / 120 * 90| ≤ 2 ^ 62) :
    ∃ x, ffmpeg.unknownValue (Float64.fin ms) = Float64.fin x ∧
      |x - ms / 1000000 / 120 * 90| ≤ (7 * |ms / 1000000 / 120 * 90| + 5) / 2 ^ 53 ∧
      |x| < 2 ^ 63 := by
  obtain ⟨c1, c2⟩ := Float64.chain_err (ms / 1000000) 120 90 (by norm_num) (by norm_num)
    (by norm_num)
  have e1 := Float64.round_div_err (ms / 1000000) 120 (by norm_num)
  have hz : |ms / 1000000 / 120| * 90 = |ms / 1000000 / 120 * 90| := by
    rw [abs_mul, abs_of_pos (by norm_num : (0 : ℚ) < 90)]
  have f1 : Float64.ofRat (ms / 1000000) = Float64.fin (Float64.round (ms / 1000000)) := by
    apply Float64.ofRat_of_abs_le
    rw [abs_div, abs_of_pos (by norm_num : (0 : ℚ) < 1000000), div_le_iff₀ (by norm_num)]
    have : (2 : ℚ) ^ 1024 ≤ 2 ^ 1023 * 1000000 := by norm_num
    linarith
  have big : (2 : ℚ) ^ 70 ≤ 2 ^ 1023 := by norm_num
  have f2 : Float64.ofRat (Float64.round (ms / 1000000) / 120) =
      Float64.fin (Float64.round (Float64.round (ms / 1000000) / 120)) := by
    apply Float64.ofRat_of_abs_le
    have := abs_sub_abs_le_abs_sub (Float64.round (ms / 1000000) / 120) (ms / 1000000 / 120)
    have := abs_nonneg (ms / 1000000 / 120)
    linarith
  have f3 : Float64.ofRat (Float64.round (Float64.round (ms / 1000000) / 120) * 90) =
      Float64.fin (Float64.round (Float64.round (Float64.round (ms / 1000000) / 120) * 90)) := by
    apply Float64.ofRat_of_abs_le
    rw [abs_mul, abs_of_pos (by norm_num : (0 : ℚ) < 90)]
    have := abs_sub_abs_le_abs_sub (Float64.round (Float64.round (ms / 1000000) / 120))
      (ms / 1000000 / 120)
    have := abs_nonneg (ms / 1000000 / 120)
    linarith
  have g := abs_sub_abs_le_abs_sub
    (Float64.round (Float64.round (Float64.round (ms / 1000000) / 120) * 90))
    (ms / 1000000 / 120 * 90)
  have gy := abs_nonneg (ms / 1000000 / 120 * 90)
  refine ⟨Float64.round (Float64.round (Float64.round (ms / 1000000) / 120) * 90),
    ?_, ?_, ?_⟩
  · unfold ffmpeg.unknownValue
    rw [Float64.div_fin _ _ (by norm_num), f1, Float64.div_fin _ _ (by norm_num), f2,
      Float64.mul_fin, f3]
  · linarith
  · have : (2 : ℚ) ^ 62 + 2 ^ 20 < 2 ^ 63 := by norm_num
    linarith

/-! ## Lemmas on `ParseFloat` -/

theorem ofRat_fin_abs_lt {q r : ℚ} (h : Float64.ofRat q = Float64.fin r) : |r| < 2 ^ 1024 := by
  unfold Float64.ofRat at h
  split_ifs at h with hc
  injection h with h
  rw [← h]
  exact not_le.mp hc

theorem ParseFloat_of_scan (s : String) (r : strconv.Scan)
    (hs : strconv.special s.data = none) (hr : strconv.readFloat s.data = some r)
    (hrest : r.rest = []) (hu : r.underscores = false) :
    strconv.ParseFloat s =
      match Float64.ofRat r.value with
      | Float64.inf neg => (Float64.inf neg, some "value out of range")
      | v => (v, none) := by
  unfold strconv.ParseFloat
  rw [hs, hr]
  simp only [hrest, hu]
  simp

theorem special_not_fin {l : List Char} {q : ℚ} {n : Nat}
    (h : strconv.special l = some (Float64.fin q, n)) : False := by
  revert h
  unfold strconv.special
  split
  · intro h
    cases h
  · split_ifs <;> intro h <;> cases h

theorem ParseFloat_fin_cases {s : String} {q : ℚ} {e : Option String}
    (h : strconv.ParseFloat s = (Float64.fin q, e)) :
    q = 0 ∨ ∃ v, Float64.ofRat v = Float64.fin q := by
  unfold strconv.ParseFloat at h
  split at h
  · split_ifs at h
    · rename_i v n hsp _
      injection h with h1 h2
      subst h1
      exact (special_not_fin hsp).elim
    · injection h with h1 h2
      injection h1 with h1
      exact Or.inl h1.symm
  · split at h
    · injection h with h1 h2
      injection h1 with h1
      exact Or.inl h1.symm
    · split_ifs at h
      · injection h with h1 h2
        injection h1 with h1
        exact Or.inl h1.symm
      · injection h with h1 h2
        injection h1 with h1
        exact Or.inl h1.symm
      · split at h
        · injection h with h1 h2
          cases h1
        · injection h with h1 h2
          exact Or.inr ⟨_, h1⟩

theorem ParseFloat_fin_abs_lt {s : String} {q : ℚ} {e : Option String}
    (h : strconv.ParseFloat s = (Float64.fin q, e)) : |q| < 2 ^ 1024 := by
  rcases ParseFloat_fin_cases h with h0 | ⟨v, hv⟩
  · rw [h0]
    norm_num
  · exact ofRat_fin_abs_lt hv

theorem ParseFloat_nat (s : String) (n : Nat) (hs : strconv.special s.data = none)
    (hr : strconv.readFloat s.data = some ⟨false, false, n, 0, 0, false, []⟩)
    (hn : n < 2 ^ 53) : strconv.ParseFloat s = (Float64.fin n, none) := by
  rw [ParseFloat_of_scan s _ hs hr rfl rfl]
  have hv : (strconv.Scan.mk false false n 0 0 false []).value = ((n : Int) : ℚ) := by
    simp [strconv.Scan.value]
  have h := Float64.ofRat_int (n : Int) (by
    rw [abs_of_nonneg (by omega)]
    exact_mod_cast hn)
  rw [hv, h]
  simp

/-! ## Lemmas on the transcode decoder -/

theorem TrimPrefix_append (p r : String) : strings.TrimPrefix (p ++ r) p = r := by
  unfold strings.TrimPrefix strings.HasPrefix
  simp [String.data_append]

theorem lineValue_out_time (rest : String) :
    ffmpeg.lineValue ("out_time_ms=" ++ rest) =
      match strconv.ParseFloat (strings.TrimSpace rest) with
      | (ms, none) => some ms
      | (_, some _) => none := by
  have hne : ("out_time_ms=" ++ rest) ≠ "" := by
    intro h
    have h1 := congrArg String.length h
    rw [String.length_append] at h1
    have h2 : "out_time_ms=".length = 12 := by decide
    have h3 : "".length = 0 := by decide
    omega
  have hp : strings.HasPrefix ("out_time_ms=" ++ rest) "out_time_ms=" = true := by
    simp [strings.HasPrefix, String.data_append]
  unfold ffmpeg.lineValue
  rw [if_pos hne, if_pos hp, TrimPrefix_append]

theorem readerStep_out_time (conv : Float64 → Int) (taskID rest : String) (d ms : Float64)
    (hv : strconv.ParseFloat (strings.TrimSpace rest) = (ms, none)) :
    ffmpeg.readerStep conv taskID d ("out_time_ms=" ++ rest) =
      some { ID := taskID, Status := "processing", Stage := "transcode",
             Percent := ffmpeg.progressPercent conv d ms } := by
  unfold ffmpeg.readerStep
  rw [lineValue_out_time, hv]

theorem progressPercent_eq_clamp (conv : Float64 → Int) (dur ms : Float64) :
    ffmpeg.progressPercent conv dur ms =
      if Float64.lt (Float64.fin 0) dur = true then
        Spec.clamp 0 99 (Float64.toInt conv (ffmpeg.knownValue dur ms))
      else Spec.clamp 0 90 (Float64.toInt conv (ffmpeg.unknownValue ms)) := by
  unfold ffmpeg.progressPercent
  split_ifs
  · exact clamp_eq_ite 99 _ (by norm_num)
  · exact clamp_eq_ite 90 _ (by norm_num)

theorem progressPercent_bounds (conv : Float64 → Int) (dur ms : Float64) :
    0 ≤ ffmpeg.progressPercent conv dur ms ∧ ffmpeg.progressPercent conv dur ms ≤ 99 ∧
    (Float64.lt (Float64.fin 0) dur = false → ffmpeg.progressPercent conv dur ms ≤ 90) := by
  rw [progressPercent_eq_clamp]
  split_ifs with h
  · have := clamp_bounds 99 (Float64.toInt conv (ffmpeg.knownValue dur ms)) (by norm_num)
    refine ⟨this.1, this.2, fun hc => ?_⟩
    rw [h] at hc
    cases hc
  · have := clamp_bounds 90 (Float64.toInt conv (ffmpeg.unknownValue ms)) (by norm_num)
    exact ⟨this.1, by omega, fun _ => this.2⟩

theorem progressPercent_known_fin (conv : Float64 → Int) {d ms x : ℚ} (hd : 0 < d)
    (hx : ffmpeg.knownValue (Float64.fin d) (Float64.fin ms) = Float64.fin x)
    (hfit : |x| < 2 ^ 63) :
    ffmpeg.progressPercent conv (Float64.fin d) (Float64.fin ms) =
      Spec.clamp 0 99 (Float64.trunc x) := by
  rw [progressPercent_eq_clamp]
  have hlt : Float64.lt (Float64.fin 0) (Float64.fin d) = true := decide_eq_true hd
  rw [if_pos hlt, hx, Float64.toInt_fin conv (trunc_fits hfit).1 (trunc_fits hfit).2]

theorem progressPercent_unknown_fin (conv : Float64 → Int) {ms x : ℚ}
    (hx : ffmpeg.unknownValue (Float64.fin ms) = Float64.fin x) (hfit : |x| < 2 ^ 63) :
    ffmpeg.progressPercent conv (Float64.fin 0) (Float64.fin ms) =
      Spec.clamp 0 90 (Float64.trunc x) := by
  rw [progressPercent_eq_clamp]
  have hlt : Float64.lt (Float64.fin 0) (Float64.fin 0) = false := by
    show decide ((0 : ℚ) < 0) = false
    simp
  rw [hlt]
  simp only [Bool.false_eq_true, if_false]
  rw [hx, Float64.toInt_fin conv (trunc_fits hfit).1 (trunc_fits hfit).2]

theorem parseFloat_60000000 :
    strconv.ParseFloat (strings.TrimSpace "60000000\n") = (Float64.fin 60000000, none) := by
  have h1 : strings.TrimSpace "60000000\n" = "60000000" := by decide
  rw [h1]
  have := ParseFloat_nat "60000000" 60000000 (by decide) (by decide) (by norm_num)
  simpa using this

theorem ofRat_eval_lit {q : ℚ} (k n : Nat) (r : ℚ) (hr : r = (n : ℚ) / 2 ^ k) (hk : k ≤ 1074)
    (h1 : (2 : ℚ) ^ 52 ≤ q * 2 ^ k) (h2 : q * 2 ^ k < 2 ^ 53)
    (hl : -(1 / 2) < q * 2 ^ k - n) (hu : q * 2 ^ k - n < 1 / 2) :
    Float64.ofRat q = Float64.fin r := by
  rw [hr]
  exact Float64.ofRat_eval k n hk h1 h2 (abs_lt.mpr ⟨hl, hu⟩)

theorem ofRat_eval_big {q : ℚ} (e n : Nat) (r : ℚ) (hr : r = (n : ℚ) * 2 ^ e) (he : e ≤ 900)
    (h1 : (2 : ℚ) ^ 52 ≤ q / 2 ^ e) (h2 : q / 2 ^ e < 2 ^ 53)
    (hl : -(1 / 2) < q / 2 ^ e - n) (hu : q / 2 ^ e - n < 1 / 2) :
    Float64.ofRat q = Float64.fin r := by
  rw [hr]
  exact Float64.ofRat_eval_pos e n he h1 h2 (abs_lt.mpr ⟨hl, hu⟩)

theorem knownValue_eval {d ms a b c x : ℚ} (hd : d ≠ 0)
    (h1 : Float64.ofRat (ms / 1000000) = Float64.fin a)
    (h2 : Float64.ofRat (a / d) = Float64.fin b)
    (h3 : Float64.ofRat (b * 100) = Float64.fin c)
    (h4 : Float64.ofRat (c + 1 / 2) = Float64.fin x) :
    ffmpeg.knownValue (Float64.fin d) (Float64.fin ms) = Float64.fin x := by
  unfold ffmpeg.knownValue
  rw [Float64.div_fin _ _ (by norm_num), h1, Float64.div_fin _ _ hd, h2, Float64.mul_fin, h3,
    Float64.add_fin, h4]

theorem unknownValue_eval {ms a b c : ℚ}
    (h1 : Float64.ofRat (ms / 1000000) = Float64.fin a)
    (h2 : Float64.ofRat (a / 120) = Float64.fin b)
    (h3 : Float64.ofRat (b * 90) = Float64.fin c) :
    ffmpeg.unknownValue (Float64.fin ms) = Float64.fin c := by
  unfold ffmpeg.unknownValue
  rw [Float64.div_fin _ _ (by norm_num), h1, Float64.div_fin _ _ (by norm_num), h2,
    Float64.mul_fin, h3]

theorem trunc_eval {x : ℚ} (n : Int) (h0 : 0 ≤ x) (h1 : (n : ℚ) ≤ x) (h2 : x < n + 1) :
    Float64.trunc x = n := by
  rw [Float64.trunc_of_nonneg h0, Int.floor_eq_iff]
  exact ⟨h1, h2⟩

theorem knownPercent_eval (d v : ℚ) (n : Int) (h1 : (n : ℚ) ≤ v / 1000000 / d * 100 + 1 / 2)
    (h2 : v / 1000000 / d * 100 + 1 / 2 < n + 1) :
    Spec.knownPercent d v = Spec.clamp 0 99 n := by
  unfold Spec.knownPercent Spec.nearest
  rw [Int.floor_eq_iff.mpr ⟨h1, h2⟩]

theorem knownPercent_of_ge (d v : ℚ) (h : 100 ≤ v / 1000000 / d * 100) :
    Spec.knownPercent d v = 99 := by
  unfold Spec.knownPercent Spec.nearest
  have : (100 : Int) ≤ ⌊v / 1000000 / d * 100 + 1 / 2⌋ := Int.le_floor.mpr (by push_cast; linarith)
  unfold Spec.clamp
  omega

theorem known_250_8 :
    ffmpeg.knownValue (Float64.fin (4412120259939533 / 2 ^ 44)) (Float64.fin 119130000) =
      Float64.fin 48 := by
  have h1 : Float64.ofRat ((119130000 : ℚ) / 1000000) = Float64.fin (8383028493885112 / 2 ^ 46) :=
    ofRat_eval_lit 46 8383028493885112 _ (by norm_num) (by norm_num) (by norm_num) (by norm_num)
      (by norm_num) (by norm_num)
  have h2 : Float64.ofRat ((8383028493885112 / 2 ^ 46) / (4412120259939533 / 2 ^ 44)) =
      Float64.fin (8556839292003942 / 2 ^ 54) :=
    ofRat_eval_lit 54 8556839292003942 _ (by norm_num) (by norm_num) (by norm_num) (by norm_num)
      (by norm_num) (by norm_num)
  have h3 : Float64.ofRat ((8556839292003942 / 2 ^ 54) * 100) =
      Float64.fin (6685030696878080 / 2 ^ 47) :=
    ofRat_eval_lit 47 6685030696878080 _ (by norm_num) (by norm_num) (by norm_num) (by norm_num)
      (by norm_num) (by norm_num)
  have h4 : Float64.ofRat ((6685030696878080 / 2 ^ 47) + 1 / 2) = Float64.fin 48 :=
    ofRat_eval_lit 47 6755399441055744 _ (by norm_num) (by norm_num) (by norm_num) (by norm_num)
      (by norm_num) (by norm_num)
  exact knownValue_eval (by norm_num) h1 h2 h3 h4

theorem known_16200000 :
    ffmpeg.knownValue (Float64.fin 120) (Float64.fin 16200000) =
      Float64.fin (7881299347898367 / 2 ^ 49) := by
  have h1 : Float64.ofRat ((16200000 : ℚ) / 1000000) = Float64.fin (4559894622712627 / 2 ^ 48) :=
    ofRat_eval_lit 48 4559894622712627 _ (by norm_num) (by norm_num) (by norm_num) (by norm_num)
      (by norm_num) (by norm_num)
  have h2 : Float64.ofRat ((4559894622712627 / 2 ^ 48) / 120) =
      Float64.fin (4863887597560135 / 2 ^ 55) :=
    ofRat_eval_lit 55 4863887597560135 _ (by norm_num) (by norm_num) (by norm_num) (by norm_num)
      (by norm_num) (by norm_num)
  have h3 : Float64.ofRat ((4863887597560135 / 2 ^ 55) * 100) =
      Float64.fin (7599824371187711 / 2 ^ 49) :=
    ofRat_eval_lit 49 7599824371187711 _ (by norm_num) (by norm_num) (by norm_num) (by norm_num)
      (by norm_num) (by norm_num)
  have h4 : Float64.ofRat ((7599824371187711 / 2 ^ 49) + 1 / 2) =
      Float64.fin (7881299347898367 / 2 ^ 49) :=
    ofRat_eval_lit 49 7881299347898367 _ (by norm_num) (by norm_num) (by norm_num) (by norm_num)
      (by norm_num) (by norm_num)
  exact knownValue_eval (by norm_num) h1 h2 h3 h4

theorem known_1e30 :
    ffmpeg.knownValue (Float64.fin 120) (Float64.fin (7105427357601002 * 2 ^ 47)) =
      Float64.fin (6208817164103190 * 2 ^ 27) := by
  have h1 : Float64.ofRat ((7105427357601002 * 2 ^ 47 : ℚ) / 1000000) =
      Float64.fin (7450580596923828 * 2 ^ 27) :=
    ofRat_eval_big 27 7450580596923828 _ (by norm_num) (by norm_num) (by norm_num) (by norm_num)
      (by norm_num) (by norm_num)
  have h2 : Float64.ofRat ((7450580596923828 * 2 ^ 27) / 120) =
      Float64.fin (7947285970052083 * 2 ^ 20) :=
    ofRat_eval_big 20 7947285970052083 _ (by norm_num) (by norm_num) (by norm_num) (by norm_num)
      (by norm_num) (by norm_num)
  have h3 : Float64.ofRat ((7947285970052083 * 2 ^ 20) * 100) =
      Float64.fin (6208817164103190 * 2 ^ 27) :=
    ofRat_eval_big 27 6208817164103190 _ (by norm_num) (by norm_num) (by norm_num) (by norm_num)
      (by norm_num) (by norm_num)
  have h4 : Float64.ofRat ((6208817164103190 * 2 ^ 27) + 1 / 2) =
      Float64.fin (6208817164103190 * 2 ^ 27) :=
    ofRat_eval_big 27 6208817164103190 _ (by norm_num) (by norm_num) (by norm_num) (by norm_num)
      (by norm_num) (by norm_num)
  exact knownValue_eval (by norm_num) h1 h2 h3 h4

theorem parseFloat_250_8 :
    strconv.ParseFloat "250.800000" = (Float64.fin (4412120259939533 / 2 ^ 44), none) := by
  rw [ParseFloat_of_scan "250.800000" ⟨false, false, 250800000, 6, 0, false, []⟩ (by decide)
    (by decide) rfl rfl]
  have hv : (strconv.Scan.mk false false 250800000 6 0 false []).value = 250800000 / 10 ^ 6 := by
    norm_num [strconv.Scan.value]
  have h : Float64.ofRat ((250800000 : ℚ) / 10 ^ 6) = Float64.fin (4412120259939533 / 2 ^ 44) :=
    ofRat_eval_lit 45 8824240519879066 _ (by norm_num) (by norm_num) (by norm_num) (by norm_num)
      (by norm_num) (by norm_num)
  rw [hv, h]

theorem parseFloat_1e30 :
    strconv.ParseFloat (strings.TrimSpace "1e30\n") =
      (Float64.fin (7105427357601002 * 2 ^ 47), none) := by
  have ht : strings.TrimSpace "1e30\n" = "1e30" := by decide
  rw [ht, ParseFloat_of_scan "1e30" ⟨false, false, 1, 0, 30, false, []⟩ (by decide)
    (by decide) rfl rfl]
  have hv : (strconv.Scan.mk false false 1 0 30 false []).value = 10 ^ 30 := by
    norm_num [strconv.Scan.value]
  have h : Float64.ofRat ((10 : ℚ) ^ 30) = Float64.fin (7105427357601002 * 2 ^ 47) :=
    ofRat_eval_big 47 7105427357601002 _ (by norm_num) (by norm_num) (by norm_num) (by norm_num)
      (by norm_num) (by norm_num)
  rw [hv, h]

theorem parseFloat_119130000 :
    strconv.ParseFloat (strings.TrimSpace "119130000\n") = (Float64.fin 119130000, none) := by
  have h1 : strings.TrimSpace "119130000\n" = "119130000" := by decide
  rw [h1]
  have := ParseFloat_nat "119130000" 119130000 (by decide) (by decide) (by norm_num)
  simpa using this

/-- C1, as stated, fails. With the probed duration `250.800000` the line
`out_time_ms=119130000` makes the reader loop write 48, while
`(v/1e6)/d*100` is below 47.5 and rounds to 47: the `float64` quotient is
rounded up to 0.475. With a duration of 120 s the value 16200000 gives 13
where the quotient is 13.5. On amd64 the line `out_time_ms=1e30`, far beyond
the duration, gives 0 and not 99: the conversion to `int` does not hold the
value. -/
theorem transcode_known_duration_counterexample :
    strconv.ParseFloat "250.800000" = (Float64.fin (4412120259939533 / 2 ^ 44), none) ∧
    ffmpeg.readerStep Float64.amd64 "task" (Float64.fin (4412120259939533 / 2 ^ 44))
        ("out_time_ms=" ++ "119130000\n") =
      some { ID := "task", Status := "processing", Stage := "transcode", Percent := 48 } ∧
    Spec.knownPercent (4412120259939533 / 2 ^ 44) 119130000 = 47 ∧
    ffmpeg.progressPercent Float64.amd64 (Float64.fin 120) (Float64.fin 16200000) = 13 ∧
    Spec.knownPercent 120 16200000 = 14 ∧
    ffmpeg.readerStep Float64.amd64 "task" (Float64.fin 120) ("out_time_ms=" ++ "1e30\n") =
      some { ID := "task", Status := "processing", Stage := "transcode", Percent := 0 } ∧
    Spec.knownPercent 120 (7105427357601002 * 2 ^ 47) = 99 := by
  refine ⟨parseFloat_250_8, ?_, ?_, ?_, ?_, ?_, ?_⟩
  · rw [readerStep_out_time _ _ _ _ _ parseFloat_119130000,
      progressPercent_known_fin Float64.amd64 (by norm_num) known_250_8 (by norm_num),
      trunc_eval 48 (by norm_num) (by norm_num) (by norm_num)]
    rfl
  · rw [knownPercent_eval _ _ 47 (by norm_num) (by norm_num)]
    rfl
  · rw [progressPercent_known_fin Float64.amd64 (by norm_num) known_16200000
        (abs_lt.mpr ⟨by norm_num, by norm_num⟩),
      trunc_eval 13 (by norm_num) (by norm_num) (by norm_num)]
    rfl
  · rw [knownPercent_eval _ _ 14 (by norm_num) (by norm_num)]
    rfl
  · rw [readerStep_out_time _ _ _ _ _ parseFloat_1e30, progressPercent_eq_clamp]
    have hlt : Float64.lt (Float64.fin 0) (Float64.fin 120) = true := by
      show decide ((0 : ℚ) < 120) = true
      simp
    rw [if_pos hlt, known_1e30]
    have hfit : Float64.fitsInt (Float64.fin (6208817164103190 * 2 ^ 27)) = false := by
      have ht : Float64.trunc ((6208817164103190 * 2 ^ 27 : ℚ)) = 6208817164103190 * 2 ^ 27 :=
        trunc_eval _ (by norm_num) (by norm_num) (by norm_num)
      show decide (_ ∧ _) = false
      rw [ht]
      decide
    have hc : Float64.toInt Float64.amd64 (Float64.fin (6208817164103190 * 2 ^ 27)) =
        -(2 ^ 63) := by
      show (if Float64.fitsInt (Float64.fin (6208817164103190 * 2 ^ 27)) = true then _ else _) = _
      rw [hfit]
      rfl
    rw [hc]
    rfl
  · exact knownPercent_of_ge _ _ (by norm_num)

/-- C1 (amended): with a probed duration `d` of at least a microsecond, a line
`out_time_ms=<v>` whose value parses without error to the finite number `ms`,
with `(ms/1e6)/d*100` of magnitude at most `2^62`, makes the reader loop of
`runWithProgress` write the percent the `float64` computation gives. It
differs by at most 1 from `(ms/1e6)/d*100` rounded to the nearest integer and
clamped to `[0, 99]`, and equals it whenever that quotient plus one half is
at least `2^-40` away from every integer. A value of at least the whole
duration gives 99. For every duration that compares positive and every parsed
value the percent is between 0 and 99. -/
theorem transcode_known_duration_percent (conv : Float64 → Int) (taskID rest : String)
    (d ms : ℚ) (hv : strconv.ParseFloat (strings.TrimSpace rest) = (Float64.fin ms, none))
    (hd : 1 / 1000000 ≤ d) (hr : |ms / 1000000 / d * 100| ≤ 2 ^ 62) :
    ffmpeg.readerStep conv taskID (Float64.fin d) ("out_time_ms=" ++ rest) =
      some { ID := taskID, Status := "processing", Stage := "transcode",
             Percent := ffmpeg.progressPercent conv (Float64.fin d) (Float64.fin ms) } ∧
    |ffmpeg.progressPercent conv (Float64.fin d) (Float64.fin ms) - Spec.knownPercent d ms| ≤ 1 ∧
    ((∀ k : Int, (1 : ℚ) / 2 ^ 40 ≤ |ms / 1000000 / d * 100 + 1 / 2 - k|) →
      ffmpeg.progressPercent conv (Float64.fin d) (Float64.fin ms) = Spec.knownPercent d ms) ∧
    (100 ≤ ms / 1000000 / d * 100 →
      ffmpeg.progressPercent conv (Float64.fin d) (Float64.fin ms) = 99) ∧
    (∀ (c : Float64 → Int) (dur v : Float64), Float64.lt (Float64.fin 0) dur = true →
      0 ≤ ffmpeg.progressPercent c dur v ∧ ffmpeg.progressPercent c dur v ≤ 99) := by
  have hd0 : 0 < d := lt_of_lt_of_le (by norm_num) hd
  obtain ⟨x, hx, hE, hfit⟩ := knownValue_close d ms hd (ParseFloat_fin_abs_lt hv).le hr
  have hp := progressPercent_known_fin conv hd0 hx hfit
  obtain ⟨k1, k2, k3⟩ := clamp_trunc_close 99 (by norm_num) (by norm_num) x _ hE
  refine ⟨readerStep_out_time conv taskID rest _ _ hv, ?_, ?_, ?_, ?_⟩
  · rw [hp]
    exact k1
  · intro hm
    rw [hp]
    exact k2 hm
  · intro h
    rw [hp]
    apply k3
    push_cast
    linarith
  · intro c dur v _
    exact ⟨(progressPercent_bounds c dur v).1, (progressPercent_bounds c dur v).2.1⟩

/-- Witness of C1: `out_time_ms=60000000` with a duration of 120 s writes 50. -/
theorem transcode_known_duration_percent_witness :
    ffmpeg.readerStep Float64.amd64 "task" (Float64.fin 120) ("out_time_ms=" ++ "60000000\n") =
      some { ID := "task", Status := "processing", Stage := "transcode", Percent := 50 } := by
  have h := transcode_known_duration_percent Float64.amd64 "task" "60000000\n" 120 60000000
    parseFloat_60000000 (by norm_num) (by rw [abs_of_nonneg (by norm_num)]; norm_num)
  have hm : ∀ k : Int, (1 : ℚ) / 2 ^ 40 ≤ |(60000000 : ℚ) / 1000000 / 120 * 100 + 1 / 2 - k| := by
    intro k
    rcases le_or_lt k 50 with hk | hk
    · have : (k : ℚ) ≤ 50 := by exact_mod_cast hk
      rw [abs_of_nonneg (by linarith)]
      linarith
    · have : (51 : ℚ) ≤ k := by exact_mod_cast hk
      rw [abs_of_nonpos (by linarith)]
      linarith
  rw [h.1, h.2.2.1 hm, knownPercent_eval _ _ 50 (by norm_num) (by norm_num)]
  rfl

theorem unknown_84000000 :
    ffmpeg.unknownValue (Float64.fin 84000000) = Float64.fin (8866461766385663 / 2 ^ 47) := by
  have h1 : Float64.ofRat ((84000000 : ℚ) / 1000000) = Float64.fin 84 :=
    ofRat_eval_lit 46 5910974510923776 _ (by norm_num) (by norm_num) (by norm_num) (by norm_num)
      (by norm_num) (by norm_num)
  have h2 : Float64.ofRat ((84 : ℚ) / 120) = Float64.fin (6305039478318694 / 2 ^ 53) :=
    ofRat_eval_lit 53 6305039478318694 _ (by norm_num) (by norm_num) (by norm_num) (by norm_num)
      (by norm_num) (by norm_num)
  have h3 : Float64.ofRat ((6305039478318694 / 2 ^ 53) * 90) =
      Float64.fin (8866461766385663 / 2 ^ 47) :=
    ofRat_eval_lit 47 8866461766385663 _ (by norm_num) (by norm_num) (by norm_num) (by norm_num)
      (by norm_num) (by norm_num)
  exact unknownValue_eval h1 h2 h3

theorem unknown_60000000 :
    ffmpeg.unknownValue (Float64.fin 60000000) = Float64.fin 45 := by
  have h1 : Float64.ofRat ((60000000 : ℚ) / 1000000) = Float64.fin 60 :=
    ofRat_eval_lit 47 8444249301319680 _ (by norm_num) (by norm_num) (by norm_num) (by norm_num)
      (by norm_num) (by norm_num)
  have h2 : Float64.ofRat ((60 : ℚ) / 120) = Float64.fin (1 / 2) :=
    ofRat_eval_lit 53 4503599627370496 _ (by norm_num) (by norm_num) (by norm_num) (by norm_num)
      (by norm_num) (by norm_num)
  have h3 : Float64.ofRat ((1 / 2 : ℚ) * 90) = Float64.fin 45 :=
    ofRat_eval_lit 47 6333186975989760 _ (by norm_num) (by norm_num) (by norm_num) (by norm_num)
      (by norm_num) (by norm_num)
  exact unknownValue_eval h1 h2 h3

theorem parseFloat_84000000 :
    strconv.ParseFloat (strings.TrimSpace "84000000\n") = (Float64.fin 84000000, none) := by
  have h1 : strings.TrimSpace "84000000\n" = "84000000" := by decide
  rw [h1]
  have := ParseFloat_nat "84000000" 84000000 (by decide) (by decide) (by norm_num)
  simpa using this

theorem unknownPercent_eval (v : ℚ) (n : Int) (h0 : 0 ≤ v) (h1 : (n : ℚ) ≤ v / 1000000 / 120 * 90)
    (h2 : v / 1000000 / 120 * 90 < n + 1) : Spec.unknownPercent v = Spec.clamp 0 90 n := by
  unfold Spec.unknownPercent
  rw [trunc_eval n (by positivity) h1 h2]

/-- C2, as stated, fails: with an unknown duration the line
`out_time_ms=84000000` makes the reader loop write 62, while
`(v/1e6)/120*90` is 63 exactly: the `float64` quotient 84/120 is rounded
below 0.7 and the product stays below 63. -/
theorem transcode_unknown_duration_counterexample :
    ffmpeg.readerStep Float64.amd64 "task" (Float64.fin 0) ("out_time_ms=" ++ "84000000\n") =
      some { ID := "task", Status := "processing", Stage := "transcode", Percent := 62 } ∧
    Spec.unknownPercent 84000000 = 63 := by
  constructor
  · rw [readerStep_out_time _ _ _ _ _ parseFloat_84000000,
      progressPercent_unknown_fin Float64.amd64 unknown_84000000
        (abs_lt.mpr ⟨by norm_num, by norm_num⟩),
      trunc_eval 62 (by norm_num) (by norm_num) (by norm_num)]
    rfl
  · rw [unknownPercent_eval _ 63 (by norm_num) (by norm_num) (by norm_num)]
    rfl

/-- C2 (amended): with an unknown duration (taken as 0), a line
`out_time_ms=<v>` whose value parses without error to the finite number `ms`,
with `(ms/1e6)/120*90` of magnitude at most `2^62`, makes the reader loop
write the percent the `float64` computation gives. It differs by at most 1
from `(ms/1e6)/120*90` truncated to an integer and clamped to `[0, 90]`, and
equals it whenever that quotient is at least `2^-40` away from every integer.
The value 60000000 gives 45. For every duration that does not compare
positive and every parsed value the percent is between 0 and 90. -/
theorem transcode_unknown_duration_percent (conv : Float64 → Int) (taskID rest : String)
    (ms : ℚ) (hv : strconv.ParseFloat (strings.TrimSpace rest) = (Float64.fin ms, none))
    (hr : |ms / 1000000 / 120 * 90| ≤ 2 ^ 62) :
    ffmpeg.readerStep conv taskID (Float64.fin 0) ("out_time_ms=" ++ rest) =
      some { ID := taskID, Status := "processing", Stage := "transcode",
             Percent := ffmpeg.progressPercent conv (Float64.fin 0) (Float64.fin ms) } ∧
    |ffmpeg.progressPercent conv (Float64.fin 0) (Float64.fin ms) - Spec.unknownPercent ms| ≤ 1 ∧
    ((∀ k : Int, (1 : ℚ) / 2 ^ 40 ≤ |ms / 1000000 / 120 * 90 - k|) →
      ffmpeg.progressPercent conv (Float64.fin 0) (Float64.fin ms) = Spec.unknownPercent ms) ∧
    ffmpeg.progressPercent conv (Float64.fin 0) (Float64.fin 60000000) = 45 ∧
    (∀ (c : Float64 → Int) (dur v : Float64), Float64.lt (Float64.fin 0) dur = false →
      0 ≤ ffmpeg.progressPercent c dur v ∧ ffmpeg.progressPercent c dur v ≤ 90) := by
  obtain ⟨x, hx, hE, hfit⟩ := unknownValue_close ms (ParseFloat_fin_abs_lt hv).le hr
  have hp := progressPercent_unknown_fin conv hx hfit
  obtain ⟨k1, k2, -⟩ := clamp_trunc_close 90 (by norm_num) (by norm_num) x _ hE
  have hs : Spec.unknownPercent ms = Spec.clamp 0 90 ⌊ms / 1000000 / 120 * 90⌋ :=
    clamp_trunc_floor 90 (by norm_num) _
  refine ⟨readerStep_out_time conv taskID rest _ _ hv, ?_, ?_, ?_, ?_⟩
  · rw [hp, hs]
    exact k1
  · intro hm
    rw [hp, hs]
    exact k2 hm
  · rw [progressPercent_unknown_fin conv unknown_60000000 (by norm_num),
      trunc_eval 45 (by norm_num) (by norm_num) (by norm_num)]
    rfl
  · intro c dur v h
    exact ⟨(progressPercent_bounds c dur v).1, (progressPercent_bounds c dur v).2.2 h⟩

/-- Witness of C2: `out_time_ms=60000000` with an unknown duration writes 45. -/
theorem transcode_unknown_duration_percent_witness :
    ffmpeg.readerStep Float64.amd64 "task" (Float64.fin 0) ("out_time_ms=" ++ "60000000\n") =
      some { ID := "task", Status := "processing", Stage := "transcode", Percent := 45 } := by
  have h := transcode_unknown_duration_percent Float64.amd64 "task" "60000000\n" 60000000
    parseFloat_60000000 (by rw [abs_of_nonneg (by norm_num)]; norm_num)
  rw [h.1, h.2.2.2.1]

/-! ## Lemmas on the fetch decoder -/

theorem digitVal_of_isDigit {c : Char} (h : yt.isDigit c = true) :
    strconv.digitVal c = some (c.toNat - 48) := by
  unfold yt.isDigit at h
  unfold strconv.digitVal
  simp only [Bool.and_eq_true, decide_eq_true_eq] at h
  rw [if_pos h]

theorem isDigit_ne_dot {c : Char} (h : yt.isDigit c = true) : c ≠ '.' := by
  rintro rfl
  revert h
  decide

theorem isDigit_ne_underscore {c : Char} (h : yt.isDigit c = true) : c ≠ '_' := by
  rintro rfl
  revert h
  decide

theorem foldl_digits (ds : List Char) (n : Nat) :
    ds.foldl (fun n c => 10 * n + (c.toNat - 48)) n = n * 10 ^ ds.length + Spec.digitsValue ds := by
  induction ds generalizing n with
  | nil => simp [Spec.digitsValue]
  | cons c cs ih =>
    unfold Spec.digitsValue
    rw [List.foldl_cons, List.foldl_cons, ih, ih (10 * 0 + (c.toNat - 48))]
    simp only [List.length_cons]
    ring

theorem digitsValue_lt (ds : List Char) (h : ∀ c ∈ ds, yt.isDigit c = true) :
    Spec.digitsValue ds < 10 ^ ds.length := by
  induction ds using List.reverseRecOn with
  | nil => simp [Spec.digitsValue]
  | append_singleton cs c ih =>
    have hc : yt.isDigit c = true := h c (by simp)
    have ih' := ih (fun x hx => h x (by simp [hx]))
    unfold Spec.digitsValue at *
    rw [List.foldl_append]
    simp only [List.foldl_cons, List.foldl_nil, List.length_append, List.length_singleton]
    unfold yt.isDigit at hc
    simp only [Bool.and_eq_true, decide_eq_true_eq] at hc
    rw [pow_succ]
    omega

theorem readMantissa_digits (ds rest : List Char) (v f : Nat) (sd sg u : Bool)
    (h : ∀ c ∈ ds, yt.isDigit c = true) :
    strconv.readMantissa false (ds ++ rest) ⟨v, f, sd, sg, u⟩ =
      strconv.readMantissa false rest
        ⟨v * 10 ^ ds.length + Spec.digitsValue ds, if sd then f + ds.length else f, sd,
         sg || !ds.isEmpty, u⟩ := by
  induction ds generalizing v f sg with
  | nil => simp [Spec.digitsValue]
  | cons c cs ih =>
    have hc : yt.isDigit c = true := h c (by simp)
    have hcs : ∀ x ∈ cs, yt.isDigit x = true := fun x hx => h x (by simp [hx])
    rw [List.cons_append, strconv.readMantissa, if_neg (isDigit_ne_underscore hc),
      if_neg (isDigit_ne_dot hc), digitVal_of_isDigit hc]
    dsimp only [strconv.Mantissa.push]
    rw [ih _ _ _ hcs]
    congr 1
    have e1 := foldl_digits cs (10 * 0 + (c.toNat - 48))
    simp only [strconv.Mantissa.mk.injEq, List.length_cons, Bool.true_or,
      List.isEmpty_cons, Bool.not_false, Bool.or_true, and_true, true_and]
    refine ⟨?_, ?_⟩
    · unfold Spec.digitsValue
      rw [List.foldl_cons, e1]
      unfold Spec.digitsValue
      simp only [Bool.false_eq_true, if_false]
      ring
    · cases sd <;> simp
      omega

theorem readMantissa_token (a b : List Char) (h : Spec.IsToken a b) :
    strconv.readMantissa false (a ++ '.' :: b) ⟨0, 0, false, false, false⟩ =
      (⟨Spec.digitsValue a * 10 ^ b.length + Spec.digitsValue b, b.length, true, true, false⟩,
       []) := by
  obtain ⟨ha1, -, had, hb, hbd⟩ := h
  have ha : a ≠ [] := by
    rintro rfl
    simp at ha1
  rw [readMantissa_digits a _ 0 0 false false false had, strconv.readMantissa]
  have hdot : ('.' : Char) ≠ '_' := by decide
  simp only [if_neg hdot, if_true, Bool.false_eq_true, if_false]
  have e := readMantissa_digits b [] (0 * 10 ^ a.length + Spec.digitsValue a) 0 true
    (false || !a.isEmpty) false hbd
  rw [List.append_nil] at e
  rw [e, strconv.readMantissa]
  congr 1
  simp only [strconv.Mantissa.mk.injEq, if_true, zero_mul, zero_add, true_and, and_true]
  cases a with
  | nil => exact absurd rfl ha
  | cons c cs => simp

theorem token_head_facts {c : Char} (hc : yt.isDigit c = true) :
    c ≠ '+' ∧ c ≠ '-' ∧ c ≠ 'i' ∧ c ≠ 'I' ∧ c ≠ 'n' ∧ c ≠ 'N' ∧ c ≠ 'x' ∧ c ≠ 'X' := by
  refine ⟨?_, ?_, ?_, ?_, ?_, ?_, ?_, ?_⟩ <;> (rintro rfl; revert hc; decide)

theorem token_not_hex (a b : List Char) (h : Spec.IsToken a b) :
    strconv.hasHexPrefix (a ++ '.' :: b) = false := by
  obtain ⟨ha1, -, had, hb, hbd⟩ := h
  cases a with
  | nil => simp at ha1
  | cons c cs =>
    cases cs with
    | nil =>
      cases b with
      | nil => exact absurd rfl hb
      | cons y ys =>
        simp only [List.cons_append, List.nil_append]
        unfold strconv.hasHexPrefix
        split
        · rename_i x _ _ heq
          injection heq with h1 h2
          injection h2 with h2 h3
          subst h2
          decide
        · rfl
    | cons d ds =>
      have hd : yt.isDigit d = true := had d (by simp)
      obtain ⟨-, -, -, -, -, -, hx, hX⟩ := token_head_facts hd
      simp only [List.cons_append]
      unfold strconv.hasHexPrefix
      split
      · rename_i x _ _ heq
        injection heq with h1 h2
        injection h2 with h2 h3
        subst h2
        simp [hx, hX]
      · rfl

theorem readFloat_token (a b : List Char) (h : Spec.IsToken a b) :
    strconv.readFloat (a ++ '.' :: b) =
      some ⟨false, false, Spec.digitsValue a * 10 ^ b.length + Spec.digitsValue b, b.length, 0,
        false, []⟩ := by
  have hm := readMantissa_token a b h
  have hx := token_not_hex a b h
  obtain ⟨ha1, -, had, hb, hbd⟩ := h
  cases a with
  | nil => simp at ha1
  | cons c cs =>
    have hc : yt.isDigit c = true := had c (by simp)
    obtain ⟨hplus, hminus, -⟩ := token_head_facts hc
    unfold strconv.readFloat
    simp only [List.cons_append, hplus, hminus, or_self, if_false]
    rw [List.cons_append] at hm hx
    rw [hx]
    simp only [Bool.false_eq_true, if_false]
    rw [hm]
    simp [strconv.readExponent]

theorem special_token (a b : List Char) (h : Spec.IsToken a b) :
    strconv.special (a ++ '.' :: b) = none := by
  obtain ⟨ha1, -, had, hb, hbd⟩ := h
  cases a with
  | nil => simp at ha1
  | cons c cs =>
    have hc : yt.isDigit c = true := had c (by simp)
    obtain ⟨h1, h2, h3, h4, h5, h6, -⟩ := token_head_facts hc
    unfold strconv.special
    simp [h1, h2, h3, h4, h5, h6]

theorem tokenValue_nonneg (a b : List Char) : 0 ≤ Spec.tokenValue a b := by
  unfold Spec.tokenValue
  positivity

theorem tokenValue_lt (a b : List Char) (h : Spec.IsToken a b) : Spec.tokenValue a b < 1000 := by
  obtain ⟨ha1, ha3, had, hb, hbd⟩ := h
  have h1 := digitsValue_lt a had
  have h2 := digitsValue_lt b hbd
  have h3 : (10:ℕ) ^ a.length ≤ 10 ^ 3 := Nat.pow_le_pow_right (by norm_num) ha3
  have hpos : (0:ℚ) < 10 ^ b.length := by positivity
  unfold Spec.tokenValue
  have e1 : (Spec.digitsValue a : ℚ) ≤ 999 := by
    have : Spec.digitsValue a ≤ 999 := by omega
    exact_mod_cast this
  have e2 : (Spec.digitsValue b : ℚ) / 10 ^ b.length < 1 := by
    rw [div_lt_one hpos]
    exact_mod_cast h2
  linarith

theorem parseFloat_token (a b : List Char) (h : Spec.IsToken a b) :
    strconv.ParseFloat ⟨a ++ '.' :: b⟩ =
      (Float64.fin (Float64.round (Spec.tokenValue a b)), none) := by
  rw [ParseFloat_of_scan _ _ (special_token a b h) (readFloat_token a b h) rfl rfl]
  have hpos : (0:ℚ) < 10 ^ b.length := by positivity
  have hq : (strconv.Scan.mk false false
      (Spec.digitsValue a * 10 ^ b.length + Spec.digitsValue b) b.length 0 false []).value =
      Spec.tokenValue a b := by
    unfold Spec.tokenValue strconv.Scan.value
    simp only [Bool.false_eq_true, if_false, zero_sub, zpow_neg, zpow_natCast]
    push_cast
    field_simp
  rw [hq]
  have hlt := tokenValue_lt a b h
  have h0 := tokenValue_nonneg a b
  rw [Float64.ofRat_of_abs_le]
  rw [abs_of_nonneg h0]
  linarith [show (1000 : ℚ) < 2 ^ 1023 by norm_num]

theorem takeWhile_digits_append (b post : List Char) (hbd : ∀ c ∈ b, yt.isDigit c = true) :
    (b ++ '%' :: post).takeWhile yt.isDigit = b ∧
    (b ++ '%' :: post).dropWhile yt.isDigit = '%' :: post := by
  induction b with
  | nil =>
    have : yt.isDigit '%' = false := by decide
    simp [List.takeWhile, List.dropWhile, this]
  | cons c cs ih =>
    have hc : yt.isDigit c = true := hbd c (by simp)
    have ih' := ih (fun x hx => hbd x (by simp [hx]))
    simp [List.takeWhile, List.dropWhile, hc, ih'.1, ih'.2]

theorem matchFrac_token (b post : List Char) (hb : b ≠ []) (hbd : ∀ c ∈ b, yt.isDigit c = true) :
    yt.matchFrac (b ++ '%' :: post) = some b := by
  unfold yt.matchFrac
  rw [(takeWhile_digits_append b post hbd).1, (takeWhile_digits_append b post hbd).2]
  simp [hb]

theorem matchFrac_sound (r ds : List Char) (h : yt.matchFrac r = some ds) :
    ds ≠ [] ∧ (∀ c ∈ ds, yt.isDigit c = true) ∧ ∃ post, r = ds ++ '%' :: post := by
  unfold yt.matchFrac at h
  split at h
  · rename_i post hdrop
    split_ifs at h with hne
    injection h with h
    subst h
    refine ⟨hne, ?_, post, ?_⟩
    · intro c hc
      exact (List.mem_takeWhile_imp hc)
    · rw [← hdrop, List.takeWhile_append_dropWhile]
  · cases h

theorem matchWith_sound (k : Nat) (s g : List Char) (hk1 : 1 ≤ k) (hk3 : k ≤ 3)
    (h : yt.matchWith k s = some g) :
    ∃ a b post, Spec.IsToken a b ∧ s = a ++ '.' :: b ++ '%' :: post ∧ g = a ++ '.' :: b := by
  unfold yt.matchWith at h
  split_ifs at h with hc
  split at h
  · rename_i r hdrop
    split at h
    · rename_i ds hfrac
      injection h with h
      obtain ⟨hne, hds, post, hr⟩ := matchFrac_sound r ds hfrac
      refine ⟨s.take k, ds, post, ⟨by omega, by omega, ?_, hne, hds⟩, ?_, h.symm⟩
      · intro c hcm
        exact (List.all_eq_true.mp hc.2) c hcm
      · conv_lhs => rw [← List.take_append_drop k s, hdrop, hr]
        simp
    · cases h
  · cases h

theorem matchHere_sound (s g : List Char) (h : yt.matchHere s = some g) :
    ∃ a b post, Spec.IsToken a b ∧ s = a ++ '.' :: b ++ '%' :: post ∧ g = a ++ '.' :: b := by
  unfold yt.matchHere at h
  split at h
  · rename_i g3 h3
    injection h with h
    subst h
    exact matchWith_sound 3 s _ (by norm_num) (by norm_num) h3
  · split at h
    · rename_i g2 h2
      injection h with h
      subst h
      exact matchWith_sound 2 s _ (by norm_num) (by norm_num) h2
    · exact matchWith_sound 1 s _ (by norm_num) (by norm_num) h


theorem matchHere_token (a b post : List Char) (h : Spec.IsToken a b) :
    yt.matchHere (a ++ '.' :: b ++ '%' :: post) = some (a ++ '.' :: b) := by
  obtain ⟨ha1, ha3, had, hb, hbd⟩ := h
  have hdot : yt.isDigit '.' = false := by decide
  have hf := matchFrac_token b post hb hbd
  match a, ha1, ha3, had with
  | [x], _, _, had =>
    have hx : yt.isDigit x = true := had x (by simp)
    simp [yt.matchHere, yt.matchWith, hdot, hx, hf]
  | [x, y], _, _, had =>
    have hx : yt.isDigit x = true := had x (by simp)
    have hy : yt.isDigit y = true := had y (by simp)
    simp [yt.matchHere, yt.matchWith, hdot, hx, hy, hf]
  | [x, y, z], _, _, had =>
    have hx : yt.isDigit x = true := had x (by simp)
    have hy : yt.isDigit y = true := had y (by simp)
    have hz : yt.isDigit z = true := had z (by simp)
    simp [yt.matchHere, yt.matchWith, hdot, hx, hy, hz, hf]
  | [], h1, _, _ => simp at h1
  | _ :: _ :: _ :: _ :: _, _, h3, _ => simp at h3

theorem findSubmatch_leftmost (line : List Char) (n : Nat) (a b : List Char)
    (htok : Spec.TokenAt line n a b)
    (hleft : ∀ m, m < n → ∀ a1 b1, ¬ Spec.TokenAt line m a1 b1) :
    yt.findSubmatch line = some (a ++ '.' :: b) := by
  induction line generalizing n with
  | nil =>
    obtain ⟨-, post, hp⟩ := htok
    simp at hp
  | cons c cs ih =>
    cases n with
    | zero =>
      obtain ⟨htk, post, hp⟩ := htok
      rw [List.drop_zero] at hp
      rw [yt.findSubmatch, hp, matchHere_token a b post htk]
    | succ k =>
      have hnone : yt.matchHere (c :: cs) = none := by
        cases hm : yt.matchHere (c :: cs) with
        | none => rfl
        | some g =>
          obtain ⟨a1, b1, post1, ht1, hs1, -⟩ := matchHere_sound _ _ hm
          exact absurd ⟨ht1, post1, by rw [List.drop_zero]; exact hs1⟩ (hleft 0 (Nat.succ_pos k) a1 b1)
      rw [yt.findSubmatch, hnone]
      apply ih k
      · obtain ⟨htk, post, hp⟩ := htok
        exact ⟨htk, post, by simpa using hp⟩
      · intro m hm a1 b1 ht1
        obtain ⟨htk1, post1, hp1⟩ := ht1
        exact hleft (m + 1) (by omega) a1 b1 ⟨htk1, post1, by simpa using hp1⟩

theorem findSubmatch_none (line : List Char)
    (hno : ∀ n a b, ¬ Spec.TokenAt line n a b) : yt.findSubmatch line = none := by
  induction line with
  | nil => rfl
  | cons c cs ih =>
    have hnone : yt.matchHere (c :: cs) = none := by
      cases hm : yt.matchHere (c :: cs) with
      | none => rfl
      | some g =>
        obtain ⟨a1, b1, post1, ht1, hs1, -⟩ := matchHere_sound _ _ hm
        exact absurd ⟨ht1, post1, by rw [List.drop_zero]; exact hs1⟩ (hno 0 a1 b1)
    rw [yt.findSubmatch, hnone]
    apply ih
    intro n a1 b1 ht1
    obtain ⟨htk1, post1, hp1⟩ := ht1
    exact hno (n + 1) a1 b1 ⟨htk1, post1, by simpa using hp1⟩

theorem not_tokenAt_of_matchHere_none (line : List Char) (n : Nat) (a b : List Char)
    (h : yt.matchHere (line.drop n) = none) : ¬ Spec.TokenAt line n a b := by
  rintro ⟨htk, post, hp⟩
  rw [hp, matchHere_token a b post htk] at h
  cases h

theorem downloadPercent_eq_clamp (conv : Float64 → Int) (f : Float64) :
    yt.downloadPercent conv f =
      Spec.clamp 0 100 (Float64.toInt conv (Float64.add f (Float64.fin (1 / 2)))) := by
  unfold yt.downloadPercent
  exact clamp_eq_ite 100 _ (by norm_num)

theorem round_half_int (m : Int) (hm : |m| ≤ 2 ^ 50) :
    Float64.round ((m : ℚ) - 1 / 2) = (m : ℚ) - 1 / 2 ∧
    Float64.round ((m : ℚ) + 1 / 2) = (m : ℚ) + 1 / 2 ∧
    Float64.round (m : ℚ) = m := by
  have hb := abs_le.mp hm
  refine ⟨?_, ?_, ?_⟩
  · have := Float64.round_dyadic (2 * m - 1) 1 (by rw [abs_lt]; constructor <;> omega)
      (by norm_num)
    have e : ((2 * m - 1 : Int) : ℚ) / 2 ^ 1 = (m : ℚ) - 1 / 2 := by
      push_cast
      ring
    rw [e] at this
    exact this
  · have := Float64.round_dyadic (2 * m + 1) 1 (by rw [abs_lt]; constructor <;> omega)
      (by norm_num)
    have e : ((2 * m + 1 : Int) : ℚ) / 2 ^ 1 = (m : ℚ) + 1 / 2 := by
      push_cast
      ring
    rw [e] at this
    exact this
  · exact Float64.round_int m (by rw [abs_lt]; constructor <;> omega)

theorem round_below_int (m : Int) (h0 : 0 ≤ m) (hm : m ≤ 2000) :
    Float64.round ((m : ℚ) - 1 / 2 ^ 40) = (m : ℚ) - 1 / 2 ^ 40 ∧
    Float64.round ((m : ℚ) + 1 / 2 - 1 / 2 ^ 40) = (m : ℚ) + 1 / 2 - 1 / 2 ^ 40 := by
  constructor
  · have := Float64.round_dyadic (m * 2 ^ 40 - 1) 40 (by rw [abs_lt]; constructor <;> omega)
      (by norm_num)
    have e : ((m * 2 ^ 40 - 1 : Int) : ℚ) / 2 ^ 40 = (m : ℚ) - 1 / 2 ^ 40 := by
      push_cast
      ring
    rw [e] at this
    exact this
  · have := Float64.round_dyadic (m * 2 ^ 40 + 2 ^ 39 - 1) 40
      (by rw [abs_lt]; constructor <;> omega) (by norm_num)
    have e : ((m * 2 ^ 40 + 2 ^ 39 - 1 : Int) : ℚ) / 2 ^ 40 = (m : ℚ) + 1 / 2 - 1 / 2 ^ 40 := by
      push_cast
      ring
    rw [e] at this
    exact this

/-- The percent the scanner loop computes from the `float64` nearest to a
number `v` between 0 and 1000: the nearest integer to `v` or the next one,
clamped; the nearest integer when `v` lies `2^-40` below the half. -/
theorem downloadPercent_round (conv : Float64 → Int) (v : ℚ) (h0 : 0 ≤ v) (h1 : v < 1000) :
    Spec.clamp 0 100 (Spec.nearest v) ≤ yt.downloadPercent conv (Float64.fin (Float64.round v)) ∧
    yt.downloadPercent conv (Float64.fin (Float64.round v)) ≤
      Spec.clamp 0 100 (Spec.nearest v) + 1 ∧
    (v ≤ (Spec.nearest v : ℚ) + 1 / 2 - 1 / 2 ^ 40 →
      yt.downloadPercent conv (Float64.fin (Float64.round v)) =
        Spec.clamp 0 100 (Spec.nearest v)) := by
  have hfl := Int.floor_le (v + 1 / 2)
  have hfu := Int.lt_floor_add_one (v + 1 / 2)
  have hm0 : 0 ≤ Spec.nearest v := Int.floor_nonneg.mpr (by linarith)
  have hm1 : Spec.nearest v ≤ 1000 := by
    have : Spec.nearest v < 1001 := Int.floor_lt.mpr (by push_cast; linarith)
    omega
  unfold Spec.nearest at *
  generalize ⌊v + 1 / 2⌋ = m at *
  have hmq0 : (0 : ℚ) ≤ m := by exact_mod_cast hm0
  have hmq1 : (m : ℚ) ≤ 1000 := by exact_mod_cast hm1
  obtain ⟨r1, r2, r3⟩ := round_half_int m (by rw [abs_le]; constructor <;> omega)
  obtain ⟨-, -, r4⟩ := round_half_int (m + 1) (by rw [abs_le]; constructor <;> omega)
  -- the parsed value lies between the two halves
  have a1 : (m : ℚ) - 1 / 2 ≤ Float64.round v := by
    have := Float64.round_mono (show (m : ℚ) - 1 / 2 ≤ v by linarith)
    rw [r1] at this
    exact this
  have a2 : Float64.round v ≤ (m : ℚ) + 1 / 2 := by
    have := Float64.round_mono (show v ≤ (m : ℚ) + 1 / 2 by linarith)
    rw [r2] at this
    exact this
  -- the sum lies between the two integers
  have b1 : (m : ℚ) ≤ Float64.round (Float64.round v + 1 / 2) := by
    have := Float64.round_mono (show (m : ℚ) ≤ Float64.round v + 1 / 2 by linarith)
    rw [r3] at this
    exact this
  have b2 : Float64.round (Float64.round v + 1 / 2) ≤ (m : ℚ) + 1 := by
    have := Float64.round_mono (show Float64.round v + 1 / 2 ≤ ((m + 1 : Int) : ℚ) by
      push_cast
      linarith)
    rw [r4] at this
    push_cast at this
    exact this
  have hfin : Float64.ofRat (Float64.round v + 1 / 2) =
      Float64.fin (Float64.round (Float64.round v + 1 / 2)) := by
    apply Float64.ofRat_of_abs_le
    rw [abs_of_nonneg (by linarith)]
    linarith [show (1001 : ℚ) ≤ 2 ^ 1023 by norm_num]
  have hx0 : 0 ≤ Float64.round (Float64.round v + 1 / 2) := by linarith
  have hfit : |Float64.round (Float64.round v + 1 / 2)| < 2 ^ 63 := by
    rw [abs_of_nonneg hx0]
    linarith [show (1001 : ℚ) < 2 ^ 63 by norm_num]
  have hp : yt.downloadPercent conv (Float64.fin (Float64.round v)) =
      Spec.clamp 0 100 ⌊Float64.round (Float64.round v + 1 / 2)⌋ := by
    rw [downloadPercent_eq_clamp, Float64.add_fin, hfin,
      Float64.toInt_fin conv (trunc_fits hfit).1 (trunc_fits hfit).2,
      Float64.trunc_of_nonneg hx0]
  have c1 : m ≤ ⌊Float64.round (Float64.round v + 1 / 2)⌋ := Int.le_floor.mpr b1
  have c2 : ⌊Float64.round (Float64.round v + 1 / 2)⌋ ≤ m + 1 := by
    have : ⌊Float64.round (Float64.round v + 1 / 2)⌋ < m + 2 := by
      rw [Int.floor_lt]
      push_cast
      linarith
    omega
  rw [hp]
  refine ⟨clamp_mono 0 100 c1, ?_, fun hlow => ?_⟩
  · have := clamp_mono 0 100 c2
    unfold Spec.clamp at *
    omega
  · obtain ⟨s1, s2⟩ := round_below_int m hm0 (by omega)
    obtain ⟨s3, -⟩ := round_below_int (m + 1) (by omega) (by omega)
    have d1 : Float64.round v ≤ (m : ℚ) + 1 / 2 - 1 / 2 ^ 40 := by
      have := Float64.round_mono hlow
      rw [s2] at this
      exact this
    have d2 : Float64.round (Float64.round v + 1 / 2) ≤ (m : ℚ) + 1 - 1 / 2 ^ 40 := by
      have := Float64.round_mono
        (show Float64.round v + 1 / 2 ≤ ((m + 1 : Int) : ℚ) - 1 / 2 ^ 40 by
          push_cast
          linarith)
      rw [s3] at this
      push_cast at this
      exact this
    have c3 : ⌊Float64.round (Float64.round v + 1 / 2)⌋ < m + 1 := by
      rw [Int.floor_lt]
      push_cast
      linarith [show (0 : ℚ) < 1 / 2 ^ 40 by norm_num]
    have : ⌊Float64.round (Float64.round v + 1 / 2)⌋ = m := by omega
    rw [this]

theorem token_margin (a b : List Char) (h : Spec.IsToken a b) (hk : b.length ≤ 12) :
    Spec.tokenValue a b ≤ (Spec.nearest (Spec.tokenValue a b) : ℚ) + 1 / 2 - 1 / 2 ^ 40 := by
  obtain ⟨-, -, -, hb, -⟩ := h
  have hfu := Int.lt_floor_add_one (Spec.tokenValue a b + 1 / 2)
  unfold Spec.nearest
  generalize ⌊Spec.tokenValue a b + 1 / 2⌋ = m at *
  obtain ⟨k, hk1⟩ : ∃ k, b.length = k + 1 := by
    cases b with
    | nil => exact absurd rfl hb
    | cons c cs => exact ⟨cs.length, rfl⟩
  have hT : (10 : ℚ) ^ b.length = 2 * (5 * 10 ^ k) := by
    rw [hk1, pow_succ]
    ring
  have hTpos : (0 : ℚ) < 5 * 10 ^ k := by positivity
  have hv : Spec.tokenValue a b =
      ((Spec.digitsValue a * (2 * (5 * 10 ^ k)) + Spec.digitsValue b : Nat) : ℚ) /
        (2 * (5 * 10 ^ k)) := by
    unfold Spec.tokenValue
    rw [hT]
    push_cast
    field_simp
  generalize (Spec.digitsValue a * (2 * (5 * 10 ^ k)) + Spec.digitsValue b : Nat) = N at hv
  rw [hv] at hfu ⊢
  have h1 : ((N : Int) : ℚ) < (((2 * m + 1) * (5 * 10 ^ k) : Int) : ℚ) := by
    rw [div_add' _ _ _ (by positivity), div_lt_iff₀ (by positivity)] at hfu
    push_cast
    linarith
  have h2 : (N : Int) < (2 * m + 1) * (5 * 10 ^ k) := by exact_mod_cast h1
  have h3 : (N : Int) + 1 ≤ (2 * m + 1) * (5 * 10 ^ k) := by omega
  have h4 : ((N : Int) : ℚ) + 1 ≤ (2 * (m : ℚ) + 1) * (5 * 10 ^ k) := by exact_mod_cast h3
  have h5 : (10 : ℚ) ^ k ≤ 10 ^ 11 := pow_le_pow_right₀ (by norm_num) (by omega)
  have h6 : (1 : ℚ) / 2 ^ 40 ≤ 1 / (2 * (5 * 10 ^ k)) := by
    rw [div_le_div_iff₀ (by norm_num) (by positivity)]
    have : (2 : ℚ) * (5 * 10 ^ 11) ≤ 2 ^ 40 := by norm_num
    linarith
  have h7 : (N : ℚ) / (2 * (5 * 10 ^ k)) ≤ (m : ℚ) + 1 / 2 - 1 / (2 * (5 * 10 ^ k)) := by
    rw [div_le_iff₀ (by positivity)]
    have e : ((m : ℚ) + 1 / 2 - 1 / (2 * (5 * 10 ^ k))) * (2 * (5 * 10 ^ k)) =
        (2 * (m : ℚ) + 1) * (5 * 10 ^ k) - 1 := by
      field_simp
      ring
    rw [e]
    have : ((N : Int) : ℚ) = (N : ℚ) := by push_cast; rfl
    linarith
  linarith

theorem readerStep_token (conv : Float64 → Int) (taskID line : String) (n : Nat)
    (a b : List Char) (htok : Spec.TokenAt line.data n a b)
    (hleft : ∀ m, m < n → ∀ a1 b1, ¬ Spec.TokenAt line.data m a1 b1) :
    yt.readerStep conv taskID line =
      some { ID := taskID, Status := "processing", Stage := "download",
             Percent := yt.downloadPercent conv
               (Float64.fin (Float64.round (Spec.tokenValue a b))) } := by
  unfold yt.readerStep yt.lineValue
  rw [findSubmatch_leftmost line.data n a b htok hleft]
  dsimp only
  rw [parseFloat_token a b htok.1]

theorem readerStep_no_token (conv : Float64 → Int) (taskID line : String)
    (hno : ∀ n a b, ¬ Spec.TokenAt line.data n a b) :
    yt.readerStep conv taskID line = none := by
  unfold yt.readerStep yt.lineValue
  rw [findSubmatch_none line.data hno]

theorem round_37_4999 :
    Float64.round (Spec.tokenValue ['3', '7'] "49999999999999999".data) = 75 / 2 := by
  have h1 : Spec.digitsValue ['3', '7'] = 37 := by decide
  have h2 : Spec.digitsValue "49999999999999999".data = 49999999999999999 := by decide
  have h3 : "49999999999999999".data.length = 17 := by decide
  unfold Spec.tokenValue
  rw [h1, h2, h3]
  have := Float64.round_eval (q := ((37 : Nat) : ℚ) + ((49999999999999999 : Nat) : ℚ) / 10 ^ 17)
    47 5277655813324800 (by norm_num) (by norm_num) (by norm_num)
    (abs_lt.mpr ⟨by norm_num, by norm_num⟩)
  rw [this]
  norm_num

theorem tokenPercent_eval (a b : List Char) (n : Int)
    (h1 : (n : ℚ) ≤ Spec.tokenValue a b + 1 / 2) (h2 : Spec.tokenValue a b + 1 / 2 < n + 1) :
    Spec.tokenPercent a b = Spec.clamp 0 100 n := by
  unfold Spec.tokenPercent Spec.nearest
  rw [Int.floor_eq_iff.mpr ⟨h1, h2⟩]

theorem downloadPercent_eval (conv : Float64 → Int) (q x : ℚ) (n : Int)
    (hx : Float64.ofRat (q + 1 / 2) = Float64.fin x) (h0 : 0 ≤ x) (h1 : (n : ℚ) ≤ x)
    (h2 : x < n + 1) (h3 : x < 2 ^ 63) :
    yt.downloadPercent conv (Float64.fin q) = Spec.clamp 0 100 n := by
  have hfit : |x| < 2 ^ 63 := by
    rw [abs_of_nonneg h0]
    exact h3
  rw [downloadPercent_eq_clamp, Float64.add_fin, hx,
    Float64.toInt_fin conv (trunc_fits hfit).1 (trunc_fits hfit).2, trunc_eval n h0 h1 h2]

/-- C3, as stated, fails: the line
`[download]  37.49999999999999999% of 10.00MiB` has its leftmost token at
offset 12; the value of the token is below 37.5 and rounds to 37, but the
`float64` nearest to it is 37.5 and the scanner loop writes 38. -/
theorem fetch_decoder_counterexample :
    Spec.TokenAt "[download]  37.49999999999999999% of 10.00MiB".data 12 ['3', '7']
      "49999999999999999".data ∧
    yt.readerStep Float64.amd64 "task" "[download]  37.49999999999999999% of 10.00MiB" =
      some { ID := "task", Status := "processing", Stage := "download", Percent := 38 } ∧
    Spec.tokenPercent ['3', '7'] "49999999999999999".data = 37 := by
  have htok : Spec.TokenAt "[download]  37.49999999999999999% of 10.00MiB".data 12 ['3', '7']
      "49999999999999999".data := by
    refine ⟨⟨by decide, by decide, by decide, by decide, by decide⟩, " of 10.00MiB".data, ?_⟩
    decide
  have hleft : ∀ m, m < 12 → ∀ a1 b1,
      ¬ Spec.TokenAt "[download]  37.49999999999999999% of 10.00MiB".data m a1 b1 := by
    intro m hm a1 b1
    apply not_tokenAt_of_matchHere_none
    revert m
    decide
  refine ⟨htok, ?_, ?_⟩
  · rw [readerStep_token Float64.amd64 "task" _ 12 _ _ htok hleft, round_37_4999,
      downloadPercent_eval Float64.amd64 (75 / 2) 38 38
        (by
          have := Float64.ofRat_int 38 (by norm_num)
          norm_num at this ⊢
          exact this)
        (by norm_num) (by norm_num) (by norm_num) (by norm_num)]
    rfl
  · have h1 : Spec.digitsValue ['3', '7'] = 37 := by decide
    have h2 : Spec.digitsValue "49999999999999999".data = 49999999999999999 := by decide
    have h3 : "49999999999999999".data.length = 17 := by decide
    rw [tokenPercent_eval _ _ 37
      (by unfold Spec.tokenValue; rw [h1, h2, h3]; norm_num)
      (by unfold Spec.tokenValue; rw [h1, h2, h3]; norm_num)]
    rfl

/-- C3 (amended): when the leftmost token `<1-3 digits>.<digits>%` of a line
is `a.b%`, the scanner loop of `DownloadWithProgress` writes the percent
computed from the `float64` nearest to the value of `a.b`: it is the value
rounded to the nearest integer and clamped to `[0, 100]`, or one more, and it
is exactly that when the token has at most 12 fraction digits. A line with no
such token causes no write. -/
theorem fetch_decoder_percent (conv : Float64 → Int) :
    (∀ (taskID line : String) (n : Nat) (a b : List Char),
      Spec.TokenAt line.data n a b →
      (∀ m, m < n → ∀ a1 b1, ¬ Spec.TokenAt line.data m a1 b1) →
      ∃ p : Int,
        yt.readerStep conv taskID line =
          some { ID := taskID, Status := "processing", Stage := "download", Percent := p } ∧
        Spec.tokenPercent a b ≤ p ∧ p ≤ Spec.tokenPercent a b + 1 ∧
        (b.length ≤ 12 → p = Spec.tokenPercent a b)) ∧
    (∀ (taskID line : String), (∀ n a b, ¬ Spec.TokenAt line.data n a b) →
      yt.readerStep conv taskID line = none) := by
  refine ⟨?_, readerStep_no_token conv⟩
  intro taskID line n a b htok hleft
  obtain ⟨h1, h2, h3⟩ := downloadPercent_round conv (Spec.tokenValue a b)
    (tokenValue_nonneg a b) (tokenValue_lt a b htok.1)
  exact ⟨_, readerStep_token conv taskID line n a b htok hleft, h1, h2,
    fun hk => h3 (token_margin a b htok.1 hk)⟩

/-- Witness of C3: the line `[download]  37.5% of 10.00MiB` has its leftmost
token `37.5%` at offset 12 and gives 38; the line `[download] 100% of
10.00MiB` has no token and gives no write. -/
theorem fetch_decoder_percent_witness :
    yt.readerStep Float64.amd64 "task" "[download]  37.5% of 10.00MiB" =
      some { ID := "task", Status := "processing", Stage := "download", Percent := 38 } ∧
    yt.readerStep Float64.amd64 "task" "[download] 100% of 10.00MiB" = none := by
  constructor
  · have htok : Spec.TokenAt "[download]  37.5% of 10.00MiB".data 12 ['3', '7'] ['5'] := by
      refine ⟨⟨by decide, by decide, by decide, by decide, by decide⟩, " of 10.00MiB".data, ?_⟩
      decide
    have hleft : ∀ m, m < 12 → ∀ a1 b1,
        ¬ Spec.TokenAt "[download]  37.5% of 10.00MiB".data m a1 b1 := by
      intro m hm a1 b1
      apply not_tokenAt_of_matchHere_none
      revert m
      decide
    obtain ⟨p, hp, -, -, heq⟩ :=
      (fetch_decoder_percent Float64.amd64).1 "task" _ 12 _ _ htok hleft
    rw [hp, heq (by decide)]
    have h1 : Spec.digitsValue ['3', '7'] = 37 := by decide
    have h2 : Spec.digitsValue ['5'] = 5 := by decide
    rw [tokenPercent_eval _ _ 38
      (by unfold Spec.tokenValue; rw [h1, h2]; norm_num)
      (by unfold Spec.tokenValue; rw [h1, h2]; norm_num)]
    rfl
  · apply (fetch_decoder_percent Float64.amd64).2
    intro n a b
    apply not_tokenAt_of_matchHere_none
    by_cases hn : n < 27
    · revert n
      decide
    · have hlen : "[download] 100% of 10.00MiB".data.length ≤ n := by
        have : "[download] 100% of 10.00MiB".data.length = 27 := by decide
        omega
      rw [List.drop_of_length_le hlen]
      decide

/-! ## Clamping of the requested width and frame-rate -/

theorem effFPS_pos (conv : Float64 → Int) (f : Int) (s : Float64) (hf : 0 < f)
    (hs : Float64.lt (Float64.fin 0) s = true) :
    ffmpeg.effFPS conv f s =
      max 1 (min f (Float64.toInt conv (Float64.add s (Float64.ofRat (1 / 10000))))) := by
  unfold ffmpeg.effFPS
  rw [if_pos ⟨hf, hs⟩]
  dsimp only
  split_ifs <;> omega

theorem effFPS_of_not_pos (conv : Float64 → Int) (f : Int) (s : Float64)
    (hs : Float64.lt (Float64.fin 0) s = false) : ffmpeg.effFPS conv f s = f := by
  unfold ffmpeg.effFPS
  rw [if_neg]
  rintro ⟨-, h⟩
  rw [hs] at h
  cases h

theorem ofRat_tenthousandth :
    Float64.ofRat ((1 : ℚ) / 10000) = Float64.fin (7378697629483821 / 2 ^ 66) :=
  ofRat_eval_lit 66 7378697629483821 _ (by norm_num) (by norm_num) (by norm_num) (by norm_num)
    (by norm_num) (by norm_num)

theorem effFPS_fin (conv : Float64 → Int) (f : Int) {s x : ℚ} (hf : 0 < f) (hs : 0 < s)
    (hx : Float64.ofRat (s + 7378697629483821 / 2 ^ 66) = Float64.fin x) (hfit : |x| < 2 ^ 63) :
    ffmpeg.effFPS conv f (Float64.fin s) = max 1 (min f (Float64.trunc x)) := by
  rw [effFPS_pos conv f _ hf
      (show Float64.lt (Float64.fin 0) (Float64.fin s) = true from decide_eq_true hs),
    ofRat_tenthousandth, Float64.add_fin, hx,
    Float64.toInt_fin conv (trunc_fits hfit).1 (trunc_fits hfit).2]

/-- C4: for a requested width `w > 0` and a probed source width `s > 0` the
effective width is `min w s`, so at most `s`; a requested width of 0 stays 0;
and the effective width is the one `Compress` and `GIF` build their scale
filter from. -/
theorem width_clamp (w s : Int) (hw : 0 < w) (hs : 0 < s) :
    ffmpeg.effWidth w s = min w s ∧ ffmpeg.effWidth w s ≤ s ∧
    (∀ s0 : Int, ffmpeg.effWidth 0 s0 = 0) ∧
    (∀ (conv : Float64 → Int) (x : ffmpeg.Transcode) (taskID input output : String)
        (crf fps : Int),
      x.props.w = s →
      ffmpeg.Compress conv x taskID input output crf w fps =
        Started.cons (Effect.videoProps input)
          (ffmpeg.runWithProgress conv x taskID
            (ffmpeg.compressArgs input output crf (min w s) (ffmpeg.effFPS conv fps x.props.fps))
            input) ∧
      ffmpeg.GIF conv x taskID input output w fps =
        Started.cons (Effect.videoProps input)
          (ffmpeg.runWithProgress conv x taskID
            (ffmpeg.gifArgs input output (min w s) (ffmpeg.effFPS conv fps x.props.fps))
            input)) ∧
    (∀ (input output : String) (crf f : Int),
      ffmpeg.scaleFilter (min w s) ∈ ffmpeg.compressArgs input output crf (min w s) f) := by
  have h1 : ffmpeg.effWidth w s = min w s := by
    unfold ffmpeg.effWidth
    split_ifs <;> omega
  refine ⟨h1, by omega, ?_, ?_, ?_⟩
  · intro s0
    unfold ffmpeg.effWidth
    simp
  · intro conv x taskID input output crf fps hx
    unfold ffmpeg.Compress ffmpeg.GIF
    simp only [hx, h1, and_self]
  · intro input output crf f
    have hpos : min w s > 0 := by omega
    unfold ffmpeg.compressArgs
    simp only [hpos, if_true]
    split_ifs <;> simp

/-- Witness of C4: a requested width of 4000 against a source width of 1920
gives 1920. -/
theorem width_clamp_witness : ffmpeg.effWidth 4000 1920 = 1920 := by
  rw [(width_clamp 4000 1920 (by decide) (by decide)).1]
  decide

/-- C5, as stated, fails: the cap is `int(srcFPS + 0.0001)`, not the source
frame-rate rounded down. With a requested fps of 60 and a source frame-rate of
`30 - 1/16384` (the field `491519/16384`, about 29.99994, at least 1) the
effective fps is 30, while the source rate rounded down is 29, and 30 exceeds
the source frame-rate. -/
theorem fps_clamp_counterexample :
    ffmpeg.effFPS Float64.amd64 60 (Float64.fin (30 - 1 / 16384)) = 30 ∧
    max 1 (min 60 ⌊(30 - 1 / 16384 : ℚ)⌋) = 29 ∧
    (1 : ℚ) ≤ 30 - 1 / 16384 ∧
    (30 - 1 / 16384 : ℚ) <
      ((ffmpeg.effFPS Float64.amd64 60 (Float64.fin (30 - 1 / 16384)) : Int) : ℚ) := by
  have hadd : Float64.ofRat ((30 - 1 / 16384 : ℚ) + 7378697629483821 / 2 ^ 66) =
      Float64.fin (8444260268948167 / 2 ^ 48) :=
    ofRat_eval_lit 48 8444260268948167 _ (by norm_num) (by norm_num) (by norm_num) (by norm_num)
      (by norm_num) (by norm_num)
  have h1 : ffmpeg.effFPS Float64.amd64 60 (Float64.fin (30 - 1 / 16384)) = 30 := by
    rw [effFPS_fin Float64.amd64 60 (by decide) (by norm_num) hadd
      (abs_lt.mpr ⟨by norm_num, by norm_num⟩),
      trunc_eval 30 (by norm_num) (by norm_num) (by norm_num)]
    decide
  have h2 : ⌊(30 - 1 / 16384 : ℚ)⌋ = 29 := by
    rw [Int.floor_eq_iff]
    norm_num
  refine ⟨h1, ?_, by norm_num, ?_⟩
  · rw [h2]
    decide
  · rw [h1]
    norm_num

theorem round_tenthousandth_bounds :
    (1 : ℚ) / 16384 ≤ 7378697629483821 / 2 ^ 66 ∧
    (7378697629483821 : ℚ) / 2 ^ 66 ≤ 1 / 8192 - 1 / 65536 := by
  constructor <;> norm_num

theorem round_int_minus (m : Int) (k : Nat) (h0 : 0 ≤ m) (hm : m ≤ 2 ^ 32) (hk : k ≤ 16) :
    Float64.round ((m : ℚ) - 1 / 2 ^ k) = (m : ℚ) - 1 / 2 ^ k := by
  have hp : (2 : Int) ^ k ≤ 2 ^ 16 := pow_le_pow_right₀ (by norm_num) hk
  have hp0 : (0 : Int) < 2 ^ k := by positivity
  have hb : m * 2 ^ k ≤ 2 ^ 32 * 2 ^ 16 := mul_le_mul hm hp hp0.le (by norm_num)
  have hb0 : 0 ≤ m * 2 ^ k := mul_nonneg h0 hp0.le
  have := Float64.round_dyadic (m * 2 ^ k - 1) k
    (by
      rw [abs_lt]
      constructor
      · have : (-(2 : Int) ^ 53) < -1 := by norm_num
        omega
      · have : (2 : Int) ^ 32 * 2 ^ 16 < 2 ^ 53 := by norm_num
        omega)
    (by omega)
  have e : ((m * 2 ^ k - 1 : Int) : ℚ) / 2 ^ k = (m : ℚ) - 1 / 2 ^ k := by
    push_cast
    field_simp
  rw [e] at this
  exact this

/-- C5 (amended): for a requested fps `f > 0` and a probed source frame-rate
`s` with `0 < s ≤ 2^31`, the effective fps is `max(1, min(f, n))`, where the
cap `n` is `int(s + 0.0001)` computed in `float64`: it is `floor(s)` or
`floor(s) + 1`; it is `floor(s)` when the fraction of `s` is at most
`1 - 1/4096` and `floor(s) + 1` when it is at least `1 - 1/16384`; it never
exceeds `s + 1/8192`. The effective fps is at least 1 and at most `f`. -/
theorem fps_clamp (conv : Float64 → Int) (f : Int) (s : ℚ) (hf : 0 < f) (hs : 0 < s)
    (hs2 : s ≤ 2 ^ 31) :
    ∃ n : Int,
      ffmpeg.effFPS conv f (Float64.fin s) = max 1 (min f n) ∧
      ⌊s⌋ ≤ n ∧ n ≤ ⌊s⌋ + 1 ∧ (n : ℚ) ≤ s + 1 / 8192 ∧
      (s ≤ (⌊s⌋ : ℚ) + 1 - 1 / 4096 → n = ⌊s⌋) ∧
      ((⌊s⌋ : ℚ) + 1 - 1 / 16384 ≤ s → n = ⌊s⌋ + 1) ∧
      1 ≤ ffmpeg.effFPS conv f (Float64.fin s) ∧ ffmpeg.effFPS conv f (Float64.fin s) ≤ f := by
  obtain ⟨c1, c2⟩ := round_tenthousandth_bounds
  have hfl := Int.floor_le s
  have hfu := Int.lt_floor_add_one s
  have hF0 : 0 ≤ ⌊s⌋ := Int.floor_nonneg.mpr hs.le
  have hF1 : ⌊s⌋ ≤ 2 ^ 31 := by
    have : ⌊s⌋ ≤ ⌊(2 : ℚ) ^ 31⌋ := Int.floor_mono hs2
    have e : ⌊(2 : ℚ) ^ 31⌋ = 2 ^ 31 := by
      have := Int.floor_intCast (α := ℚ) (2 ^ 31)
      push_cast at this
      exact this
    rw [e] at this
    exact this
  generalize ⌊s⌋ = F at *
  have hFq0 : (0 : ℚ) ≤ F := by exact_mod_cast hF0
  have hFq1 : (F : ℚ) ≤ 2 ^ 31 := by exact_mod_cast hF1
  obtain ⟨-, r2, r3⟩ := round_half_int F (by rw [abs_le]; constructor <;> omega)
  obtain ⟨-, r5, r6⟩ := round_half_int (F + 1) (by rw [abs_le]; constructor <;> omega)
  obtain ⟨c, hc⟩ : ∃ c : ℚ, c = 7378697629483821 / 2 ^ 66 := ⟨_, rfl⟩
  rw [← hc] at c1 c2
  obtain ⟨q, hq⟩ : ∃ q : ℚ, q = s + c := ⟨_, rfl⟩
  have hqc : s + 7378697629483821 / 2 ^ 66 = q := by rw [hq, hc]
  -- the sum is finite and fits
  have b1 : (F : ℚ) ≤ Float64.round q := by
    have := Float64.round_mono (show (F : ℚ) ≤ q by linarith)
    rw [r3] at this
    exact this
  have b2 : Float64.round q ≤ (F : ℚ) + 1 + 1 / 2 := by
    have := Float64.round_mono (show q ≤ ((F + 1 : Int) : ℚ) + 1 / 2 by
      push_cast
      linarith [show (1 : ℚ) / 8192 - 1 / 65536 ≤ 1 / 2 by norm_num])
    rw [r5] at this
    push_cast at this
    exact this
  have hfin : Float64.ofRat q = Float64.fin (Float64.round q) := by
    apply Float64.ofRat_of_abs_le
    rw [abs_of_nonneg (by linarith)]
    linarith [show (2 : ℚ) ^ 31 + 2 ≤ 2 ^ 1023 by norm_num]
  have hx0 : 0 ≤ Float64.round q := by linarith
  have hfit : |Float64.round q| < 2 ^ 63 := by
    rw [abs_of_nonneg hx0]
    linarith [show (2 : ℚ) ^ 31 + 2 < 2 ^ 63 by norm_num]
  have heff := effFPS_fin conv f hf hs (hqc ▸ hfin) hfit
  rw [Float64.trunc_of_nonneg hx0] at heff
  have n1 : F ≤ ⌊Float64.round q⌋ := Int.le_floor.mpr b1
  have n2 : ⌊Float64.round q⌋ ≤ F + 1 := by
    have : ⌊Float64.round q⌋ < F + 2 := by
      rw [Int.floor_lt]
      push_cast
      linarith
    omega
  have low : ∀ k : Nat, k ≤ 16 → q ≤ ((F + 1 : Int) : ℚ) - 1 / 2 ^ k → ⌊Float64.round q⌋ = F := by
    intro k hk hle
    have := Float64.round_mono hle
    rw [round_int_minus (F + 1) k (by omega) (by omega) hk] at this
    have hpos : (0 : ℚ) < 1 / 2 ^ k := by positivity
    have : ⌊Float64.round q⌋ < F + 1 := by
      rw [Int.floor_lt]
      linarith
    omega
  refine ⟨⌊Float64.round q⌋, heff, n1, n2, ?_, ?_, ?_, ?_, ?_⟩
  · by_contra hc
    have hc2 : s + 1 / 8192 < ((⌊Float64.round q⌋ : Int) : ℚ) := not_le.mp hc
    have hn : ⌊Float64.round q⌋ = F + 1 := by
      by_contra hne
      have : ⌊Float64.round q⌋ = F := by omega
      rw [this] at hc2
      linarith
    rw [hn] at hc2
    have := low 16 le_rfl (by
      push_cast at hc2 ⊢
      norm_num at c2 ⊢
      linarith)
    omega
  · intro h
    exact low 13 (by norm_num) (by
      push_cast
      norm_num at c2 h ⊢
      linarith)
  · intro h
    have := Float64.round_mono (show ((F + 1 : Int) : ℚ) ≤ q by
      push_cast
      linarith)
    rw [r6] at this
    have : F + 1 ≤ ⌊Float64.round q⌋ := Int.le_floor.mpr this
    omega
  · rw [heff]
    omega
  · rw [heff]
    omega

/-- Witness of C5: a requested fps of 60 against the source frame-rate 29.97
(the `float64` nearest to it) gives 29. -/
theorem fps_clamp_witness :
    ffmpeg.effFPS Float64.amd64 60 (Float64.fin (8435805052018360 / 2 ^ 48)) = 29 := by
  obtain ⟨n, h1, -, -, -, h2, -⟩ := fps_clamp Float64.amd64 60 (8435805052018360 / 2 ^ 48)
    (by decide) (by norm_num) (by norm_num)
  have hF : ⌊(8435805052018360 / 2 ^ 48 : ℚ)⌋ = 29 := by
    rw [Int.floor_eq_iff]
    norm_num
  rw [hF] at h2
  rw [h1, h2 (by norm_num)]
  decide

/-! ## Interleavings -/

theorem interleave_perm {α : Type} (s : List Bool) (xs ys : List α) :
    (interleave s xs ys).Perm (xs ++ ys) := by
  induction s generalizing xs ys with
  | nil => exact List.Perm.refl _
  | cons b s ih =>
    cases b with
    | true =>
      cases xs with
      | nil => exact List.Perm.refl _
      | cons x xs => exact (ih xs ys).cons x
    | false =>
      cases ys with
      | nil =>
        rw [List.append_nil]
        exact List.Perm.refl _
      | cons y ys =>
        exact ((ih xs ys).cons y).trans List.perm_middle.symm

theorem mem_interleave {α : Type} (s : List Bool) (xs ys : List α) (a : α) :
    a ∈ interleave s xs ys ↔ a ∈ xs ∨ a ∈ ys := by
  rw [(interleave_perm s xs ys).mem_iff, List.mem_append]

theorem sublist_interleave_left {α : Type} (s : List Bool) (xs ys : List α) :
    xs.Sublist (interleave s xs ys) := by
  induction s generalizing xs ys with
  | nil => exact List.sublist_append_left _ _
  | cons b s ih =>
    cases b with
    | true =>
      cases xs with
      | nil => exact List.nil_sublist _
      | cons x xs => exact (ih xs ys).cons₂ x
    | false =>
      cases ys with
      | nil => exact List.Sublist.refl _
      | cons y ys => exact (ih xs ys).cons y

theorem sublist_interleave_right {α : Type} (s : List Bool) (xs ys : List α) :
    ys.Sublist (interleave s xs ys) := by
  induction s generalizing xs ys with
  | nil => exact List.sublist_append_right _ _
  | cons b s ih =>
    cases b with
    | true =>
      cases xs with
      | nil => exact List.Sublist.refl _
      | cons x xs => exact (ih xs ys).cons x
    | false =>
      cases ys with
      | nil => exact List.nil_sublist _
      | cons y ys => exact (ih xs ys).cons₂ y

theorem interleave_nil_left {α : Type} (s : List Bool) (ys : List α) :
    interleave s [] ys = ys := by
  induction s generalizing ys with
  | nil => rfl
  | cons b s ih =>
    cases b with
    | true => rfl
    | false =>
      cases ys with
      | nil => rfl
      | cons y ys =>
        show y :: interleave s [] ys = y :: ys
        rw [ih]

theorem mem_followedBy {α : Type} (r : Started α) (s : List Bool) (rest : List Effect)
    (e : Effect) :
    e ∈ r.followedBy s rest ↔ e ∈ r.before ∨ e ∈ r.reader ∨ e ∈ r.after ∨ e ∈ rest := by
  unfold Started.followedBy
  rw [List.mem_append, mem_interleave, List.mem_append]

theorem records_eq_filterMap (l : List Effect) :
    records l = l.filterMap (fun e => match e with
      | Effect.set t _ => some t
      | _ => none) := by
  induction l with
  | nil => rfl
  | cons e es ih =>
    cases e <;> simp [records, ih]

theorem records_append (l1 l2 : List Effect) : records (l1 ++ l2) = records l1 ++ records l2 := by
  rw [records_eq_filterMap, records_eq_filterMap, records_eq_filterMap, List.filterMap_append]

theorem records_perm {l1 l2 : List Effect} (h : l1.Perm l2) : (records l1).Perm (records l2) := by
  rw [records_eq_filterMap, records_eq_filterMap]
  exact h.filterMap _

theorem records_sublist {l1 l2 : List Effect} (h : l1.Sublist l2) :
    (records l1).Sublist (records l2) := by
  rw [records_eq_filterMap, records_eq_filterMap]
  exact h.filterMap _

theorem records_followedBy_perm {α : Type} (r : Started α) (s : List Bool) (rest : List Effect) :
    (records (r.followedBy s rest)).Perm
      (records r.before ++ (records r.reader ++ (records r.after ++ records rest))) := by
  unfold Started.followedBy
  rw [records_append]
  apply List.Perm.append_left
  have := records_perm (interleave_perm s r.reader (r.after ++ rest))
  rw [records_append, records_append] at this
  exact this

theorem mem_records_followedBy {α : Type} (r : Started α) (s : List Bool) (rest : List Effect)
    (t : store.TaskStatus) :
    t ∈ records (r.followedBy s rest) ↔
      t ∈ records r.before ∨ t ∈ records r.reader ∨ t ∈ records r.after ∨ t ∈ records rest := by
  rw [(records_followedBy_perm r s rest).mem_iff]
  simp only [List.mem_append]

theorem mem_records {l : List Effect} {t : store.TaskStatus} :
    t ∈ records l ↔ ∃ ttl, Effect.set t ttl ∈ l := by
  induction l with
  | nil => simp [records]
  | cons e es ih =>
    cases e <;> simp [records, ih]
    case set t1 ttl1 =>
      constructor
      · rintro (h | ⟨ttl, h⟩)
        · exact ⟨ttl1, Or.inl ⟨h, rfl⟩⟩
        · exact ⟨ttl, Or.inr h⟩
      · rintro ⟨ttl, (⟨h, -⟩ | h)⟩
        · exact Or.inl h
        · exact Or.inr ⟨ttl, h⟩

/-! ## Output naming -/

theorem extRev_suffix (l acc e : List Char) (h : filepath.extRev l acc = some e) :
    ∃ l1 l2, l = l1 ++ l2 ∧ e = l1.reverse ++ acc := by
  induction l generalizing acc with
  | nil => simp [filepath.extRev] at h
  | cons c cs ih =>
    unfold filepath.extRev at h
    split_ifs at h with h1 h2
    · injection h with h
      refine ⟨[c], cs, rfl, ?_⟩
      rw [← h, h2]
      rfl
    · obtain ⟨l1, l2, hl, he⟩ := ih (c :: acc) h
      refine ⟨c :: l1, l2, by rw [hl]; rfl, ?_⟩
      rw [he]
      simp

theorem TrimSuffix_Ext (n : String) :
    strings.TrimSuffix n (filepath.Ext n) ++ filepath.Ext n = n := by
  unfold filepath.Ext
  cases h : filepath.extRev n.data.reverse [] with
  | none =>
    have h0 : ("" : String).data = [] := rfl
    have hs : strings.HasSuffix n "" = true := by
      unfold strings.HasSuffix
      rw [h0]
      simp
    unfold strings.TrimSuffix
    dsimp only
    rw [if_pos hs]
    apply String.ext
    rw [String.data_append, h0, List.append_nil, List.length_nil, Nat.sub_zero, List.take_length]
  | some e =>
    obtain ⟨l1, l2, hl, he⟩ := extRev_suffix _ _ _ h
    rw [List.append_nil] at he
    have hn : n.data = l2.reverse ++ l1.reverse := by
      have := congrArg List.reverse hl
      simpa using this
    have hsuf : strings.HasSuffix n ⟨e⟩ = true := by
      unfold strings.HasSuffix
      rw [hl, he]
      simp
    unfold strings.TrimSuffix
    dsimp only
    rw [if_pos hsuf]
    apply String.ext
    rw [String.data_append]
    simp only [hn, he, List.length_append, List.length_reverse, Nat.add_sub_cancel]
    rw [List.take_left']
    simp

/-- C6: the output name of the upload job for a source file name `n`, whose
extension `Ext n` is a suffix of `n` (`n` is `TrimSuffix n (Ext n)` followed by
`Ext n`): `compressed_` + n for video_compress; the name without its extension
+ `.gif` for video_to_gif and + `.mp3` for video_to_audio; for image_compress
`compressed_` + the name without its extension + `.jpg` (hint jpg or jpeg) or
+ `.png` (hint png), and `compressed_` + n for every other hint. This name is
the `output_file` of the completed record whenever the transform succeeds. -/
theorem output_naming (n imgFormat : String) :
    strings.TrimSuffix n (filepath.Ext n) ++ filepath.Ext n = n ∧
    httpapi.outName "video_compress" imgFormat n = "compressed_" ++ n ∧
    httpapi.outName "video_to_gif" imgFormat n =
      strings.TrimSuffix n (filepath.Ext n) ++ ".gif" ∧
    httpapi.outName "video_to_audio" imgFormat n =
      strings.TrimSuffix n (filepath.Ext n) ++ ".mp3" ∧
    (imgFormat = "jpg" ∨ imgFormat = "jpeg" →
      httpapi.outName "image_compress" imgFormat n =
        "compressed_" ++ strings.TrimSuffix n (filepath.Ext n) ++ ".jpg") ∧
    (imgFormat = "png" →
      httpapi.outName "image_compress" imgFormat n =
        "compressed_" ++ strings.TrimSuffix n (filepath.Ext n) ++ ".png") ∧
    (imgFormat ≠ "jpg" → imgFormat ≠ "jpeg" → imgFormat ≠ "png" →
      httpapi.outName "image_compress" imgFormat n = "compressed_" ++ n) ∧
    (∀ (env : httpapi.Env) (w : httpapi.World)
        (jobDir taskID pType url curPath curName : String) (crf width fps quality : Int),
      (httpapi.acquireLocal jobDir url curPath curName).2.2 = n →
      (httpapi.transform w.conv w.transcode taskID pType
          (httpapi.acquireLocal jobDir url curPath curName).2.1
          (filepath.Join [jobDir, httpapi.outName pType imgFormat n])
          crf width fps quality).result = none →
      Effect.set { ID := taskID, Status := "completed",
                   OutputFile := httpapi.outName pType imgFormat n,
                   Stage := "finalize", Percent := 100 } (30 * store.Minute) ∈
        httpapi.processJob env w jobDir taskID pType url curPath curName imgFormat
          crf width fps quality) := by
  refine ⟨TrimSuffix_Ext n, ?_, ?_, ?_, ?_, ?_, ?_, ?_⟩
  · simp [httpapi.outName]
  · simp [httpapi.outName]
  · simp [httpapi.outName]
  · rintro (h | h) <;> subst h <;> simp [httpapi.outName]
  · rintro h
    subst h
    simp [httpapi.outName]
  · intro h1 h2 h3
    simp [httpapi.outName, h1, h2, h3]
  · intro env w jobDir taskID pType url curPath curName crf width fps quality hn htr
    unfold httpapi.processJob
    simp only [hn, htr]
    rw [List.mem_append, mem_followedBy]
    right; right; right; right
    unfold httpapi.finish
    simp

/-- Witness of C6: for the source name `clip.mp4`, video_to_gif gives
`clip.gif` and video_compress gives `compressed_clip.mp4`. -/
theorem output_naming_witness :
    httpapi.outName "video_to_gif" "" "clip.mp4" = "clip.gif" ∧
    httpapi.outName "video_compress" "" "clip.mp4" = "compressed_clip.mp4" := by
  constructor
  · rw [(output_naming "clip.mp4" "").2.2.1]
    decide
  · rw [(output_naming "clip.mp4" "").2.1]
    decide


/-! ## The status store -/

theorem runCalls_frame {R : Type} (B : store.Backend R) (s : store.RedisStore R)
    (calls : List store.Call) (id : String) (h : s.Rdb = none)
    (hno : ∀ c ∈ calls, ∀ now t ttl, c = store.Call.set now t ttl → t.ID ≠ id) :
    (store.runCalls B s calls).1.Rdb = none ∧
    (store.runCalls B s calls).1.mem.data id = s.mem.data id := by
  induction calls generalizing s with
  | nil => exact ⟨h, rfl⟩
  | cons c cs ih =>
    have hcs : ∀ c ∈ cs, ∀ now t ttl, c = store.Call.set now t ttl → t.ID ≠ id :=
      fun c hc => hno c (List.mem_cons_of_mem _ hc)
    cases c with
    | set now t ttl =>
      have hid : t.ID ≠ id := hno _ (List.mem_cons_self _ _) now t ttl rfl
      have h1 : (store.RedisStore.Set B s t ttl).1.Rdb = none := by
        simp [store.RedisStore.Set, h]
      have h2 : (store.RedisStore.Set B s t ttl).1.mem.data id = s.mem.data id := by
        simp [store.RedisStore.Set, h, store.MemoryStore.Set, Ne.symm hid]
      rw [store.runCalls]
      obtain ⟨e1, e2⟩ := ih _ h1 hcs
      exact ⟨e1, e2.trans h2⟩
    | get now id1 =>
      rw [store.runCalls]
      exact ih s h hcs

theorem fallback_set_get {R : Type} (B : store.Backend R) (s : store.RedisStore R)
    (t : store.TaskStatus) (ttl : store.Duration) (h : s.Rdb = none) :
    (store.RedisStore.Set B s t ttl).1.Rdb = none ∧
    (store.RedisStore.Set B s t ttl).1.mem.data t.ID = some t ∧
    (store.RedisStore.Set B s t ttl).2 = none := by
  simp [store.RedisStore.Set, h, store.MemoryStore.Set]

theorem fallback_get {R : Type} (B : store.Backend R) (s : store.RedisStore R) (id : String)
    (h : s.Rdb = none) : store.RedisStore.Get B s id = s.mem.data id := by
  unfold store.RedisStore.Get
  rw [h]
  unfold store.MemoryStore.Get
  cases s.mem.data id <;> rfl

/-- C7: on a `RedisStore` with a nil client, as `main` builds it when the ping
of the backend fails, `Set(t, ttl)` succeeds and a following `Get(t.ID)` finds
a record equal to `t`, for every record and every ttl. -/
theorem fallback_round_trip {R : Type} (B : store.Backend R) (s : store.RedisStore R)
    (t : store.TaskStatus) (ttl : store.Duration) (h : s.Rdb = none) :
    store.RedisStore.Get B (store.RedisStore.Set B s t ttl).1 t.ID = some t ∧
    (store.RedisStore.Set B s t ttl).2 = none ∧
    (∀ (addr : String) (client : R) (e : String),
      (server.selectStore addr client (some e)).Rdb = none) := by
  obtain ⟨h1, h2, h3⟩ := fallback_set_get B s t ttl h
  refine ⟨?_, h3, ?_⟩
  · rw [fallback_get B _ _ h1, h2]
  · intro addr client e
    unfold server.selectStore store.NewRedisStore
    split_ifs <;> rfl

/-- Witness of C7: the store `main` selects after a failed ping returns the
sample record after it is set. -/
theorem fallback_round_trip_witness :
    store.RedisStore.Get Sample.deadBackend
      (store.RedisStore.Set Sample.deadBackend
        (server.selectStore "localhost:6379" () (some "connection refused"))
        Sample.task (30 * store.Minute)).1 Sample.task.ID = some Sample.task :=
  (fallback_round_trip Sample.deadBackend
    (server.selectStore "localhost:6379" () (some "connection refused"))
    Sample.task (30 * store.Minute) (by decide)).1

/-- C8, as stated, fails: on the fallback store a record set at time 0 with a
ttl of 30 minutes is still found by a `Get` made 31 minutes later. -/
theorem ttl_expiry_counterexample :
    (store.runCalls Sample.deadBackend (store.NewRedisStore none)
      [store.Call.set 0 Sample.task (30 * store.Minute),
       store.Call.get (31 * store.Minute) Sample.task.ID]).2 = [some Sample.task] ∧
    30 * store.Minute < 31 * store.Minute - 0 := by
  constructor
  · rfl
  · decide

/-- C8, amended: the in-process fallback store ignores the ttl. After
`Set(t, ttl)` every later `Get(t.ID)` finds `t`, whatever the ttl, whatever the
moments of the calls, and whatever other calls come in between, as long as
none of them is a `Set` for the same id. -/
theorem fallback_never_expires {R : Type} (B : store.Backend R) (s : store.RedisStore R)
    (t : store.TaskStatus) (ttl : store.Duration) (now later : Int)
    (between : List store.Call) (h : s.Rdb = none)
    (hno : ∀ c ∈ between, ∀ now1 t1 ttl1, c = store.Call.set now1 t1 ttl1 → t1.ID ≠ t.ID) :
    (store.runCalls B s
      (store.Call.set now t ttl :: between ++ [store.Call.get later t.ID])).2.getLast? =
      some (some t) := by
  obtain ⟨h1, h2, -⟩ := fallback_set_get B s t ttl h
  rw [List.cons_append, store.runCalls]
  generalize store.RedisStore.Set B s t ttl = r at h1 h2
  induction between generalizing r with
  | nil =>
    simp only [List.nil_append, store.runCalls, List.getLast?_singleton]
    rw [fallback_get B _ _ h1, h2]
  | cons c cs ih =>
    have hcs : ∀ c ∈ cs, ∀ now1 t1 ttl1, c = store.Call.set now1 t1 ttl1 → t1.ID ≠ t.ID :=
      fun c hc => hno c (List.mem_cons_of_mem _ hc)
    cases c with
    | set now1 t1 ttl1 =>
      have hid : t1.ID ≠ t.ID := hno _ (List.mem_cons_self _ _) now1 t1 ttl1 rfl
      rw [List.cons_append, store.runCalls]
      apply ih hcs
      · simp [store.RedisStore.Set, h1]
      · simp [store.RedisStore.Set, h1, store.MemoryStore.Set, Ne.symm hid, h2]
    | get now1 id1 =>
      simp only [List.cons_append, store.runCalls]
      have := ih hcs r h1 h2
      cases hr : (store.runCalls B r.1 (cs ++ [store.Call.get later t.ID])).2 with
      | nil => rw [hr] at this; simp at this
      | cons x xs =>
        rw [hr] at this
        simp only [List.getLast?_cons_cons]
        exact this

/-- Witness of C8 (amended): set at time 0 with a ttl of 30 minutes, another
task set and read in between, and still found 31 minutes later. -/
theorem fallback_never_expires_witness :
    (store.runCalls Sample.deadBackend (store.NewRedisStore none)
      (store.Call.set 0 Sample.task (30 * store.Minute) ::
        [store.Call.set 5 { Sample.task with ID := "other" } store.Minute,
         store.Call.get 7 "other"] ++
        [store.Call.get (31 * store.Minute) Sample.task.ID])).2.getLast? =
      some (some Sample.task) :=
  fallback_never_expires Sample.deadBackend (store.NewRedisStore none) Sample.task
    (30 * store.Minute) 0 (31 * store.Minute)
    [store.Call.set 5 { Sample.task with ID := "other" } store.Minute, store.Call.get 7 "other"]
    rfl (by
      intro c hc now1 t1 ttl1 he
      simp only [List.mem_cons, List.mem_singleton, List.not_mem_nil, or_false] at hc
      rcases hc with hc | hc
      · rw [hc] at he
        injection he with _ h2 _
        rw [← h2]
        decide
      · rw [hc] at he
        cases he)


/-! ## Monotonicity of the decoders -/

theorem div_eq_fin {u : Float64} {d x : ℚ} (hd : d ≠ 0)
    (h : Float64.div u (Float64.fin d) = Float64.fin x) :
    ∃ a, u = Float64.fin a ∧ Float64.ofRat (a / d) = Float64.fin x := by
  cases u with
  | fin a =>
    rw [Float64.div_fin a d hd] at h
    exact ⟨a, rfl, h⟩
  | inf s => cases h
  | nan => cases h

theorem mul_eq_fin {u : Float64} {m x : ℚ} (hm : m ≠ 0)
    (h : Float64.mul u (Float64.fin m) = Float64.fin x) :
    ∃ a, u = Float64.fin a ∧ Float64.ofRat (a * m) = Float64.fin x := by
  cases u with
  | fin a => exact ⟨a, rfl, h⟩
  | inf s =>
    have e : Float64.mul (Float64.inf s) (Float64.fin m) =
        Float64.inf (xor s (decide (m < 0))) := by
      show (if m = 0 then Float64.nan else Float64.inf (xor s (decide (m < 0)))) = _
      rw [if_neg hm]
    rw [e] at h
    cases h
  | nan => cases h

theorem add_eq_fin {u : Float64} {c x : ℚ}
    (h : Float64.add u (Float64.fin c) = Float64.fin x) :
    ∃ a, u = Float64.fin a ∧ Float64.ofRat (a + c) = Float64.fin x := by
  cases u with
  | fin a => exact ⟨a, rfl, h⟩
  | inf s => cases h
  | nan => cases h

theorem knownValue_eq_fin {d x : ℚ} {v : Float64} (hd : d ≠ 0)
    (h : ffmpeg.knownValue (Float64.fin d) v = Float64.fin x) :
    ∃ a, v = Float64.fin a ∧
      x = Float64.round (Float64.round (Float64.round (Float64.round (a / 1000000) / d) * 100)
        + 1 / 2) := by
  unfold ffmpeg.knownValue at h
  obtain ⟨r3, e3, h4⟩ := add_eq_fin h
  obtain ⟨r2, e2, h3⟩ := mul_eq_fin (by norm_num) e3
  obtain ⟨r1, e1, h2⟩ := div_eq_fin hd e2
  obtain ⟨a, e0, h1⟩ := div_eq_fin (by norm_num) e1
  refine ⟨a, e0, ?_⟩
  rw [Float64.ofRat_eq_fin h4, Float64.ofRat_eq_fin h3, Float64.ofRat_eq_fin h2,
    Float64.ofRat_eq_fin h1]

theorem unknownValue_eq_fin {x : ℚ} {v : Float64}
    (h : ffmpeg.unknownValue v = Float64.fin x) :
    ∃ a, v = Float64.fin a ∧
      x = Float64.round (Float64.round (Float64.round (a / 1000000) / 120) * 90) := by
  unfold ffmpeg.unknownValue at h
  obtain ⟨r2, e2, h3⟩ := mul_eq_fin (by norm_num) h
  obtain ⟨r1, e1, h2⟩ := div_eq_fin (by norm_num) e2
  obtain ⟨a, e0, h1⟩ := div_eq_fin (by norm_num) e1
  refine ⟨a, e0, ?_⟩
  rw [Float64.ofRat_eq_fin h3, Float64.ofRat_eq_fin h2, Float64.ofRat_eq_fin h1]

theorem le_fin {a b : ℚ} (h : Float64.le (Float64.fin a) (Float64.fin b) = true) : a ≤ b :=
  of_decide_eq_true h

theorem knownValue_inf_cases (s : Bool) (v : Float64) :
    ffmpeg.knownValue (Float64.inf s) v =
        Float64.add (Float64.mul (Float64.fin 0) (Float64.fin 100)) (Float64.fin (1 / 2)) ∨
      ffmpeg.knownValue (Float64.inf s) v = Float64.nan := by
  unfold ffmpeg.knownValue
  generalize Float64.div v (Float64.fin 1000000) = u
  cases u with
  | fin a => exact Or.inl rfl
  | inf t => exact Or.inr rfl
  | nan => exact Or.inr rfl

theorem convertedValue_mono {dur v1 v2 : Float64} {x y : ℚ}
    (h : Float64.le v1 v2 = true)
    (hx : ffmpeg.convertedValue dur v1 = Float64.fin x)
    (hy : ffmpeg.convertedValue dur v2 = Float64.fin y) : x ≤ y := by
  unfold ffmpeg.convertedValue at hx hy
  have unknown : ∀ {x y : ℚ}, ffmpeg.unknownValue v1 = Float64.fin x →
      ffmpeg.unknownValue v2 = Float64.fin y → x ≤ y := by
    intro x y hx hy
    obtain ⟨a, ea, rfl⟩ := unknownValue_eq_fin hx
    obtain ⟨b, eb, rfl⟩ := unknownValue_eq_fin hy
    rw [ea, eb] at h
    have hab := le_fin h
    apply Float64.round_mono
    apply mul_le_mul_of_nonneg_right _ (by norm_num)
    apply Float64.round_mono
    apply div_le_div_of_nonneg_right _ (by norm_num)
    apply Float64.round_mono
    exact div_le_div_of_nonneg_right hab (by norm_num)
  cases dur with
  | fin d =>
    by_cases hd : 0 < d
    · have hlt : Float64.lt (Float64.fin 0) (Float64.fin d) = true := decide_eq_true hd
      rw [if_pos hlt] at hx hy
      obtain ⟨a, ea, rfl⟩ := knownValue_eq_fin hd.ne.symm hx
      obtain ⟨b, eb, rfl⟩ := knownValue_eq_fin hd.ne.symm hy
      rw [ea, eb] at h
      have hab := le_fin h
      apply Float64.round_mono
      apply add_le_add_right
      apply Float64.round_mono
      apply mul_le_mul_of_nonneg_right _ (by norm_num)
      apply Float64.round_mono
      apply div_le_div_of_nonneg_right _ hd.le
      apply Float64.round_mono
      exact div_le_div_of_nonneg_right hab (by norm_num)
    · have hlt : Float64.lt (Float64.fin 0) (Float64.fin d) = false := decide_eq_false hd
      rw [hlt] at hx hy
      exact unknown hx hy
  | inf s =>
    cases s with
    | false =>
      have hlt : Float64.lt (Float64.fin 0) (Float64.inf false) = true := rfl
      rw [if_pos hlt] at hx hy
      rcases knownValue_inf_cases false v1 with e1 | e1
      · rcases knownValue_inf_cases false v2 with e2 | e2
        · rw [e1] at hx
          rw [e2, hx] at hy
          injection hy with hy
          exact hy.le
        · rw [e2] at hy
          cases hy
      · rw [e1] at hx
        cases hx
    | true =>
      have hlt : Float64.lt (Float64.fin 0) (Float64.inf true) = false := rfl
      rw [hlt] at hx hy
      exact unknown hx hy
  | nan =>
    have hlt : Float64.lt (Float64.fin 0) Float64.nan = false := rfl
    rw [hlt] at hx hy
    exact unknown hx hy

theorem fitsInt_eq_fin {x : Float64} (h : Float64.fitsInt x = true) :
    ∃ q, x = Float64.fin q ∧ -(2 ^ 63) ≤ Float64.trunc q ∧ Float64.trunc q < 2 ^ 63 := by
  cases x with
  | fin q => exact ⟨q, rfl, of_decide_eq_true h⟩
  | inf s => cases h
  | nan => cases h

theorem progressPercent_eq_converted (conv : Float64 → Int) (dur ms : Float64) :
    ffmpeg.progressPercent conv dur ms =
      Spec.clamp 0 (if Float64.lt (Float64.fin 0) dur = true then 99 else 90)
        (Float64.toInt conv (ffmpeg.convertedValue dur ms)) := by
  rw [progressPercent_eq_clamp]
  unfold ffmpeg.convertedValue
  split_ifs <;> rfl

theorem progressPercent_mono (conv : Float64 → Int) {dur v1 v2 : Float64}
    (h : Float64.le v1 v2 = true)
    (h1 : Float64.fitsInt (ffmpeg.convertedValue dur v1) = true)
    (h2 : Float64.fitsInt (ffmpeg.convertedValue dur v2) = true) :
    ffmpeg.progressPercent conv dur v1 ≤ ffmpeg.progressPercent conv dur v2 := by
  obtain ⟨x, ex, hx1, hx2⟩ := fitsInt_eq_fin h1
  obtain ⟨y, ey, hy1, hy2⟩ := fitsInt_eq_fin h2
  rw [progressPercent_eq_converted, progressPercent_eq_converted, ex, ey,
    Float64.toInt_fin conv hx1 hx2, Float64.toInt_fin conv hy1 hy2]
  exact clamp_mono _ _ (Float64.trunc_mono (convertedValue_mono h ex ey))

theorem readerWrites_percents (conv : Float64 → Int) (taskID : String) (dur : Float64)
    (lines : List String) :
    (ffmpeg.readerWrites conv taskID dur lines).map store.TaskStatus.Percent =
      (lines.filterMap ffmpeg.lineValue).map (ffmpeg.progressPercent conv dur) := by
  unfold ffmpeg.readerWrites
  induction lines with
  | nil => rfl
  | cons l ls ih =>
    cases h : ffmpeg.lineValue l with
    | none => simp [List.filterMap_cons, ffmpeg.readerStep, h, ih]
    | some ms => simp [List.filterMap_cons, ffmpeg.readerStep, h, ih]

theorem progressPercent_pairwise (conv : Float64 → Int) (dur : Float64) (vs : List Float64)
    (hm : vs.Pairwise (fun a b => Float64.le a b = true))
    (hf : ∀ v ∈ vs, Float64.fitsInt (ffmpeg.convertedValue dur v) = true) :
    (vs.map (ffmpeg.progressPercent conv dur)).Pairwise (· ≤ ·) := by
  rw [List.pairwise_map]
  exact hm.imp_of_mem fun ha hb hab => progressPercent_mono conv hab (hf _ ha) (hf _ hb)

theorem downloadWrites_percents (conv : Float64 → Int) (taskID : String) (lines : List String) :
    (yt.readerWrites conv taskID lines).map store.TaskStatus.Percent =
      (lines.filterMap yt.lineValue).map (yt.downloadPercent conv) := by
  unfold yt.readerWrites
  induction lines with
  | nil => rfl
  | cons l ls ih =>
    cases h : yt.lineValue l with
    | none => simp [List.filterMap_cons, yt.readerStep, h, ih]
    | some f => simp [List.filterMap_cons, yt.readerStep, h, ih]

theorem findSubmatch_sound (line g : List Char) (h : yt.findSubmatch line = some g) :
    ∃ a b, Spec.IsToken a b ∧ g = a ++ '.' :: b := by
  induction line with
  | nil => cases h
  | cons c cs ih =>
    unfold yt.findSubmatch at h
    cases hm : yt.matchHere (c :: cs) with
    | some g1 =>
      rw [hm] at h
      injection h with h
      subst h
      obtain ⟨a, b, post, htok, -, hg⟩ := matchHere_sound _ _ hm
      exact ⟨a, b, htok, hg⟩
    | none =>
      rw [hm] at h
      exact ih h

theorem yt_lineValue_fin (line : String) (f : Float64) (h : yt.lineValue line = some f) :
    ∃ q : ℚ, f = Float64.fin (Float64.round q) ∧ 0 ≤ q ∧ q < 1000 := by
  unfold yt.lineValue at h
  cases hf : yt.findSubmatch line.data with
  | none =>
    rw [hf] at h
    cases h
  | some g =>
    rw [hf] at h
    obtain ⟨a, b, htok, rfl⟩ := findSubmatch_sound _ _ hf
    dsimp only at h
    rw [parseFloat_token a b htok] at h
    injection h with h
    exact ⟨_, h.symm, tokenValue_nonneg a b, tokenValue_lt a b htok⟩

theorem downloadPercent_fin (conv : Float64 → Int) {q : ℚ} (h0 : 0 ≤ q) (h1 : q < 1000) :
    yt.downloadPercent conv (Float64.fin (Float64.round q)) =
      Spec.clamp 0 100 (Float64.trunc (Float64.round (Float64.round q + 1 / 2))) := by
  have r0 : 0 ≤ Float64.round q := Float64.round_nonneg h0
  have r1 : Float64.round q ≤ 1000 := by
    have := Float64.round_mono h1.le
    rw [show (1000 : ℚ) = ((1000 : Int) : ℚ) by norm_num, Float64.round_int 1000 (by norm_num)]
      at this
    exact_mod_cast this
  have s0 : 0 ≤ Float64.round (Float64.round q + 1 / 2) := Float64.round_nonneg (by linarith)
  have s1 : Float64.round (Float64.round q + 1 / 2) ≤ 1001 := by
    have := Float64.round_mono (show Float64.round q + 1 / 2 ≤ 1001 by linarith)
    rw [show (1001 : ℚ) = ((1001 : Int) : ℚ) by norm_num, Float64.round_int 1001 (by norm_num)]
      at this
    exact_mod_cast this
  have hfin : Float64.ofRat (Float64.round q + 1 / 2) =
      Float64.fin (Float64.round (Float64.round q + 1 / 2)) := by
    apply Float64.ofRat_of_abs_le
    rw [abs_of_nonneg (by linarith)]
    linarith [show (1001 : ℚ) ≤ 2 ^ 1023 by norm_num]
  have hfit : |Float64.round (Float64.round q + 1 / 2)| < 2 ^ 63 := by
    rw [abs_of_nonneg s0]
    linarith [show (1001 : ℚ) < 2 ^ 63 by norm_num]
  rw [downloadPercent_eq_clamp, Float64.add_fin, hfin,
    Float64.toInt_fin conv (trunc_fits hfit).1 (trunc_fits hfit).2]

theorem downloadPercent_bounds (conv : Float64 → Int) (f : Float64) :
    0 ≤ yt.downloadPercent conv f ∧ yt.downloadPercent conv f ≤ 100 := by
  rw [downloadPercent_eq_clamp]
  exact clamp_bounds 100 _ (by norm_num)

theorem downloadPercent_pairwise (conv : Float64 → Int) (lines : List String)
    (hm : (lines.filterMap yt.lineValue).Pairwise (fun a b => Float64.le a b = true)) :
    ((lines.filterMap yt.lineValue).map (yt.downloadPercent conv)).Pairwise (· ≤ ·) := by
  rw [List.pairwise_map]
  refine hm.imp_of_mem ?_
  intro f g hf hg hfg
  rw [List.mem_filterMap] at hf hg
  obtain ⟨l1, -, e1⟩ := hf
  obtain ⟨l2, -, e2⟩ := hg
  obtain ⟨p, rfl, p0, p1⟩ := yt_lineValue_fin l1 f e1
  obtain ⟨q, rfl, q0, q1⟩ := yt_lineValue_fin l2 g e2
  rw [downloadPercent_fin conv p0 p1, downloadPercent_fin conv q0 q1]
  apply clamp_mono
  apply Float64.trunc_mono
  apply Float64.round_mono
  have := le_fin hfg
  linarith

/-! ## Percent sequences of the reader loops -/

theorem records_map_set (ts : List store.TaskStatus) (ttl : store.Duration) :
    records (ts.map fun t => Effect.set t ttl) = ts := by
  induction ts with
  | nil => rfl
  | cons t ts ih => simp [records, ih]

theorem parseFloat_30000000 :
    strconv.ParseFloat (strings.TrimSpace "30000000\n") = (Float64.fin 30000000, none) := by
  have h1 : strings.TrimSpace "30000000\n" = "30000000" := by decide
  rw [h1]
  have := ParseFloat_nat "30000000" 30000000 (by decide) (by decide) (by norm_num)
  simpa using this

theorem lineValue_60 :
    ffmpeg.lineValue "out_time_ms=60000000\n" = some (Float64.fin 60000000) := by
  have : "out_time_ms=60000000\n" = "out_time_ms=" ++ "60000000\n" := by decide
  rw [this, lineValue_out_time, parseFloat_60000000]

theorem lineValue_30 :
    ffmpeg.lineValue "out_time_ms=30000000\n" = some (Float64.fin 30000000) := by
  have : "out_time_ms=30000000\n" = "out_time_ms=" ++ "30000000\n" := by decide
  rw [this, lineValue_out_time, parseFloat_30000000]

theorem lineValue_progress : ffmpeg.lineValue "progress=continue\n" = none := by
  have h : strings.HasPrefix "progress=continue\n" "out_time_ms=" = false := by decide
  unfold ffmpeg.lineValue
  rw [h]
  simp

theorem known_120_60 :
    ffmpeg.knownValue (Float64.fin 120) (Float64.fin 60000000) = Float64.fin (101 / 2) := by
  have h1 : Float64.ofRat ((60000000 : ℚ) / 1000000) = Float64.fin 60 :=
    ofRat_eval_lit 47 8444249301319680 _ (by norm_num) (by norm_num) (by norm_num) (by norm_num)
      (by norm_num) (by norm_num)
  have h2 : Float64.ofRat ((60 : ℚ) / 120) = Float64.fin (1 / 2) :=
    ofRat_eval_lit 53 4503599627370496 _ (by norm_num) (by norm_num) (by norm_num) (by norm_num)
      (by norm_num) (by norm_num)
  have h3 : Float64.ofRat ((1 / 2 : ℚ) * 100) = Float64.fin 50 :=
    ofRat_eval_lit 47 7036874417766400 _ (by norm_num) (by norm_num) (by norm_num) (by norm_num)
      (by norm_num) (by norm_num)
  have h4 : Float64.ofRat ((50 : ℚ) + 1 / 2) = Float64.fin (101 / 2) :=
    ofRat_eval_lit 47 7107243161944064 _ (by norm_num) (by norm_num) (by norm_num) (by norm_num)
      (by norm_num) (by norm_num)
  exact knownValue_eval (by norm_num) h1 h2 h3 h4

theorem known_120_30 :
    ffmpeg.knownValue (Float64.fin 120) (Float64.fin 30000000) = Float64.fin (51 / 2) := by
  have h1 : Float64.ofRat ((30000000 : ℚ) / 1000000) = Float64.fin 30 :=
    ofRat_eval_lit 48 8444249301319680 _ (by norm_num) (by norm_num) (by norm_num) (by norm_num)
      (by norm_num) (by norm_num)
  have h2 : Float64.ofRat ((30 : ℚ) / 120) = Float64.fin (1 / 4) :=
    ofRat_eval_lit 54 4503599627370496 _ (by norm_num) (by norm_num) (by norm_num) (by norm_num)
      (by norm_num) (by norm_num)
  have h3 : Float64.ofRat ((1 / 4 : ℚ) * 100) = Float64.fin 25 :=
    ofRat_eval_lit 48 7036874417766400 _ (by norm_num) (by norm_num) (by norm_num) (by norm_num)
      (by norm_num) (by norm_num)
  have h4 : Float64.ofRat ((25 : ℚ) + 1 / 2) = Float64.fin (51 / 2) :=
    ofRat_eval_lit 48 7177611906121728 _ (by norm_num) (by norm_num) (by norm_num) (by norm_num)
      (by norm_num) (by norm_num)
  exact knownValue_eval (by norm_num) h1 h2 h3 h4

theorem progressPercent_120_60 (conv : Float64 → Int) :
    ffmpeg.progressPercent conv (Float64.fin 120) (Float64.fin 60000000) = 50 := by
  rw [progressPercent_known_fin conv (by norm_num) known_120_60
    (abs_lt.mpr ⟨by norm_num, by norm_num⟩),
    trunc_eval 50 (by norm_num) (by norm_num) (by norm_num)]
  rfl

theorem progressPercent_120_30 (conv : Float64 → Int) :
    ffmpeg.progressPercent conv (Float64.fin 120) (Float64.fin 30000000) = 25 := by
  rw [progressPercent_known_fin conv (by norm_num) known_120_30
    (abs_lt.mpr ⟨by norm_num, by norm_num⟩),
    trunc_eval 25 (by norm_num) (by norm_num) (by norm_num)]
  rfl

theorem fitsInt_of_abs_lt {x : ℚ} (h : |x| < 2 ^ 63) :
    Float64.fitsInt (Float64.fin x) = true :=
  decide_eq_true (trunc_fits h)

theorem converted_120_60 :
    Float64.fitsInt (ffmpeg.convertedValue (Float64.fin 120) (Float64.fin 60000000)) = true := by
  have hlt : Float64.lt (Float64.fin 0) (Float64.fin 120) = true :=
    decide_eq_true (show (0 : ℚ) < 120 by norm_num)
  unfold ffmpeg.convertedValue
  rw [if_pos hlt, known_120_60]
  exact fitsInt_of_abs_lt (abs_lt.mpr ⟨by norm_num, by norm_num⟩)

theorem converted_120_30 :
    Float64.fitsInt (ffmpeg.convertedValue (Float64.fin 120) (Float64.fin 30000000)) = true := by
  have hlt : Float64.lt (Float64.fin 0) (Float64.fin 120) = true :=
    decide_eq_true (show (0 : ℚ) < 120 by norm_num)
  unfold ffmpeg.convertedValue
  rw [if_pos hlt, known_120_30]
  exact fitsInt_of_abs_lt (abs_lt.mpr ⟨by norm_num, by norm_num⟩)

theorem sample_run_lines :
    Sample.run.lines =
      ["out_time_ms=30000000\n", "progress=continue\n", "out_time_ms=60000000\n"] := rfl

theorem sample_run_values :
    Sample.run.lines.filterMap ffmpeg.lineValue =
      [Float64.fin 30000000, Float64.fin 60000000] := by
  rw [sample_run_lines, List.filterMap_cons, lineValue_30, List.filterMap_cons,
    lineValue_progress, List.filterMap_cons, lineValue_60]
  rfl

theorem readerStep_of_value (conv : Float64 → Int) (taskID : String) (dur : Float64)
    {line : String} {v : Float64} (h : ffmpeg.lineValue line = some v) :
    ffmpeg.readerStep conv taskID dur line =
      some { ID := taskID, Status := "processing", Stage := "transcode",
             Percent := ffmpeg.progressPercent conv dur v } := by
  unfold ffmpeg.readerStep
  rw [h]

theorem readerStep_of_none (conv : Float64 → Int) (taskID : String) (dur : Float64)
    {line : String} (h : ffmpeg.lineValue line = none) :
    ffmpeg.readerStep conv taskID dur line = none := by
  unfold ffmpeg.readerStep
  rw [h]

theorem sample_run_writes (conv : Float64 → Int) (taskID : String) :
    ffmpeg.readerWrites conv taskID (Float64.fin 120) Sample.run.lines =
      [{ ID := taskID, Status := "processing", Stage := "transcode", Percent := 25 },
       { ID := taskID, Status := "processing", Stage := "transcode", Percent := 50 }] := by
  unfold ffmpeg.readerWrites
  rw [sample_run_lines, List.filterMap_cons, readerStep_of_value conv taskID _ lineValue_30,
    List.filterMap_cons, readerStep_of_none conv taskID _ lineValue_progress,
    List.filterMap_cons, readerStep_of_value conv taskID _ lineValue_60,
    progressPercent_120_30, progressPercent_120_60]
  rfl

theorem yt_lineValue_eval (line : String) (a b : List Char)
    (h1 : yt.findSubmatch line.data = some (a ++ '.' :: b)) (h2 : Spec.IsToken a b) :
    yt.lineValue line = some (Float64.fin (Float64.round (Spec.tokenValue a b))) := by
  unfold yt.lineValue
  rw [h1]
  dsimp only
  rw [parseFloat_token a b h2]

theorem yt_lineValue_100 :
    yt.lineValue "[download] 100.0% of 5.00MiB" = some (Float64.fin 100) := by
  rw [yt_lineValue_eval _ ['1', '0', '0'] ['0'] (by decide)
    ⟨by decide, by decide, by decide, by decide, by decide⟩]
  have h1 : Spec.digitsValue ['1', '0', '0'] = 100 := by decide
  have h2 : Spec.digitsValue ['0'] = 0 := by decide
  have h3 : Spec.tokenValue ['1', '0', '0'] ['0'] = ((100 : Int) : ℚ) := by
    unfold Spec.tokenValue
    rw [h1, h2]
    norm_num
  rw [h3, Float64.round_int 100 (by norm_num)]
  norm_num

theorem yt_lineValue_0 :
    yt.lineValue "[download]   0.0% of 1.00MiB" = some (Float64.fin 0) := by
  rw [yt_lineValue_eval _ ['0'] ['0'] (by decide)
    ⟨by decide, by decide, by decide, by decide, by decide⟩]
  have h2 : Spec.digitsValue ['0'] = 0 := by decide
  have h3 : Spec.tokenValue ['0'] ['0'] = 0 := by
    unfold Spec.tokenValue
    rw [h2]
    norm_num
  rw [h3, Float64.round_zero]

theorem downloadPercent_100 (conv : Float64 → Int) :
    yt.downloadPercent conv (Float64.fin 100) = 100 := by
  rw [downloadPercent_eval conv 100 (201 / 2) 100
    (ofRat_eval_lit 46 7072058789855232 _ (by norm_num) (by norm_num) (by norm_num)
      (by norm_num) (by norm_num) (by norm_num))
    (by norm_num) (by norm_num) (by norm_num) (by norm_num)]
  rfl

theorem downloadPercent_0 (conv : Float64 → Int) :
    yt.downloadPercent conv (Float64.fin 0) = 0 := by
  rw [downloadPercent_eval conv 0 (1 / 2) 0
    (ofRat_eval_lit 53 4503599627370496 _ (by norm_num) (by norm_num) (by norm_num)
      (by norm_num) (by norm_num) (by norm_num))
    (by norm_num) (by norm_num) (by norm_num) (by norm_num)]
  rfl

/-- C9, as stated, fails, in two ways. The decoders keep no running maximum:
with a duration of 120 s the transcode loop writes 50 and then 25 for
`out_time_ms` values of 60 s and 30 s, and the fetch loop writes 100 and then
0 when yt-dlp finishes one file and starts the next. And the reader goroutine
is never waited for: in the sample run, whose markers go up, a schedule that
lets `runWithProgress` write its closing 100 first gives the percents 100,
25, 50. -/
theorem percent_monotone_counterexample :
    (ffmpeg.readerWrites Float64.amd64 "task" (Float64.fin 120)
        ["out_time_ms=60000000\n", "out_time_ms=30000000\n"]).map store.TaskStatus.Percent
      = [50, 25] ∧
    (yt.readerWrites Float64.amd64 "task"
        ["[download] 100.0% of 5.00MiB", "[download]   0.0% of 1.00MiB"]).map
      store.TaskStatus.Percent = [100, 0] ∧
    (records ((ffmpeg.runWithProgress Float64.amd64 Sample.run "task" [] "in.mp4").followedBy
        [false] [])).map store.TaskStatus.Percent = [100, 25, 50] ∧
    ¬ ([50, 25] : List Int).Pairwise (· ≤ ·) ∧ ¬ ([100, 0] : List Int).Pairwise (· ≤ ·) ∧
    ¬ ([100, 25, 50] : List Int).Pairwise (· ≤ ·) := by
  refine ⟨?_, ?_, ?_, by decide, by decide, by decide⟩
  · rw [readerWrites_percents, List.filterMap_cons, lineValue_60, List.filterMap_cons,
      lineValue_30]
    show [ffmpeg.progressPercent Float64.amd64 (Float64.fin 120) (Float64.fin 60000000),
      ffmpeg.progressPercent Float64.amd64 (Float64.fin 120) (Float64.fin 30000000)] = [50, 25]
    rw [progressPercent_120_60, progressPercent_120_30]
  · rw [downloadWrites_percents, List.filterMap_cons, yt_lineValue_100, List.filterMap_cons,
      yt_lineValue_0]
    show [yt.downloadPercent Float64.amd64 (Float64.fin 100),
      yt.downloadPercent Float64.amd64 (Float64.fin 0)] = [100, 0]
    rw [downloadPercent_100, downloadPercent_0]
  · have h := sample_run_writes Float64.amd64 "task"
    have hd : Sample.run.dur = Float64.fin 120 := rfl
    have e : ffmpeg.runWithProgress Float64.amd64 Sample.run "task" [] "in.mp4" =
        ⟨[Effect.duration "in.mp4",
          Effect.exec "ffmpeg" (["-y", "-progress", "pipe:1", "-nostats"] ++ [])],
         (ffmpeg.readerWrites Float64.amd64 "task" (Float64.fin 120) Sample.run.lines).map
           fun t => Effect.set t (30 * store.Minute),
         [Effect.set { ID := "task", Status := "processing", Stage := "transcode",
                       Percent := 100 } (30 * store.Minute)],
         none⟩ := rfl
    rw [e, h]
    rfl

/-- C9 (amended): the percents a reader loop writes are monotone when its
markers are. For the transcode reader loop with the probed duration fixed: if
the values of the `out_time_ms` lines form a non-decreasing sequence and each
value the loop converts with `int(...)` is finite and within the range of
`int`, the percents written form a non-decreasing sequence. For the fetch
reader loop: if the values of the percentage tokens form a non-decreasing
sequence, so do the percents written. Every percent a reader loop writes lies
between 0, the percent of the record that opens the stage, and 99 (transcode)
or 100 (fetch). -/
theorem percent_monotone_of_monotone_markers (conv : Float64 → Int) :
    (∀ (taskID : String) (dur : Float64) (lines : List String),
      (lines.filterMap ffmpeg.lineValue).Pairwise (fun a b => Float64.le a b = true) →
      (∀ v ∈ lines.filterMap ffmpeg.lineValue,
        Float64.fitsInt (ffmpeg.convertedValue dur v) = true) →
      ((ffmpeg.readerWrites conv taskID dur lines).map store.TaskStatus.Percent).Pairwise
        (· ≤ ·)) ∧
    (∀ (taskID : String) (lines : List String),
      (lines.filterMap yt.lineValue).Pairwise (fun a b => Float64.le a b = true) →
      ((yt.readerWrites conv taskID lines).map store.TaskStatus.Percent).Pairwise (· ≤ ·)) ∧
    (∀ (taskID : String) (dur : Float64) (lines : List String),
      ∀ p ∈ (ffmpeg.readerWrites conv taskID dur lines).map store.TaskStatus.Percent,
        0 ≤ p ∧ p ≤ 99) ∧
    (∀ (taskID : String) (lines : List String),
      ∀ p ∈ (yt.readerWrites conv taskID lines).map store.TaskStatus.Percent,
        0 ≤ p ∧ p ≤ 100) := by
  refine ⟨?_, ?_, ?_, ?_⟩
  · intro taskID dur lines hm hf
    rw [readerWrites_percents]
    exact progressPercent_pairwise conv dur _ hm hf
  · intro taskID lines hm
    rw [downloadWrites_percents]
    exact downloadPercent_pairwise conv lines hm
  · intro taskID dur lines p hp
    rw [readerWrites_percents, List.mem_map] at hp
    obtain ⟨v, -, rfl⟩ := hp
    have := progressPercent_bounds conv dur v
    exact ⟨this.1, this.2.1⟩
  · intro taskID lines p hp
    rw [downloadWrites_percents, List.mem_map] at hp
    obtain ⟨v, -, rfl⟩ := hp
    exact downloadPercent_bounds conv v

/-- Witness of C9 (amended): the lines of the sample run carry the values 30 s
and then 60 s, both converted within range for a duration of 120 s, and the
reader loop writes a non-decreasing sequence of percents. -/
theorem percent_monotone_of_monotone_markers_witness :
    ((ffmpeg.readerWrites Float64.amd64 "6f1c" (Float64.fin 120) Sample.run.lines).map
      store.TaskStatus.Percent).Pairwise (· ≤ ·) := by
  apply (percent_monotone_of_monotone_markers Float64.amd64).1
  · rw [sample_run_values]
    refine List.Pairwise.cons ?_ (List.pairwise_singleton _ _)
    intro b hb
    rw [List.mem_singleton] at hb
    rw [hb]
    exact decide_eq_true (show (30000000 : ℚ) ≤ 60000000 by norm_num)
  · intro v hv
    rw [sample_run_values] at hv
    simp only [List.mem_cons, List.mem_singleton, List.not_mem_nil, or_false] at hv
    rcases hv with rfl | rfl
    · exact converted_120_30
    · exact converted_120_60

/-! ## The shape of the started functions -/

theorem download_cases (conv : Float64 → Int) (envYtDlp : String) (x : yt.Fetch)
    (taskID url proxy jobDir : String) :
    ∃ a1 a2 : List String, a1.head? ≠ some "-y" ∧ a2.head? ≠ some "-y" ∧
      ((∃ e, x.nameErr = some e ∧
          yt.DownloadWithProgress conv envYtDlp x taskID url proxy jobDir =
            ⟨[Effect.exec (yt.binaryPath envYtDlp) a1], [], [], some (.error e)⟩) ∨
       (∃ e, x.nameErr = none ∧ x.startErr = some e ∧
          yt.DownloadWithProgress conv envYtDlp x taskID url proxy jobDir =
            ⟨[Effect.exec (yt.binaryPath envYtDlp) a1,
              Effect.set { ID := taskID, Status := "processing", Stage := "download",
                           Percent := 0 } (30 * store.Minute),
              Effect.exec (yt.binaryPath envYtDlp) a2], [], [], some (.error e)⟩) ∨
       (x.nameErr = none ∧ x.startErr = none ∧ x.blocks = true ∧
          yt.DownloadWithProgress conv envYtDlp x taskID url proxy jobDir =
            ⟨[Effect.exec (yt.binaryPath envYtDlp) a1,
              Effect.set { ID := taskID, Status := "processing", Stage := "download",
                           Percent := 0 } (30 * store.Minute),
              Effect.exec (yt.binaryPath envYtDlp) a2],
             (yt.readerWrites conv taskID x.lines).map fun t => Effect.set t (30 * store.Minute),
             [], none⟩) ∨
       (∃ e, x.nameErr = none ∧ x.startErr = none ∧ x.blocks = false ∧ x.waitErr = some e ∧
          yt.DownloadWithProgress conv envYtDlp x taskID url proxy jobDir =
            ⟨[Effect.exec (yt.binaryPath envYtDlp) a1,
              Effect.set { ID := taskID, Status := "processing", Stage := "download",
                           Percent := 0 } (30 * store.Minute),
              Effect.exec (yt.binaryPath envYtDlp) a2],
             (yt.readerWrites conv taskID x.lines).map fun t => Effect.set t (30 * store.Minute),
             [], some (.error e)⟩) ∨
       (x.nameErr = none ∧ x.startErr = none ∧ x.blocks = false ∧ x.waitErr = none ∧
          yt.DownloadWithProgress conv envYtDlp x taskID url proxy jobDir =
            ⟨[Effect.exec (yt.binaryPath envYtDlp) a1,
              Effect.set { ID := taskID, Status := "processing", Stage := "download",
                           Percent := 0 } (30 * store.Minute),
              Effect.exec (yt.binaryPath envYtDlp) a2],
             (yt.readerWrites conv taskID x.lines).map fun t => Effect.set t (30 * store.Minute),
             [Effect.set { ID := taskID, Status := "processing", Stage := "download",
                           Percent := 100 } (30 * store.Minute)],
             some (.ok (strings.TrimSpace x.nameOut))⟩)) := by
  refine ⟨if strings.TrimSpace proxy ≠ "" then
      ["--proxy", proxy] ++ ["--get-filename", "-o", filepath.Join [jobDir, "%(title)s.%(ext)s"],
        "--restrict-filenames", url]
    else ["--get-filename", "-o", filepath.Join [jobDir, "%(title)s.%(ext)s"],
        "--restrict-filenames", url],
    if strings.TrimSpace proxy ≠ "" then
      ["--proxy", proxy] ++ ["-o", filepath.Join [jobDir, "%(title)s.%(ext)s"],
        "--restrict-filenames", "--newline", url]
    else ["-o", filepath.Join [jobDir, "%(title)s.%(ext)s"],
        "--restrict-filenames", "--newline", url], ?_, ?_, ?_⟩
  · split_ifs <;> simp
  · split_ifs <;> simp
  · unfold yt.DownloadWithProgress
    dsimp only
    cases h1 : x.nameErr with
    | some e => exact Or.inl ⟨e, rfl, rfl⟩
    | none =>
      cases h2 : x.startErr with
      | some e => exact Or.inr (Or.inl ⟨e, rfl, rfl, rfl⟩)
      | none =>
        cases h3 : x.blocks with
        | true => exact Or.inr (Or.inr (Or.inl ⟨rfl, rfl, rfl, rfl⟩))
        | false =>
          cases h4 : x.waitErr with
          | some e => exact Or.inr (Or.inr (Or.inr (Or.inl ⟨e, rfl, rfl, rfl, rfl, rfl⟩)))
          | none => exact Or.inr (Or.inr (Or.inr (Or.inr ⟨rfl, rfl, rfl, rfl, rfl⟩)))

theorem runWithProgress_cases (conv : Float64 → Int) (x : ffmpeg.Transcode) (taskID : String)
    (baseArgs : List String) (input : String) :
    (∃ e, ffmpeg.runWithProgress conv x taskID baseArgs input =
        ⟨[Effect.duration input], [], [], some e⟩) ∨
    (∃ e, ffmpeg.runWithProgress conv x taskID baseArgs input =
        ⟨[Effect.duration input,
          Effect.exec "ffmpeg" (["-y", "-progress", "pipe:1", "-nostats"] ++ baseArgs)],
         [], [], some e⟩) ∨
    (∃ e, ffmpeg.runWithProgress conv x taskID baseArgs input =
        ⟨[Effect.duration input,
          Effect.exec "ffmpeg" (["-y", "-progress", "pipe:1", "-nostats"] ++ baseArgs)],
         (ffmpeg.readerWrites conv taskID x.dur x.lines).map
           fun t => Effect.set t (30 * store.Minute),
         [], some e⟩) ∨
    ffmpeg.runWithProgress conv x taskID baseArgs input =
        ⟨[Effect.duration input,
          Effect.exec "ffmpeg" (["-y", "-progress", "pipe:1", "-nostats"] ++ baseArgs)],
         (ffmpeg.readerWrites conv taskID x.dur x.lines).map
           fun t => Effect.set t (30 * store.Minute),
         [Effect.set { ID := taskID, Status := "processing", Stage := "transcode",
                       Percent := 100 } (30 * store.Minute)],
         none⟩ := by
  unfold ffmpeg.runWithProgress
  dsimp only
  cases h1 : x.stdoutPipeErr with
  | some e => exact Or.inl ⟨e, rfl⟩
  | none =>
    cases h2 : x.stderrPipeErr with
    | some e => exact Or.inl ⟨e, rfl⟩
    | none =>
      cases h3 : x.startErr with
      | some e => exact Or.inr (Or.inl ⟨e, rfl⟩)
      | none =>
        cases h4 : x.waitErr with
        | some e => exact Or.inr (Or.inr (Or.inl ⟨e, rfl⟩))
        | none => exact Or.inr (Or.inr (Or.inr rfl))

theorem transform_cases (conv : Float64 → Int) (x : ffmpeg.Transcode)
    (taskID pType curPath outPath : String) (crf width fps quality : Int) :
    ((pType ≠ "video_compress" ∧ pType ≠ "video_to_gif" ∧ pType ≠ "video_to_audio" ∧
        pType ≠ "image_compress") ∧
      httpapi.transform conv x taskID pType curPath outPath crf width fps quality =
        ⟨[], [], [], none⟩) ∨
    ((pType = "video_compress" ∨ pType = "video_to_gif" ∨ pType = "video_to_audio" ∨
        pType = "image_compress") ∧
      ∃ (pre : List Effect) (args : List String),
        (pre = [] ∨ pre = [Effect.videoProps curPath]) ∧
        httpapi.transform conv x taskID pType curPath outPath crf width fps quality =
          ⟨httpapi.transcodeStart taskID ::
              (pre ++ (ffmpeg.runWithProgress conv x taskID args curPath).before),
            (ffmpeg.runWithProgress conv x taskID args curPath).reader,
            (ffmpeg.runWithProgress conv x taskID args curPath).after,
            (ffmpeg.runWithProgress conv x taskID args curPath).result⟩) := by
  unfold httpapi.transform
  split_ifs with h1 h2 h3 h4
  · exact Or.inr ⟨Or.inl h1, [Effect.videoProps curPath], _, Or.inr rfl, rfl⟩
  · exact Or.inr ⟨Or.inr (Or.inl h2), [Effect.videoProps curPath], _, Or.inr rfl, rfl⟩
  · exact Or.inr ⟨Or.inr (Or.inr (Or.inl h3)), [], _, Or.inl rfl, rfl⟩
  · exact Or.inr ⟨Or.inr (Or.inr (Or.inr h4)), [], _, Or.inl rfl, rfl⟩
  · exact Or.inl ⟨⟨h1, h2, h3, h4⟩, rfl⟩
/-! ## The invariant of the task records -/

theorem running_invariant (t : store.TaskStatus) (h : Spec.Running t) : Spec.RecordInvariant t := by
  obtain ⟨hs, he, ho⟩ := h
  have hc : t.Status ≠ "completed" := by
    rcases hs with hs | hs <;> rw [hs] <;> decide
  have hf : t.Status ≠ "failed" := by
    rcases hs with hs | hs <;> rw [hs] <;> decide
  refine ⟨Or.inr (Or.inr ⟨fun h => hc h.1, fun h => hf h.1, hs, he, ho⟩), fun h => absurd h hc⟩

theorem append_ne_empty_left (a b : String) (h : a ≠ "") : a ++ b ≠ "" := by
  intro hab
  have h1 := congrArg String.data hab
  rw [String.data_append] at h1
  have h2 : a.data = [] := (List.append_eq_nil.mp h1).1
  exact h (String.ext h2)

theorem append_ne_empty_right (a b : String) (h : b ≠ "") : a ++ b ≠ "" := by
  intro hab
  have h1 := congrArg String.data hab
  rw [String.data_append] at h1
  have h2 : b.data = [] := (List.append_eq_nil.mp h1).2
  exact h (String.ext h2)

theorem outName_ne_empty (pType imgFormat curName : String) :
    httpapi.outName pType imgFormat curName ≠ "" := by
  unfold httpapi.outName
  dsimp only
  split_ifs
  · exact append_ne_empty_left _ _ (by decide)
  · exact append_ne_empty_right _ _ (by decide)
  · exact append_ne_empty_right _ _ (by decide)
  all_goals first
    | exact append_ne_empty_left _ _ (by decide)
    | exact append_ne_empty_left _ _ (append_ne_empty_left _ _ (by decide))

theorem ffmpeg_readerStep_running (conv : Float64 → Int) (taskID : String) (dur : Float64)
    (line : String) (t : store.TaskStatus)
    (h : ffmpeg.readerStep conv taskID dur line = some t) : Spec.Running t := by
  unfold ffmpeg.readerStep at h
  split at h
  · injection h with h
    subst h
    exact ⟨Or.inr rfl, rfl, rfl⟩
  · cases h

theorem yt_readerStep_running (conv : Float64 → Int) (taskID line : String)
    (t : store.TaskStatus) (h : yt.readerStep conv taskID line = some t) : Spec.Running t := by
  unfold yt.readerStep at h
  split at h
  · injection h with h
    subst h
    exact ⟨Or.inr rfl, rfl, rfl⟩
  · cases h

theorem running_progress (taskID stage : String) (p : Int) :
    Spec.Running { ID := taskID, Status := "processing", Stage := stage, Percent := p } :=
  ⟨Or.inr rfl, rfl, rfl⟩

theorem ffmpeg_readerWrites_running (conv : Float64 → Int) (taskID : String) (dur : Float64)
    (lines : List String) :
    ∀ t ∈ ffmpeg.readerWrites conv taskID dur lines, Spec.Running t := by
  intro t ht
  unfold ffmpeg.readerWrites at ht
  rw [List.mem_filterMap] at ht
  obtain ⟨l, -, hl⟩ := ht
  exact ffmpeg_readerStep_running _ _ _ _ _ hl

theorem yt_readerWrites_running (conv : Float64 → Int) (taskID : String)
    (lines : List String) : ∀ t ∈ yt.readerWrites conv taskID lines, Spec.Running t := by
  intro t ht
  unfold yt.readerWrites at ht
  rw [List.mem_filterMap] at ht
  obtain ⟨l, -, hl⟩ := ht
  exact yt_readerStep_running _ _ _ _ hl

theorem runWithProgress_running (conv : Float64 → Int) (x : ffmpeg.Transcode)
    (taskID : String) (args : List String) (input : String) (t : store.TaskStatus)
    (h : t ∈ records (ffmpeg.runWithProgress conv x taskID args input).before ∨
      t ∈ records (ffmpeg.runWithProgress conv x taskID args input).reader ∨
      t ∈ records (ffmpeg.runWithProgress conv x taskID args input).after) :
    Spec.Running t := by
  have hw := ffmpeg_readerWrites_running conv taskID x.dur x.lines
  rcases runWithProgress_cases conv x taskID args input with ⟨e, he⟩ | ⟨e, he⟩ | ⟨e, he⟩ | he
  · rw [he] at h
    simp [records] at h
  · rw [he] at h
    simp [records] at h
  · rw [he] at h
    simp only [records_map_set] at h
    simp only [records, List.not_mem_nil, false_or, or_false] at h
    exact hw t h
  · rw [he] at h
    simp only [records_map_set] at h
    simp only [records, List.not_mem_nil, false_or, List.mem_singleton] at h
    rcases h with h | h
    · exact hw t h
    · rw [h]
      exact running_progress _ _ _

theorem download_running (conv : Float64 → Int) (envYtDlp : String) (x : yt.Fetch)
    (taskID url proxy jobDir : String) (t : store.TaskStatus)
    (h : t ∈ records (yt.DownloadWithProgress conv envYtDlp x taskID url proxy jobDir).before ∨
      t ∈ records (yt.DownloadWithProgress conv envYtDlp x taskID url proxy jobDir).reader ∨
      t ∈ records (yt.DownloadWithProgress conv envYtDlp x taskID url proxy jobDir).after) :
    Spec.Running t := by
  have hw := yt_readerWrites_running conv taskID x.lines
  obtain ⟨a1, a2, -, -, hc⟩ := download_cases conv envYtDlp x taskID url proxy jobDir
  rcases hc with ⟨e, -, he⟩ | ⟨e, -, -, he⟩ | ⟨-, -, -, he⟩ | ⟨e, -, -, -, -, he⟩ |
    ⟨-, -, -, -, he⟩
  · rw [he] at h
    simp [records] at h
  · rw [he] at h
    simp only [records, List.not_mem_nil, or_false, List.mem_singleton] at h
    rw [h]
    exact running_progress _ _ _
  · rw [he] at h
    simp only [records_map_set] at h
    simp only [records, List.not_mem_nil, or_false, List.mem_singleton] at h
    rcases h with h | h
    · rw [h]
      exact running_progress _ _ _
    · exact hw t h
  · rw [he] at h
    simp only [records_map_set] at h
    simp only [records, List.not_mem_nil, or_false, List.mem_singleton] at h
    rcases h with h | h
    · rw [h]
      exact running_progress _ _ _
    · exact hw t h
  · rw [he] at h
    simp only [records_map_set] at h
    simp only [records, List.mem_singleton] at h
    rcases h with h | h | h
    · rw [h]
      exact running_progress _ _ _
    · exact hw t h
    · rw [h]
      exact running_progress _ _ _

theorem cons_running {α : Type} (e : Effect) (r : Started α)
    (he : ∀ t ∈ records [e], Spec.Running t)
    (hr : ∀ t, t ∈ records r.before ∨ t ∈ records r.reader ∨ t ∈ records r.after →
      Spec.Running t) :
    ∀ t, t ∈ records (Started.cons e r).before ∨ t ∈ records (Started.cons e r).reader ∨
      t ∈ records (Started.cons e r).after → Spec.Running t := by
  intro t h
  have e1 : (Started.cons e r).before = [e] ++ r.before := rfl
  have e2 : (Started.cons e r).reader = r.reader := rfl
  have e3 : (Started.cons e r).after = r.after := rfl
  rw [e1, e2, e3, records_append, List.mem_append] at h
  rcases h with (h | h) | h
  · exact he t h
  · exact hr t (Or.inl h)
  · exact hr t (Or.inr h)

theorem transform_running (conv : Float64 → Int) (x : ffmpeg.Transcode)
    (taskID pType curPath outPath : String) (crf width fps quality : Int) (t : store.TaskStatus)
    (h : t ∈ records
        (httpapi.transform conv x taskID pType curPath outPath crf width fps quality).before ∨
      t ∈ records
        (httpapi.transform conv x taskID pType curPath outPath crf width fps quality).reader ∨
      t ∈ records
        (httpapi.transform conv x taskID pType curPath outPath crf width fps quality).after) :
    Spec.Running t := by
  have hstart : ∀ t ∈ records [httpapi.transcodeStart taskID], Spec.Running t := by
    intro t ht
    simp only [httpapi.transcodeStart, records, List.mem_singleton] at ht
    rw [ht]
    exact running_progress _ _ _
  have hprops : ∀ input, ∀ t ∈ records [Effect.videoProps input], Spec.Running t := by
    intro input t ht
    simp [records] at ht
  have hrun := fun args input => runWithProgress_running conv x taskID args input
  unfold httpapi.transform at h
  split_ifs at h
  · exact cons_running _ _ hstart
      (cons_running _ _ (hprops curPath) (fun t => hrun _ _ t)) t h
  · exact cons_running _ _ hstart
      (cons_running _ _ (hprops curPath) (fun t => hrun _ _ t)) t h
  · exact cons_running _ _ hstart (fun t => hrun _ _ t) t h
  · exact cons_running _ _ hstart (fun t => hrun _ _ t) t h
  · simp [records] at h

theorem failed_invariant (taskID msg : String) (h : msg ≠ "") :
    Spec.RecordInvariant { ID := taskID, Status := "failed", Error := msg } := by
  have n1 : ("failed" : String) ≠ "completed" := by decide
  have n2 : ("failed" : String) ≠ "pending" := by decide
  have n3 : ("failed" : String) ≠ "processing" := by decide
  refine ⟨Or.inr (Or.inl ⟨?_, ⟨rfl, h, rfl⟩, ?_⟩), ?_⟩
  · intro hc
    exact absurd hc.1 n1
  · intro hr
    rcases hr.1 with h1 | h1
    · exact absurd h1 n2
    · exact absurd h1 n3
  · intro hc
    exact absurd hc n1

theorem completed_invariant (taskID out : String) (h : out ≠ "") :
    Spec.RecordInvariant { ID := taskID, Status := "completed", OutputFile := out,
                           Stage := "finalize", Percent := 100 } := by
  have n1 : ("completed" : String) ≠ "failed" := by decide
  have n2 : ("completed" : String) ≠ "pending" := by decide
  have n3 : ("completed" : String) ≠ "processing" := by decide
  refine ⟨Or.inl ⟨⟨rfl, h, rfl⟩, ?_, ?_⟩, fun _ => rfl⟩
  · intro hf
    exact absurd hf.1 n1
  · intro hr
    rcases hr.1 with h1 | h1
    · exact absurd h1 n2
    · exact absurd h1 n3

theorem acquireLocal_records (jobDir url curPath curName : String) :
    records (httpapi.acquireLocal jobDir url curPath curName).1 = [] := by
  unfold httpapi.acquireLocal
  split_ifs <;> rfl

theorem finish_invariant (env : httpapi.Env) (jobDir taskID pType imgFormat curName outPath : String)
    (errProc : Option String) (t : store.TaskStatus)
    (h : t ∈ records (httpapi.finish env jobDir taskID
      (httpapi.outName pType imgFormat curName) outPath errProc)) : Spec.RecordInvariant t := by
  unfold httpapi.finish at h
  split at h
  · simp only [records, List.mem_singleton] at h
    rw [h]
    exact failed_invariant _ _ (append_ne_empty_left _ _ (by decide))
  · simp only [records, List.mem_singleton] at h
    rw [h]
    exact completed_invariant _ _ (outName_ne_empty _ _ _)

theorem processJob_invariant (env : httpapi.Env) (w : httpapi.World)
    (jobDir taskID pType url curPath curName imgFormat : String) (crf width fps quality : Int)
    (t : store.TaskStatus)
    (h : t ∈ records (httpapi.processJob env w jobDir taskID pType url curPath curName imgFormat
      crf width fps quality)) : Spec.RecordInvariant t := by
  unfold httpapi.processJob at h
  dsimp only at h
  rw [records_append, acquireLocal_records, List.nil_append, mem_records_followedBy] at h
  rcases h with h | h | h | h
  · exact running_invariant t (transform_running _ _ _ _ _ _ _ _ _ _ t (Or.inl h))
  · exact running_invariant t (transform_running _ _ _ _ _ _ _ _ _ _ t (Or.inr (Or.inl h)))
  · exact running_invariant t (transform_running _ _ _ _ _ _ _ _ _ _ t (Or.inr (Or.inr h)))
  · exact finish_invariant _ _ _ _ _ _ _ _ t h

theorem uploadJob_invariant (env : httpapi.Env) (w : httpapi.World)
    (taskID pType url srcPath filename imgFormat : String) (crf width fps quality : Int)
    (t : store.TaskStatus)
    (h : t ∈ records (httpapi.uploadJob env w taskID pType url srcPath filename imgFormat
      crf width fps quality)) : Spec.RecordInvariant t := by
  unfold httpapi.uploadJob at h
  dsimp only at h
  split_ifs at h
  · rw [records_append, List.mem_append, mem_records_followedBy] at h
    rcases h with h | h | h | h | h
    · simp [records] at h
    · exact running_invariant t (download_running _ _ _ _ _ _ _ t (Or.inl h))
    · exact running_invariant t (download_running _ _ _ _ _ _ _ t (Or.inr (Or.inl h)))
    · exact running_invariant t (download_running _ _ _ _ _ _ _ t (Or.inr (Or.inr h)))
    · split at h
      · simp [records] at h
      · simp only [records, List.mem_singleton] at h
        rw [h]
        exact failed_invariant _ _ (append_ne_empty_left _ _ (by decide))
      · exact processJob_invariant _ _ _ _ _ _ _ _ _ _ _ _ _ t h
  · simp only [records_append, List.mem_append] at h
    rcases h with h | h
    · simp [records] at h
    · exact processJob_invariant _ _ _ _ _ _ _ _ _ _ _ _ _ t h

/-- C10: every record the submission handler, the fetch step, the transcode
step and the job itself pass to `Store.Set` is exactly one of: completed with
an output file and no error; failed with an error and no output file; pending
or processing with neither; and a completed record has percent 100. -/
theorem task_record_invariant (env : httpapi.Env) (w : httpapi.World) (form : httpapi.Form)
    (taskID : String) (t : store.TaskStatus)
    (h : t ∈ records (httpapi.upload env w form taskID)) : Spec.RecordInvariant t := by
  unfold httpapi.upload at h
  dsimp only at h
  split_ifs at h
  · split at h
    · simp [records] at h
    · split at h
      · simp [records] at h
      · simp only [records, List.mem_cons] at h
        rcases h with h | h
        · rw [h]
          exact running_invariant _ (running_progress _ _ _)
        · exact uploadJob_invariant _ _ _ _ _ _ _ _ _ _ _ _ t h
  · simp only [records, List.mem_cons] at h
    rcases h with h | h
    · rw [h]
      exact running_invariant _ (running_progress _ _ _)
    · exact uploadJob_invariant _ _ _ _ _ _ _ _ _ _ _ _ t h

/-- Witness of C10: the job of the sample request whose fetch fails writes the
record `failed` with the error `download failed: exit status 1`, and the
record satisfies the invariant. -/
theorem task_record_invariant_witness :
    Spec.RecordInvariant
      { ID := "6f1c", Status := "failed", Error := "download failed: exit status 1" } :=
  task_record_invariant Sample.env (Sample.world Sample.deadFetch Sample.run) Sample.urlForm "6f1c" _
    (by decide)


/-! ## The terminal record of a job -/

theorem running_not_terminal {t : store.TaskStatus} (h : Spec.Running t) :
    Spec.isTerminal t = false := by
  obtain ⟨hs, -, -⟩ := h
  unfold Spec.isTerminal
  rcases hs with hs | hs <;> rw [hs] <;> decide

theorem terminalRecords_append (l1 l2 : List Effect) :
    Spec.terminalRecords (l1 ++ l2) = Spec.terminalRecords l1 ++ Spec.terminalRecords l2 := by
  unfold Spec.terminalRecords
  rw [records_append, List.filter_append]

theorem terminalRecords_of_running (l : List Effect) (h : ∀ t ∈ records l, Spec.Running t) :
    Spec.terminalRecords l = [] := by
  unfold Spec.terminalRecords
  rw [List.filter_eq_nil_iff]
  intro t ht
  rw [running_not_terminal (h t ht)]
  simp

theorem terminalRecords_followedBy {α : Type} (r : Started α) (s : List Bool)
    (rest : List Effect)
    (hr : ∀ t, t ∈ records r.before ∨ t ∈ records r.reader ∨ t ∈ records r.after →
      Spec.Running t) :
    (Spec.terminalRecords (r.followedBy s rest)).Perm (Spec.terminalRecords rest) := by
  have h := (records_followedBy_perm r s rest).filter Spec.isTerminal
  have e1 := terminalRecords_of_running r.before (fun t ht => hr t (Or.inl ht))
  have e2 := terminalRecords_of_running r.reader (fun t ht => hr t (Or.inr (Or.inl ht)))
  have e3 := terminalRecords_of_running r.after (fun t ht => hr t (Or.inr (Or.inr ht)))
  unfold Spec.terminalRecords at e1 e2 e3 ⊢
  rw [List.filter_append, List.filter_append, List.filter_append, e1, e2, e3] at h
  exact h

theorem terminalRecords_finish (env : httpapi.Env) (jobDir taskID outName outPath : String)
    (errProc : Option String) :
    Spec.terminalRecords (httpapi.finish env jobDir taskID outName outPath errProc) =
      [match errProc with
       | some e => { ID := taskID, Status := "failed", Error := "processing failed: " ++ e }
       | none => { ID := taskID, Status := "completed", OutputFile := outName,
                   Stage := "finalize", Percent := 100 }] := by
  cases errProc with
  | some e => rfl
  | none => rfl

theorem terminalRecords_acquireLocal (jobDir url curPath curName : String) :
    Spec.terminalRecords (httpapi.acquireLocal jobDir url curPath curName).1 = [] := by
  unfold Spec.terminalRecords
  rw [acquireLocal_records]
  rfl

theorem terminalRecords_processJob (env : httpapi.Env) (w : httpapi.World)
    (jobDir taskID pType url curPath curName imgFormat : String) (crf width fps quality : Int) :
    Spec.terminalRecords (httpapi.processJob env w jobDir taskID pType url curPath curName
        imgFormat crf width fps quality) =
      [match (httpapi.transform w.conv w.transcode taskID pType
          (httpapi.acquireLocal jobDir url curPath curName).2.1
          (filepath.Join [jobDir, httpapi.outName pType imgFormat
            (httpapi.acquireLocal jobDir url curPath curName).2.2])
          crf width fps quality).result with
       | some e => { ID := taskID, Status := "failed", Error := "processing failed: " ++ e }
       | none => { ID := taskID, Status := "completed",
                   OutputFile := httpapi.outName pType imgFormat
                     (httpapi.acquireLocal jobDir url curPath curName).2.2,
                   Stage := "finalize", Percent := 100 }] := by
  unfold httpapi.processJob
  dsimp only
  rw [terminalRecords_append, terminalRecords_acquireLocal, List.nil_append]
  have h := terminalRecords_followedBy
    (httpapi.transform w.conv w.transcode taskID pType
      (httpapi.acquireLocal jobDir url curPath curName).2.1
      (filepath.Join [jobDir, httpapi.outName pType imgFormat
        (httpapi.acquireLocal jobDir url curPath curName).2.2])
      crf width fps quality) w.transcodeSched
    (httpapi.finish env jobDir taskID
      (httpapi.outName pType imgFormat (httpapi.acquireLocal jobDir url curPath curName).2.2)
      (filepath.Join [jobDir, httpapi.outName pType imgFormat
        (httpapi.acquireLocal jobDir url curPath curName).2.2])
      (httpapi.transform w.conv w.transcode taskID pType
        (httpapi.acquireLocal jobDir url curPath curName).2.1
        (filepath.Join [jobDir, httpapi.outName pType imgFormat
          (httpapi.acquireLocal jobDir url curPath curName).2.2])
        crf width fps quality).result)
    (fun t ht => transform_running _ _ _ _ _ _ _ _ _ _ t ht)
  rw [terminalRecords_finish] at h
  exact List.perm_singleton.mp h

theorem terminalRecords_uploadJob_local (env : httpapi.Env) (w : httpapi.World)
    (taskID pType srcPath filename imgFormat : String) (crf width fps quality : Int) :
    Spec.terminalRecords (httpapi.uploadJob env w taskID pType "" srcPath filename imgFormat
        crf width fps quality) =
      Spec.terminalRecords (httpapi.processJob env w (Spec.jobDir env taskID) taskID pType ""
        srcPath filename imgFormat crf width fps quality) := by
  unfold httpapi.uploadJob
  dsimp only
  rw [if_neg (by simp), terminalRecords_append]
  rfl

theorem terminalRecords_uploadJob_url (env : httpapi.Env) (w : httpapi.World)
    (taskID pType url srcPath filename imgFormat : String) (crf width fps quality : Int)
    (hu : url ≠ "") :
    (Spec.terminalRecords (httpapi.uploadJob env w taskID pType url srcPath filename imgFormat
        crf width fps quality)).Perm
      (Spec.terminalRecords
        (match (yt.DownloadWithProgress w.conv env.envYtDlp w.fetch taskID url env.proxy
            (Spec.jobDir env taskID)).result with
         | none => []
         | some (.error e) =>
           [Effect.set { ID := taskID, Status := "failed", Error := "download failed: " ++ e }
              (30 * store.Minute)]
         | some (.ok f) =>
           httpapi.processJob env w (Spec.jobDir env taskID) taskID pType url f
             (filepath.Base f) imgFormat crf width fps quality)) := by
  unfold httpapi.uploadJob
  dsimp only
  rw [if_pos hu, terminalRecords_append]
  exact terminalRecords_followedBy _ _ _ (fun t ht => download_running _ _ _ _ _ _ _ t ht)

theorem terminalRecords_uploadJob (env : httpapi.Env) (w : httpapi.World)
    (taskID pType url srcPath filename imgFormat : String) (crf width fps quality : Int) :
    (¬ Spec.fetchReturns env w taskID url ∧ Spec.fetchErr env w taskID url = none ∧
      Spec.transformErr env w taskID pType url srcPath filename imgFormat crf width fps quality
        = none ∧
      Spec.terminalRecords (httpapi.uploadJob env w taskID pType url srcPath filename imgFormat
        crf width fps quality) = [] ∧
      Spec.jobSource env w taskID url srcPath filename = none) ∨
    (Spec.fetchReturns env w taskID url ∧
      ∃ e, Spec.fetchErr env w taskID url = some e ∧
      Spec.transformErr env w taskID pType url srcPath filename imgFormat crf width fps quality
        = none ∧
      Spec.terminalRecords (httpapi.uploadJob env w taskID pType url srcPath filename imgFormat
        crf width fps quality) =
        [{ ID := taskID, Status := "failed", Error := "download failed: " ++ e }] ∧
      Spec.jobSource env w taskID url srcPath filename = none) ∨
    (Spec.fetchReturns env w taskID url ∧ Spec.fetchErr env w taskID url = none ∧
      ∃ e, Spec.transformErr env w taskID pType url srcPath filename imgFormat crf width fps
          quality = some e ∧
      Spec.terminalRecords (httpapi.uploadJob env w taskID pType url srcPath filename imgFormat
        crf width fps quality) =
        [{ ID := taskID, Status := "failed", Error := "processing failed: " ++ e }]) ∨
    (Spec.fetchReturns env w taskID url ∧ Spec.fetchErr env w taskID url = none ∧
      Spec.transformErr env w taskID pType url srcPath filename imgFormat crf width fps quality
        = none ∧
      ∃ src : String × String,
        Spec.jobSource env w taskID url srcPath filename = some src ∧
        Spec.terminalRecords (httpapi.uploadJob env w taskID pType url srcPath filename
          imgFormat crf width fps quality) =
          [{ ID := taskID, Status := "completed",
             OutputFile := httpapi.outName pType imgFormat
               (httpapi.acquireLocal (Spec.jobDir env taskID) url src.1 src.2).2.2,
             Stage := "finalize", Percent := 100 }]) := by
  by_cases hu : url = ""
  · subst hu
    have hret : Spec.fetchReturns env w taskID "" := Or.inl rfl
    have hfe : Spec.fetchErr env w taskID "" = none := by
      unfold Spec.fetchErr
      rw [if_neg (by simp)]
    have hsrc : Spec.jobSource env w taskID "" srcPath filename = some (srcPath, filename) := by
      unfold Spec.jobSource
      rw [if_neg (by simp)]
    have hte : Spec.transformErr env w taskID pType "" srcPath filename imgFormat crf width fps
        quality =
        (httpapi.transform w.conv w.transcode taskID pType
          (httpapi.acquireLocal (Spec.jobDir env taskID) "" srcPath filename).2.1
          (filepath.Join [Spec.jobDir env taskID, httpapi.outName pType imgFormat
            (httpapi.acquireLocal (Spec.jobDir env taskID) "" srcPath filename).2.2])
          crf width fps quality).result := by
      unfold Spec.transformErr Spec.jobTransform
      rw [hsrc]
    rw [terminalRecords_uploadJob_local, terminalRecords_processJob, hte, hsrc, hfe]
    cases hr : (httpapi.transform w.conv w.transcode taskID pType
        (httpapi.acquireLocal (Spec.jobDir env taskID) "" srcPath filename).2.1
        (filepath.Join [Spec.jobDir env taskID, httpapi.outName pType imgFormat
          (httpapi.acquireLocal (Spec.jobDir env taskID) "" srcPath filename).2.2])
        crf width fps quality).result with
    | some e => exact Or.inr (Or.inr (Or.inl ⟨hret, rfl, e, rfl, rfl⟩))
    | none => exact Or.inr (Or.inr (Or.inr ⟨hret, rfl, rfl, _, rfl, rfl⟩))
  · have hperm := terminalRecords_uploadJob_url env w taskID pType url srcPath filename
      imgFormat crf width fps quality hu
    cases hres : (yt.DownloadWithProgress w.conv env.envYtDlp w.fetch taskID url env.proxy
        (Spec.jobDir env taskID)).result with
    | none =>
      rw [hres] at hperm
      have hnot : ¬ Spec.fetchReturns env w taskID url := by
        rintro (h | h)
        · exact hu h
        · exact h hres
      have hfe : Spec.fetchErr env w taskID url = none := by
        unfold Spec.fetchErr
        rw [if_pos hu, hres]
      have hte : Spec.transformErr env w taskID pType url srcPath filename imgFormat crf width
          fps quality = none := by
        unfold Spec.transformErr Spec.jobTransform Spec.jobSource
        rw [if_pos hu, hres]
      have hsrc : Spec.jobSource env w taskID url srcPath filename = none := by
        unfold Spec.jobSource
        rw [if_pos hu, hres]
      exact Or.inl ⟨hnot, hfe, hte, List.perm_nil.mp hperm, hsrc⟩
    | some res =>
      have hret : Spec.fetchReturns env w taskID url := by
        right
        rw [hres]
        simp
      cases res with
      | error e =>
        rw [hres] at hperm
        have hfe : Spec.fetchErr env w taskID url = some e := by
          unfold Spec.fetchErr
          rw [if_pos hu, hres]
        have hte : Spec.transformErr env w taskID pType url srcPath filename imgFormat crf
            width fps quality = none := by
          unfold Spec.transformErr Spec.jobTransform Spec.jobSource
          rw [if_pos hu, hres]
        have hsrc : Spec.jobSource env w taskID url srcPath filename = none := by
          unfold Spec.jobSource
          rw [if_pos hu, hres]
        exact Or.inr (Or.inl ⟨hret, e, hfe, hte, List.perm_singleton.mp hperm, hsrc⟩)
      | ok f =>
        rw [hres] at hperm
        dsimp only at hperm
        have hfe : Spec.fetchErr env w taskID url = none := by
          unfold Spec.fetchErr
          rw [if_pos hu, hres]
        have hsrc : Spec.jobSource env w taskID url srcPath filename =
            some (f, filepath.Base f) := by
          unfold Spec.jobSource
          rw [if_pos hu, hres]
        have hte : Spec.transformErr env w taskID pType url srcPath filename imgFormat crf
            width fps quality =
            (httpapi.transform w.conv w.transcode taskID pType
              (httpapi.acquireLocal (Spec.jobDir env taskID) url f (filepath.Base f)).2.1
              (filepath.Join [Spec.jobDir env taskID, httpapi.outName pType imgFormat
                (httpapi.acquireLocal (Spec.jobDir env taskID) url f (filepath.Base f)).2.2])
              crf width fps quality).result := by
          unfold Spec.transformErr Spec.jobTransform
          rw [hsrc]
        rw [terminalRecords_processJob] at hperm
        have hterm := List.perm_singleton.mp hperm
        rw [hterm, hte, hsrc, hfe]
        cases hr : (httpapi.transform w.conv w.transcode taskID pType
            (httpapi.acquireLocal (Spec.jobDir env taskID) url f (filepath.Base f)).2.1
            (filepath.Join [Spec.jobDir env taskID, httpapi.outName pType imgFormat
              (httpapi.acquireLocal (Spec.jobDir env taskID) url f (filepath.Base f)).2.2])
            crf width fps quality).result with
        | some e => exact Or.inr (Or.inr (Or.inl ⟨hret, rfl, e, rfl, rfl⟩))
        | none => exact Or.inr (Or.inr (Or.inr ⟨hret, rfl, rfl, _, rfl, rfl⟩))

theorem download_no_media (conv : Float64 → Int) (envYtDlp : String) (x : yt.Fetch)
    (taskID url proxy jobDir : String) (eff : Effect)
    (h : eff ∈ (yt.DownloadWithProgress conv envYtDlp x taskID url proxy jobDir).before ∨
      eff ∈ (yt.DownloadWithProgress conv envYtDlp x taskID url proxy jobDir).reader ∨
      eff ∈ (yt.DownloadWithProgress conv envYtDlp x taskID url proxy jobDir).after) :
    Spec.isMediaCall eff = false ∧ Spec.isRemoveAll eff = false := by
  obtain ⟨a1, a2, h1, h2, hc⟩ := download_cases conv envYtDlp x taskID url proxy jobDir
  have hex : ∀ a : List String, a.head? ≠ some "-y" →
      Spec.isMediaCall (Effect.exec (yt.binaryPath envYtDlp) a) = false := by
    intro a ha
    unfold Spec.isMediaCall
    simpa using ha
  have hrd : ∀ ts : List store.TaskStatus,
      eff ∈ ts.map (fun t => Effect.set t (30 * store.Minute)) →
      Spec.isMediaCall eff = false ∧ Spec.isRemoveAll eff = false := by
    intro ts hts
    rw [List.mem_map] at hts
    obtain ⟨t, -, rfl⟩ := hts
    exact ⟨rfl, rfl⟩
  rcases hc with ⟨e, -, he⟩ | ⟨e, -, -, he⟩ | ⟨-, -, -, he⟩ | ⟨e, -, -, -, -, he⟩ |
    ⟨-, -, -, -, he⟩
  all_goals
    rw [he] at h
    simp only [List.mem_cons, List.mem_singleton, List.not_mem_nil, or_false, false_or] at h
  · rw [h]
    exact ⟨hex a1 h1, rfl⟩
  · rcases h with h | h | h
    · rw [h]
      exact ⟨hex a1 h1, rfl⟩
    · rw [h]
      exact ⟨rfl, rfl⟩
    · rw [h]
      exact ⟨hex a2 h2, rfl⟩
  · rcases h with (h | h | h) | h
    · rw [h]
      exact ⟨hex a1 h1, rfl⟩
    · rw [h]
      exact ⟨rfl, rfl⟩
    · rw [h]
      exact ⟨hex a2 h2, rfl⟩
    · exact hrd _ h
  · rcases h with (h | h | h) | h
    · rw [h]
      exact ⟨hex a1 h1, rfl⟩
    · rw [h]
      exact ⟨rfl, rfl⟩
    · rw [h]
      exact ⟨hex a2 h2, rfl⟩
    · exact hrd _ h
  · rcases h with (h | h | h) | h | h
    · rw [h]
      exact ⟨hex a1 h1, rfl⟩
    · rw [h]
      exact ⟨rfl, rfl⟩
    · rw [h]
      exact ⟨hex a2 h2, rfl⟩
    · exact hrd _ h
    · rw [h]
      exact ⟨rfl, rfl⟩

theorem uploadJob_of_fetch_failed (env : httpapi.Env) (w : httpapi.World)
    (taskID pType url srcPath filename imgFormat : String) (crf width fps quality : Int)
    (e : String) (h : Spec.fetchErr env w taskID url = some e) :
    ∀ eff ∈ httpapi.uploadJob env w taskID pType url srcPath filename imgFormat crf width fps
        quality, Spec.isMediaCall eff = false ∧ Spec.isRemoveAll eff = false := by
  have hu : url ≠ "" := by
    intro hu
    unfold Spec.fetchErr at h
    rw [if_neg (by simpa using hu)] at h
    cases h
  have hres : (yt.DownloadWithProgress w.conv env.envYtDlp w.fetch taskID url env.proxy
      (Spec.jobDir env taskID)).result = some (.error e) := by
    unfold Spec.fetchErr at h
    rw [if_pos hu] at h
    split at h
    · rename_i e1 he1
      injection h with h
      rw [he1, h]
    · cases h
  intro eff heff
  unfold httpapi.uploadJob at heff
  dsimp only at heff
  rw [if_pos hu, List.mem_append, mem_followedBy] at heff
  rcases heff with heff | heff | heff | heff | heff
  · rw [List.mem_singleton] at heff
    rw [heff]
    exact ⟨rfl, rfl⟩
  · exact download_no_media _ _ _ _ _ _ _ eff (Or.inl heff)
  · exact download_no_media _ _ _ _ _ _ _ eff (Or.inr (Or.inl heff))
  · exact download_no_media _ _ _ _ _ _ _ eff (Or.inr (Or.inr heff))
  · have hres2 : (yt.DownloadWithProgress w.conv env.envYtDlp w.fetch taskID url env.proxy
        (filepath.Join [env.tempDir, "app", taskID])).result = some (.error e) := hres
    rw [hres2] at heff
    rw [List.mem_singleton] at heff
    rw [heff]
    exact ⟨rfl, rfl⟩

theorem sample_acquire :
    httpapi.acquireLocal "/tmp/app/6f1c" "" "uploads/clip.mp4" "clip.mp4" =
      ([Effect.rename "uploads/clip.mp4" "/tmp/app/6f1c/clip.mp4"], "/tmp/app/6f1c/clip.mp4",
        "clip.mp4") := by decide

theorem sample_audio :
    httpapi.transform Float64.amd64 Sample.run "6f1c" "video_to_audio"
        "/tmp/app/6f1c/clip.mp4" "/tmp/app/6f1c/clip.mp3" 0 0 0 0 =
      ⟨[Effect.set { ID := "6f1c", Status := "processing", Stage := "transcode", Percent := 0 }
          (30 * store.Minute),
        Effect.duration "/tmp/app/6f1c/clip.mp4",
        Effect.exec "ffmpeg" ["-y", "-progress", "pipe:1", "-nostats", "-i",
          "/tmp/app/6f1c/clip.mp4", "-vn", "-c:a", "libmp3lame", "-b:a", "128k",
          "/tmp/app/6f1c/clip.mp3"]],
       (ffmpeg.readerWrites Float64.amd64 "6f1c" (Float64.fin 120) Sample.run.lines).map
         fun t => Effect.set t (30 * store.Minute),
       [Effect.set { ID := "6f1c", Status := "processing", Stage := "transcode",
                     Percent := 100 } (30 * store.Minute)], none⟩ := rfl

theorem late_trace :
    httpapi.uploadJob Sample.env (Sample.lateWorld Sample.deadFetch Sample.run) "6f1c"
        "video_to_audio" "" "uploads/clip.mp4" "clip.mp4" "" 0 0 0 0 =
      [Effect.mkdirAll "/tmp/app/6f1c",
       Effect.rename "uploads/clip.mp4" "/tmp/app/6f1c/clip.mp4",
       Effect.set { ID := "6f1c", Status := "processing", Stage := "transcode", Percent := 0 }
         (30 * store.Minute),
       Effect.duration "/tmp/app/6f1c/clip.mp4",
       Effect.exec "ffmpeg" ["-y", "-progress", "pipe:1", "-nostats", "-i",
         "/tmp/app/6f1c/clip.mp4", "-vn", "-c:a", "libmp3lame", "-b:a", "128k",
         "/tmp/app/6f1c/clip.mp3"],
       Effect.set { ID := "6f1c", Status := "processing", Stage := "transcode", Percent := 100 }
         (30 * store.Minute),
       Effect.rename "/tmp/app/6f1c/clip.mp3" "uploads/clip.mp3",
       Effect.set { ID := "6f1c", Status := "completed", OutputFile := "clip.mp3",
                    Stage := "finalize", Percent := 100 } (30 * store.Minute),
       Effect.removeAll "/tmp/app/6f1c"] ++
      (ffmpeg.readerWrites Float64.amd64 "6f1c" (Float64.fin 120) Sample.run.lines).map
        fun t => Effect.set t (30 * store.Minute) := by
  have hj : filepath.Join [Sample.env.tempDir, "app", "6f1c"] = "/tmp/app/6f1c" := by decide
  have ho : httpapi.outName "video_to_audio" "" "clip.mp4" = "clip.mp3" := by decide
  have hp : filepath.Join ["/tmp/app/6f1c", "clip.mp3"] = "/tmp/app/6f1c/clip.mp3" := by decide
  have hf : httpapi.finish Sample.env "/tmp/app/6f1c" "6f1c" "clip.mp3"
      "/tmp/app/6f1c/clip.mp3" none =
      [Effect.rename "/tmp/app/6f1c/clip.mp3" "uploads/clip.mp3",
       Effect.set { ID := "6f1c", Status := "completed", OutputFile := "clip.mp3",
                    Stage := "finalize", Percent := 100 } (30 * store.Minute),
       Effect.removeAll "/tmp/app/6f1c"] := rfl
  have hw1 : (Sample.lateWorld Sample.deadFetch Sample.run).conv = Float64.amd64 := rfl
  have hw2 : (Sample.lateWorld Sample.deadFetch Sample.run).transcode = Sample.run := rfl
  have hw3 : (Sample.lateWorld Sample.deadFetch Sample.run).transcodeSched =
      [false, false, false, false, false, false, false, false] := rfl
  unfold httpapi.uploadJob httpapi.processJob
  dsimp only
  rw [if_neg (by decide), hj, sample_acquire]
  dsimp only
  rw [ho, hp, hw1, hw2, hw3, sample_audio]
  dsimp only
  rw [hf]
  generalize (ffmpeg.readerWrites Float64.amd64 "6f1c" (Float64.fin 120) Sample.run.lines).map
    (fun t => Effect.set t (30 * store.Minute)) = xs
  unfold Started.followedBy
  dsimp only
  simp only [interleave, List.cons_append, List.nil_append, List.singleton_append]

/-- C11, as stated, fails: the final record of a job need not be its terminal
record. The reader goroutine of `runWithProgress` is never waited for; in the
run of an audio extraction on an uploaded file in which neither the fetch step
nor the transform returns an error and the goroutine makes its calls after the
job has written `completed`, the last record written is a `processing` record
of the transcode stage with percent 50. And a job whose download never exits
returns no error and writes no terminal record at all: its last record is the
one that opens the download stage. -/
theorem failure_exactly_on_fetch_or_transform_error_counterexample :
    Spec.fetchErr Sample.env (Sample.lateWorld Sample.deadFetch Sample.run) "6f1c" "" = none ∧
    Spec.transformErr Sample.env (Sample.lateWorld Sample.deadFetch Sample.run) "6f1c"
      "video_to_audio" "" "uploads/clip.mp4" "clip.mp4" "" 0 0 0 0 = none ∧
    Spec.finalRecord
        (httpapi.uploadJob Sample.env (Sample.lateWorld Sample.deadFetch Sample.run) "6f1c"
          "video_to_audio" "" "uploads/clip.mp4" "clip.mp4" "" 0 0 0 0) =
      some { ID := "6f1c", Status := "processing", Stage := "transcode", Percent := 50 } ∧
    Spec.fetchErr Sample.env (Sample.world Sample.stuckFetch Sample.run) "6f1c"
      "https://example.org/v" = none ∧
    Spec.transformErr Sample.env (Sample.world Sample.stuckFetch Sample.run) "6f1c"
      "video_compress" "https://example.org/v" "" "" "" 28 1280 30 0 = none ∧
    Spec.finalRecord
        (httpapi.uploadJob Sample.env (Sample.world Sample.stuckFetch Sample.run) "6f1c"
          "video_compress" "https://example.org/v" "" "" "" 28 1280 30 0) =
      some { ID := "6f1c", Status := "processing", Stage := "download", Percent := 0 } := by
  refine ⟨rfl, ?_, ?_, by decide, by decide, by decide⟩
  · have hj : Spec.jobDir Sample.env "6f1c" = "/tmp/app/6f1c" := by decide
    have ho : httpapi.outName "video_to_audio" "" "clip.mp4" = "clip.mp3" := by decide
    have hp : filepath.Join ["/tmp/app/6f1c", "clip.mp3"] = "/tmp/app/6f1c/clip.mp3" := by
      decide
    have hw1 : (Sample.lateWorld Sample.deadFetch Sample.run).conv = Float64.amd64 := rfl
    have hw2 : (Sample.lateWorld Sample.deadFetch Sample.run).transcode = Sample.run := rfl
    have hsrc : Spec.jobSource Sample.env (Sample.lateWorld Sample.deadFetch Sample.run) "6f1c"
        "" "uploads/clip.mp4" "clip.mp4" = some ("uploads/clip.mp4", "clip.mp4") := rfl
    unfold Spec.transformErr Spec.jobTransform
    rw [hsrc]
    dsimp only
    rw [hj, sample_acquire]
    dsimp only
    rw [ho, hp, hw1, hw2, sample_audio]
  · unfold Spec.finalRecord
    rw [late_trace, records_append, records_map_set, sample_run_writes]
    rfl

/-- C11 (amended): the terminal record of a job, the one record whose status
is `failed` or `completed`, is `failed` exactly when the fetch step (of a URL
input) or the chosen transform returned an error. After a fetch error the
terminal record is `failed` with the error `download failed: ` + detail, and
the job invokes no probe and no transform; after a transform error it is
`failed` with the error `processing failed: ` + detail. In every other run in
which the fetch step returns the terminal record is `completed`. Each of
these runs writes exactly one terminal record; a run whose fetch step never
returns writes none. Nothing is stated on the records written after the
terminal one. -/
theorem failure_exactly_on_fetch_or_transform_error (env : httpapi.Env) (w : httpapi.World)
    (taskID pType url srcPath filename imgFormat : String) (crf width fps quality : Int) :
    (∀ e, Spec.fetchErr env w taskID url = some e →
      Spec.terminalRecords
          (httpapi.uploadJob env w taskID pType url srcPath filename imgFormat
            crf width fps quality) =
        [{ ID := taskID, Status := "failed", Error := "download failed: " ++ e }] ∧
      ∀ eff ∈ httpapi.uploadJob env w taskID pType url srcPath filename imgFormat
          crf width fps quality, Spec.isMediaCall eff = false) ∧
    (∀ e, Spec.transformErr env w taskID pType url srcPath filename imgFormat
        crf width fps quality = some e →
      Spec.terminalRecords
          (httpapi.uploadJob env w taskID pType url srcPath filename imgFormat
            crf width fps quality) =
        [{ ID := taskID, Status := "failed", Error := "processing failed: " ++ e }]) ∧
    (Spec.fetchReturns env w taskID url →
      Spec.fetchErr env w taskID url = none →
      Spec.transformErr env w taskID pType url srcPath filename imgFormat
        crf width fps quality = none →
      ∃ t, Spec.terminalRecords
          (httpapi.uploadJob env w taskID pType url srcPath filename imgFormat
            crf width fps quality) = [t] ∧ t.Status = "completed") ∧
    (¬ Spec.fetchReturns env w taskID url →
      Spec.terminalRecords
          (httpapi.uploadJob env w taskID pType url srcPath filename imgFormat
            crf width fps quality) = []) ∧
    ((∃ t ∈ Spec.terminalRecords
          (httpapi.uploadJob env w taskID pType url srcPath filename imgFormat
            crf width fps quality), t.Status = "failed") ↔
      (Spec.fetchErr env w taskID url ≠ none ∨
       Spec.transformErr env w taskID pType url srcPath filename imgFormat
         crf width fps quality ≠ none)) := by
  have hne : ("completed" : String) ≠ "failed" := by decide
  rcases terminalRecords_uploadJob env w taskID pType url srcPath filename imgFormat crf width
      fps quality with
    ⟨hret, hfe, hte, hterm, -⟩ | ⟨hret, e, hfe, hte, hterm, -⟩ | ⟨hret, hfe, e, hte, hterm⟩ |
    ⟨hret, hfe, hte, src, -, hterm⟩
  · refine ⟨?_, ?_, ?_, ?_, ?_⟩
    · intro e1 h1
      rw [hfe] at h1
      cases h1
    · intro e1 h1
      rw [hte] at h1
      cases h1
    · intro h1
      exact absurd h1 hret
    · intro _
      exact hterm
    · rw [hterm, hfe, hte]
      simp
  · refine ⟨?_, ?_, ?_, ?_, ?_⟩
    · intro e1 h1
      rw [hfe] at h1
      injection h1 with h1
      subst h1
      exact ⟨hterm, fun eff heff =>
        (uploadJob_of_fetch_failed env w taskID pType url srcPath filename imgFormat crf width
          fps quality e hfe eff heff).1⟩
    · intro e1 h1
      rw [hte] at h1
      cases h1
    · intro _ h1
      rw [hfe] at h1
      cases h1
    · intro h1
      exact absurd hret h1
    · rw [hterm, hfe, hte]
      simp
  · refine ⟨?_, ?_, ?_, ?_, ?_⟩
    · intro e1 h1
      rw [hfe] at h1
      cases h1
    · intro e1 h1
      rw [hte] at h1
      injection h1 with h1
      subst h1
      exact hterm
    · intro _ _ h1
      rw [hte] at h1
      cases h1
    · intro h1
      exact absurd hret h1
    · rw [hterm, hfe, hte]
      simp
  · refine ⟨?_, ?_, ?_, ?_, ?_⟩
    · intro e1 h1
      rw [hfe] at h1
      cases h1
    · intro e1 h1
      rw [hte] at h1
      cases h1
    · intro _ _ _
      exact ⟨_, hterm, rfl⟩
    · intro h1
      exact absurd hret h1
    · rw [hterm, hfe, hte]
      simp only [List.mem_singleton, exists_eq_left, ne_eq, not_true_eq_false, or_self,
        iff_false]
      exact hne

/-- Witness of C11: the job of the sample request whose fetch fails writes one
terminal record: `failed` with the error `download failed: exit status 1`. -/
theorem failure_exactly_on_fetch_or_transform_error_witness :
    Spec.terminalRecords
        (httpapi.uploadJob Sample.env (Sample.world Sample.deadFetch Sample.run) "6f1c"
          "video_compress" "https://example.org/v" "" "" "" 28 1280 30 0) =
      [{ ID := "6f1c", Status := "failed", Error := "download failed: exit status 1" }] :=
  ((failure_exactly_on_fetch_or_transform_error Sample.env
    (Sample.world Sample.deadFetch Sample.run)
    "6f1c" "video_compress" "https://example.org/v" "" "" "" 28 1280 30 0).1
    "exit status 1" (by decide)).1

/-! ## Removal of the job directory -/

theorem map_set_no_removeAll (ts : List store.TaskStatus) (ttl : store.Duration) :
    ∀ eff ∈ ts.map (fun t => Effect.set t ttl), Spec.isRemoveAll eff = false := by
  intro eff he
  rw [List.mem_map] at he
  obtain ⟨t, -, rfl⟩ := he
  rfl

theorem runWithProgress_no_removeAll (conv : Float64 → Int) (x : ffmpeg.Transcode)
    (taskID : String) (args : List String) (input : String) (eff : Effect)
    (h : eff ∈ (ffmpeg.runWithProgress conv x taskID args input).before ∨
      eff ∈ (ffmpeg.runWithProgress conv x taskID args input).reader ∨
      eff ∈ (ffmpeg.runWithProgress conv x taskID args input).after) :
    Spec.isRemoveAll eff = false := by
  rcases runWithProgress_cases conv x taskID args input with ⟨e, he⟩ | ⟨e, he⟩ | ⟨e, he⟩ | he
  all_goals
    rw [he] at h
    simp only [List.mem_cons, List.mem_singleton, List.not_mem_nil, or_false, false_or] at h
  · rw [h]
    rfl
  · rcases h with h | h <;> rw [h] <;> rfl
  · rcases h with (h | h) | h
    · rw [h]
      rfl
    · rw [h]
      rfl
    · exact map_set_no_removeAll _ _ eff h
  · rcases h with (h | h) | h | h
    · rw [h]
      rfl
    · rw [h]
      rfl
    · exact map_set_no_removeAll _ _ eff h
    · rw [h]
      rfl

theorem transform_no_removeAll (conv : Float64 → Int) (x : ffmpeg.Transcode)
    (taskID pType curPath outPath : String) (crf width fps quality : Int) (eff : Effect)
    (h : eff ∈ (httpapi.transform conv x taskID pType curPath outPath crf width fps
        quality).before ∨
      eff ∈ (httpapi.transform conv x taskID pType curPath outPath crf width fps
        quality).reader ∨
      eff ∈ (httpapi.transform conv x taskID pType curPath outPath crf width fps
        quality).after) :
    Spec.isRemoveAll eff = false := by
  rcases transform_cases conv x taskID pType curPath outPath crf width fps quality with
    ⟨-, he⟩ | ⟨-, pre, args, hpre, he⟩
  · rw [he] at h
    simp at h
  · rw [he] at h
    simp only [List.mem_cons, List.mem_append] at h
    rcases h with (h | h | h) | h | h
    · rw [h]
      rfl
    · rcases hpre with hpre | hpre
      · rw [hpre] at h
        simp at h
      · rw [hpre, List.mem_singleton] at h
        rw [h]
        rfl
    · exact runWithProgress_no_removeAll conv x taskID args curPath eff (Or.inl h)
    · exact runWithProgress_no_removeAll conv x taskID args curPath eff (Or.inr (Or.inl h))
    · exact runWithProgress_no_removeAll conv x taskID args curPath eff (Or.inr (Or.inr h))

theorem acquireLocal_no_removeAll (jobDir url curPath curName : String) :
    ∀ eff ∈ (httpapi.acquireLocal jobDir url curPath curName).1,
      Spec.isRemoveAll eff = false := by
  intro eff he
  unfold httpapi.acquireLocal at he
  split_ifs at he
  · simp only [List.mem_singleton] at he
    rw [he]
    rfl
  · simp at he

theorem processJob_removeAll (env : httpapi.Env) (w : httpapi.World)
    (jobDir taskID pType url curPath curName imgFormat : String) (crf width fps quality : Int) :
    ((httpapi.transform w.conv w.transcode taskID pType
          (httpapi.acquireLocal jobDir url curPath curName).2.1
          (filepath.Join [jobDir, httpapi.outName pType imgFormat
            (httpapi.acquireLocal jobDir url curPath curName).2.2])
          crf width fps quality).result ≠ none →
      ∀ eff ∈ httpapi.processJob env w jobDir taskID pType url curPath curName imgFormat
          crf width fps quality, Spec.isRemoveAll eff = false) ∧
    ((httpapi.transform w.conv w.transcode taskID pType
          (httpapi.acquireLocal jobDir url curPath curName).2.1
          (filepath.Join [jobDir, httpapi.outName pType imgFormat
            (httpapi.acquireLocal jobDir url curPath curName).2.2])
          crf width fps quality).result = none →
      Effect.removeAll jobDir ∈
        httpapi.processJob env w jobDir taskID pType url curPath curName imgFormat
          crf width fps quality) := by
  constructor
  · intro hres eff he
    unfold httpapi.processJob at he
    dsimp only at he
    rw [List.mem_append, mem_followedBy] at he
    rcases he with he | he | he | he | he
    · exact acquireLocal_no_removeAll _ _ _ _ eff he
    · exact transform_no_removeAll _ _ _ _ _ _ _ _ _ _ eff (Or.inl he)
    · exact transform_no_removeAll _ _ _ _ _ _ _ _ _ _ eff (Or.inr (Or.inl he))
    · exact transform_no_removeAll _ _ _ _ _ _ _ _ _ _ eff (Or.inr (Or.inr he))
    · obtain ⟨e, hr⟩ := Option.ne_none_iff_exists'.mp hres
      rw [hr] at he
      simp only [httpapi.finish, List.mem_singleton] at he
      rw [he]
      rfl
  · intro hres
    unfold httpapi.processJob
    dsimp only
    rw [List.mem_append, mem_followedBy, hres]
    right; right; right; right
    simp [httpapi.finish]

theorem uploadJob_no_removeAll_of_transform_failed (env : httpapi.Env) (w : httpapi.World)
    (taskID pType url srcPath filename imgFormat : String) (crf width fps quality : Int)
    (e : String)
    (h : Spec.transformErr env w taskID pType url srcPath filename imgFormat
      crf width fps quality = some e) :
    ∀ eff ∈ httpapi.uploadJob env w taskID pType url srcPath filename imgFormat
        crf width fps quality, Spec.isRemoveAll eff = false := by
  intro eff he
  unfold Spec.transformErr Spec.jobTransform Spec.jobSource at h
  unfold httpapi.uploadJob at he
  dsimp only at he
  by_cases hu : url = ""
  · rw [if_neg (by simpa using hu)] at h he
    dsimp only at h
    rw [List.mem_append] at he
    rcases he with he | he
    · rw [List.mem_singleton] at he
      rw [he]
      rfl
    · refine (processJob_removeAll env w _ taskID pType url srcPath filename imgFormat crf
        width fps quality).1 ?_ eff he
      intro hc
      have hc2 : (httpapi.transform w.conv w.transcode taskID pType
          (httpapi.acquireLocal (Spec.jobDir env taskID) url srcPath filename).2.1
          (filepath.Join [Spec.jobDir env taskID, httpapi.outName pType imgFormat
            (httpapi.acquireLocal (Spec.jobDir env taskID) url srcPath filename).2.2])
          crf width fps quality).result = none := hc
      rw [hc2] at h
      cases h
  · rw [if_pos hu] at h he
    rw [List.mem_append, mem_followedBy] at he
    rcases he with he | he | he | he | he
    · rw [List.mem_singleton] at he
      rw [he]
      rfl
    · exact (download_no_media _ _ _ _ _ _ _ eff (Or.inl he)).2
    · exact (download_no_media _ _ _ _ _ _ _ eff (Or.inr (Or.inl he))).2
    · exact (download_no_media _ _ _ _ _ _ _ eff (Or.inr (Or.inr he))).2
    · cases hres : (yt.DownloadWithProgress w.conv env.envYtDlp w.fetch taskID url env.proxy
          (Spec.jobDir env taskID)).result with
      | none =>
        rw [hres] at h
        cases h
      | some res =>
        cases res with
        | error e1 =>
          rw [hres] at h
          cases h
        | ok f =>
          have hres2 : (yt.DownloadWithProgress w.conv env.envYtDlp w.fetch taskID url
              env.proxy (filepath.Join [env.tempDir, "app", taskID])).result =
              some (.ok f) := hres
          rw [hres2] at he
          rw [hres] at h
          dsimp only at h he
          refine (processJob_removeAll env w _ taskID pType url f (filepath.Base f) imgFormat
            crf width fps quality).1 ?_ eff he
          intro hc
          have hc2 : (httpapi.transform w.conv w.transcode taskID pType
              (httpapi.acquireLocal (Spec.jobDir env taskID) url f (filepath.Base f)).2.1
              (filepath.Join [Spec.jobDir env taskID, httpapi.outName pType imgFormat
                (httpapi.acquireLocal (Spec.jobDir env taskID) url f (filepath.Base f)).2.2])
              crf width fps quality).result = none := hc
          rw [hc2] at h
          cases h

theorem uploadJob_removeAll_of_completed (env : httpapi.Env) (w : httpapi.World)
    (taskID pType url srcPath filename imgFormat : String) (crf width fps quality : Int)
    (hret : Spec.fetchReturns env w taskID url)
    (hf : Spec.fetchErr env w taskID url = none)
    (h : Spec.transformErr env w taskID pType url srcPath filename imgFormat
      crf width fps quality = none) :
    Effect.removeAll (Spec.jobDir env taskID) ∈
      httpapi.uploadJob env w taskID pType url srcPath filename imgFormat
        crf width fps quality := by
  unfold Spec.transformErr Spec.jobTransform Spec.jobSource at h
  unfold Spec.fetchErr at hf
  unfold httpapi.uploadJob
  dsimp only
  by_cases hu : url = ""
  · rw [if_neg (by simpa using hu)] at h ⊢
    dsimp only at h
    rw [List.mem_append]
    right
    exact (processJob_removeAll env w _ taskID pType url srcPath filename imgFormat crf
      width fps quality).2 h
  · rw [if_pos hu] at h hf ⊢
    rw [List.mem_append, mem_followedBy]
    right; right; right; right
    cases hres : (yt.DownloadWithProgress w.conv env.envYtDlp w.fetch taskID url env.proxy
        (Spec.jobDir env taskID)).result with
    | none =>
      rcases hret with hret | hret
      · exact absurd hret hu
      · exact absurd hres hret
    | some res =>
      cases res with
      | error e1 =>
        rw [hres] at hf
        cases hf
      | ok f =>
        have hres2 : (yt.DownloadWithProgress w.conv env.envYtDlp w.fetch taskID url
            env.proxy (filepath.Join [env.tempDir, "app", taskID])).result =
            some (.ok f) := hres
        rw [hres2]
        rw [hres] at h
        dsimp only at h ⊢
        exact (processJob_removeAll env w _ taskID pType url f (filepath.Base f) imgFormat
          crf width fps quality).2 h

theorem uploadJob_no_removeAll_of_blocked (env : httpapi.Env) (w : httpapi.World)
    (taskID pType url srcPath filename imgFormat : String) (crf width fps quality : Int)
    (hret : ¬ Spec.fetchReturns env w taskID url) :
    ∀ eff ∈ httpapi.uploadJob env w taskID pType url srcPath filename imgFormat
        crf width fps quality, Spec.isRemoveAll eff = false := by
  have hu : url ≠ "" := fun hu => hret (Or.inl hu)
  have hres : (yt.DownloadWithProgress w.conv env.envYtDlp w.fetch taskID url env.proxy
      (filepath.Join [env.tempDir, "app", taskID])).result = none := by
    by_contra hc
    exact hret (Or.inr hc)
  intro eff he
  unfold httpapi.uploadJob at he
  dsimp only at he
  rw [if_pos hu, List.mem_append, mem_followedBy, hres] at he
  rcases he with he | he | he | he | he
  · rw [List.mem_singleton] at he
    rw [he]
    rfl
  · exact (download_no_media _ _ _ _ _ _ _ eff (Or.inl he)).2
  · exact (download_no_media _ _ _ _ _ _ _ eff (Or.inr (Or.inl he))).2
  · exact (download_no_media _ _ _ _ _ _ _ eff (Or.inr (Or.inr he))).2
  · simp at he

/-- C12 fails on both failure paths of the job: they return before
`os.RemoveAll(jobDir)`. The job of the sample request whose fetch fails, and
the job of a local file whose transform fails, create the directory
`/tmp/app/6f1c` and their traces have no `RemoveAll` at all. In general a job
removes its directory when it ends completed and never when it ends failed,
nor when its fetch step never returns. -/
theorem workdir_kept_on_failure :
    (Effect.mkdirAll "/tmp/app/6f1c" ∈
        httpapi.uploadJob Sample.env (Sample.world Sample.deadFetch Sample.run) "6f1c"
          "video_compress" "https://example.org/v" "" "" "" 28 1280 30 0 ∧
      ∀ eff ∈ httpapi.uploadJob Sample.env (Sample.world Sample.deadFetch Sample.run) "6f1c"
          "video_compress" "https://example.org/v" "" "" "" 28 1280 30 0,
        Spec.isRemoveAll eff = false) ∧
    (Effect.mkdirAll "/tmp/app/6f1c" ∈
        httpapi.uploadJob Sample.env (Sample.world Sample.deadFetch Sample.failedRun) "6f1c"
          "video_to_audio" "" "uploads/clip.mp4" "clip.mp4" "" 0 0 0 0 ∧
      ∀ eff ∈ httpapi.uploadJob Sample.env (Sample.world Sample.deadFetch Sample.failedRun)
          "6f1c" "video_to_audio" "" "uploads/clip.mp4" "clip.mp4" "" 0 0 0 0,
        Spec.isRemoveAll eff = false) ∧
    (∀ (env : httpapi.Env) (w : httpapi.World)
        (taskID pType url srcPath filename imgFormat : String) (crf width fps quality : Int),
      (Spec.fetchErr env w taskID url ≠ none ∨
        Spec.transformErr env w taskID pType url srcPath filename imgFormat
          crf width fps quality ≠ none) →
      ∀ eff ∈ httpapi.uploadJob env w taskID pType url srcPath filename imgFormat
          crf width fps quality, Spec.isRemoveAll eff = false) ∧
    (∀ (env : httpapi.Env) (w : httpapi.World)
        (taskID pType url srcPath filename imgFormat : String) (crf width fps quality : Int),
      Spec.fetchReturns env w taskID url →
      Spec.fetchErr env w taskID url = none →
      Spec.transformErr env w taskID pType url srcPath filename imgFormat
        crf width fps quality = none →
      Effect.removeAll (Spec.jobDir env taskID) ∈
        httpapi.uploadJob env w taskID pType url srcPath filename imgFormat
          crf width fps quality) ∧
    (∀ (env : httpapi.Env) (w : httpapi.World)
        (taskID pType url srcPath filename imgFormat : String) (crf width fps quality : Int),
      ¬ Spec.fetchReturns env w taskID url →
      ∀ eff ∈ httpapi.uploadJob env w taskID pType url srcPath filename imgFormat
          crf width fps quality, Spec.isRemoveAll eff = false) := by
  refine ⟨⟨by decide, by decide⟩, ⟨by decide, by decide⟩, ?_, ?_, ?_⟩
  · intro env w taskID pType url srcPath filename imgFormat crf width fps quality h
    rcases h with h | h
    · obtain ⟨e, he⟩ := Option.ne_none_iff_exists'.mp h
      exact fun eff heff =>
        (uploadJob_of_fetch_failed env w taskID pType url srcPath filename imgFormat crf width
          fps quality e he eff heff).2
    · obtain ⟨e, he⟩ := Option.ne_none_iff_exists'.mp h
      exact uploadJob_no_removeAll_of_transform_failed env w taskID pType url srcPath filename
        imgFormat crf width fps quality e he
  · intro env w taskID pType url srcPath filename imgFormat crf width fps quality hret hf h
    exact uploadJob_removeAll_of_completed env w taskID pType url srcPath filename imgFormat
      crf width fps quality hret hf h
  · intro env w taskID pType url srcPath filename imgFormat crf width fps quality hret
    exact uploadJob_no_removeAll_of_blocked env w taskID pType url srcPath filename imgFormat
      crf width fps quality hret

/-! ## The duration fallback chain -/

theorem lt_ne_nan {a b : Float64} (h : Float64.lt a b = true) :
    a ≠ Float64.nan ∧ b ≠ Float64.nan := by
  cases a <;> cases b <;> simp [Float64.lt] at h ⊢

theorem lt_self (a : Float64) : Float64.lt a a = false := by
  cases a with
  | fin q => simp [Float64.lt]
  | inf s => cases s <;> rfl
  | nan => rfl

theorem lt_asymm {a b : Float64} (h : Float64.lt a b = true) : Float64.lt b a = false := by
  cases a with
  | fin p =>
    cases b with
    | fin q =>
      simp only [Float64.lt, decide_eq_true_eq, decide_eq_false_iff_not, not_lt] at h ⊢
      exact h.le
    | inf s => cases s <;> simp [Float64.lt] at h ⊢
    | nan => cases h
  | inf s =>
    cases b with
    | fin q => cases s <;> simp [Float64.lt] at h ⊢
    | inf t => cases s <;> cases t <;> simp [Float64.lt] at h ⊢
    | nan => cases h
  | nan => cases h

theorem not_lt_trans {a b c : Float64} (hb : b ≠ Float64.nan)
    (h1 : Float64.lt a b = false) (h2 : Float64.lt b c = false) : Float64.lt a c = false := by
  cases a with
  | fin p =>
    cases b with
    | fin q =>
      cases c with
      | fin r =>
        simp only [Float64.lt, decide_eq_false_iff_not, not_lt] at h1 h2 ⊢
        exact le_trans h2 h1
      | inf u => cases u <;> simp [Float64.lt] at h1 h2 ⊢
      | nan => rfl
    | inf t =>
      cases c with
      | fin r => cases t <;> simp [Float64.lt] at h1 h2 ⊢
      | inf u => cases t <;> cases u <;> simp [Float64.lt] at h1 h2 ⊢
      | nan => rfl
    | nan => exact absurd rfl hb
  | inf s =>
    cases b with
    | fin q =>
      cases c with
      | fin r => cases s <;> simp [Float64.lt] at h1 h2 ⊢
      | inf u => cases s <;> cases u <;> simp [Float64.lt] at h1 h2 ⊢
      | nan => rfl
    | inf t =>
      cases c with
      | fin r => cases s <;> cases t <;> simp [Float64.lt] at h1 h2 ⊢
      | inf u => cases s <;> cases t <;> cases u <;> simp [Float64.lt] at h1 h2 ⊢
      | nan => rfl
    | nan => exact absurd rfl hb
  | nan => cases b <;> cases c <;> rfl

theorem eq_of_not_lt {a b : Float64} (ha : a ≠ Float64.nan) (hb : b ≠ Float64.nan)
    (h1 : Float64.lt a b = false) (h2 : Float64.lt b a = false) : a = b := by
  cases a with
  | fin p =>
    cases b with
    | fin q =>
      simp only [Float64.lt, decide_eq_false_iff_not, not_lt] at h1 h2
      rw [le_antisymm h2 h1]
    | inf t => cases t <;> simp [Float64.lt] at h1 h2
    | nan => exact absurd rfl hb
  | inf s =>
    cases b with
    | fin q => cases s <;> simp [Float64.lt] at h1 h2
    | inf t => cases s <;> cases t <;> simp [Float64.lt] at h1 h2 ⊢
    | nan => exact absurd rfl hb
  | nan => exact absurd rfl ha

theorem singleDuration_eq_some (r : execx.Result) (v : Float64) :
    ffmpeg.singleDuration r = some v ↔
      (Spec.probeValue r = some v ∧ Float64.lt (Float64.fin 0) v = true) := by
  unfold ffmpeg.singleDuration Spec.probeValue
  cases r.err with
  | some e => simp
  | none =>
    dsimp only
    rcases hp : strconv.ParseFloat (strings.TrimSpace r.out) with ⟨u, e⟩
    cases e with
    | some e => simp
    | none =>
      dsimp only
      constructor
      · intro h
        split_ifs at h with hu
        injection h with h
        subst h
        exact ⟨rfl, hu⟩
      · rintro ⟨h, hv⟩
        injection h with h
        subst h
        rw [if_pos hv]

theorem singleDuration_eq_none (r : execx.Result) :
    ffmpeg.singleDuration r = none ↔ ¬ Spec.probePositive r := by
  unfold Spec.probePositive
  constructor
  · rintro h ⟨v, hv⟩
    rw [(singleDuration_eq_some r v).mpr hv] at h
    cases h
  · intro h
    cases hs : ffmpeg.singleDuration r with
    | none => rfl
    | some v => exact absurd ⟨v, (singleDuration_eq_some r v).mp hs⟩ h

theorem maxDurStep_eq (a : Float64) (ln : String) :
    ffmpeg.maxDurStep a ln =
      match Spec.streamValue ln with
      | some v => if Float64.lt a v = true then v else a
      | none => a := by
  unfold ffmpeg.maxDurStep Spec.streamValue
  split_ifs with h
  · rfl
  · rcases hp : strconv.ParseFloat (strings.TrimSpace ln) with ⟨u, e⟩
    cases e with
    | some e => rfl
    | none => rfl

theorem foldl_maxDurStep (lines : List String) (a : Float64) (ha : a ≠ Float64.nan) :
    lines.foldl ffmpeg.maxDurStep a ≠ Float64.nan ∧
    Float64.lt (lines.foldl ffmpeg.maxDurStep a) a = false ∧
    (∀ v ∈ lines.filterMap Spec.streamValue,
      Float64.lt (lines.foldl ffmpeg.maxDurStep a) v = false) ∧
    (lines.foldl ffmpeg.maxDurStep a = a ∨
      lines.foldl ffmpeg.maxDurStep a ∈ lines.filterMap Spec.streamValue) := by
  induction lines generalizing a with
  | nil => exact ⟨ha, lt_self a, by simp, Or.inl rfl⟩
  | cons ln ls ih =>
    rw [List.foldl_cons, maxDurStep_eq]
    cases hp : Spec.streamValue ln with
    | none =>
      simp only [List.filterMap_cons, hp]
      exact ih a ha
    | some v =>
      simp only [List.filterMap_cons, hp]
      by_cases hlt : Float64.lt a v = true
      · rw [if_pos hlt]
        have hv : v ≠ Float64.nan := (lt_ne_nan hlt).2
        obtain ⟨h0, h1, h2, h3⟩ := ih v hv
        refine ⟨h0, not_lt_trans hv h1 (lt_asymm hlt), ?_, ?_⟩
        · intro u hu
          rcases List.mem_cons.mp hu with hu | hu
          · rw [hu]
            exact h1
          · exact h2 u hu
        · right
          rcases h3 with h3 | h3
          · rw [h3]
            exact List.mem_cons_self _ _
          · exact List.mem_cons_of_mem _ h3
      · rw [if_neg hlt]
        have hlt2 : Float64.lt a v = false := by simpa using hlt
        obtain ⟨h0, h1, h2, h3⟩ := ih a ha
        refine ⟨h0, h1, ?_, ?_⟩
        · intro u hu
          rcases List.mem_cons.mp hu with hu | hu
          · rw [hu]
            exact not_lt_trans ha h1 hlt2
          · exact h2 u hu
        · rcases h3 with h3 | h3
          · exact Or.inl h3
          · exact Or.inr (List.mem_cons_of_mem _ h3)

theorem maxStreamDuration_eq_some (r : execx.Result) (m : Float64) :
    ffmpeg.maxStreamDuration r = some m ↔
      (m ∈ Spec.streamValues r ∧ (∀ v ∈ Spec.streamValues r, Float64.lt m v = false) ∧
        Float64.lt (Float64.fin 0) m = true) := by
  unfold ffmpeg.maxStreamDuration Spec.streamValues
  cases r.err with
  | some e => simp
  | none =>
    dsimp only
    obtain ⟨h0, h1, h2, h3⟩ := foldl_maxDurStep (strings.Split (strings.TrimSpace r.out) '\n')
      (Float64.fin 0) (by simp)
    constructor
    · intro h
      split_ifs at h with hpos
      injection h with h
      rw [← h]
      refine ⟨?_, h2, hpos⟩
      rcases h3 with h3 | h3
      · rw [h3, lt_self] at hpos
        cases hpos
      · exact h3
    · rintro ⟨hm, hle, hpos⟩
      have hge := h2 m hm
      have hfold : List.foldl ffmpeg.maxDurStep (Float64.fin 0)
          (strings.Split (strings.TrimSpace r.out) '\n') = m := by
        rcases h3 with h3 | h3
        · rw [h3, hpos] at hge
          cases hge
        · exact eq_of_not_lt h0 (lt_ne_nan hpos).2 hge (hle _ h3)
      rw [hfold, if_pos hpos]

theorem maxStreamDuration_eq_none (r : execx.Result) :
    ffmpeg.maxStreamDuration r = none ↔ ¬ Spec.streamPositive r := by
  constructor
  · rintro h ⟨v, hv, hpos⟩
    unfold ffmpeg.maxStreamDuration at h
    unfold Spec.streamValues at hv
    cases he : r.err with
    | some e => rw [he] at hv; simp at hv
    | none =>
      rw [he] at h hv
      dsimp only at h hv
      obtain ⟨h0, -, h2, -⟩ := foldl_maxDurStep (strings.Split (strings.TrimSpace r.out) '\n')
        (Float64.fin 0) (by simp)
      have hv2 := h2 v hv
      have hpos2 : Float64.lt (Float64.fin 0) (List.foldl ffmpeg.maxDurStep (Float64.fin 0)
          (strings.Split (strings.TrimSpace r.out) '\n')) = true := by
        by_contra hc
        have hc2 : Float64.lt (Float64.fin 0) (List.foldl ffmpeg.maxDurStep (Float64.fin 0)
            (strings.Split (strings.TrimSpace r.out) '\n')) = false := by simpa using hc
        have := not_lt_trans h0 hc2 hv2
        rw [hpos] at this
        cases this
      rw [if_pos hpos2] at h
      cases h
  · intro h
    cases hs : ffmpeg.maxStreamDuration r with
    | none => rfl
    | some m =>
      obtain ⟨hm, -, hpos⟩ := (maxStreamDuration_eq_some r m).mp hs
      exact absurd ⟨m, hm, hpos⟩ h

/-- C14: `ffprobeDurationSeconds` returns the container duration when that
probe ran and parsed to a positive number; otherwise the maximum of the
stream durations that parse (the one no other exceeds), when it is positive;
otherwise the duration of the first video stream, when positive. It returns an
error exactly when none of the three gives a positive value, and a duration
returned without error is positive. The numbers are `float64` values as
`strconv.ParseFloat` returns them, compared as Go compares them. -/
theorem duration_fallback_chain (r1 r2 r3 : execx.Result) :
    (∀ v, Spec.probeValue r1 = some v → Float64.lt (Float64.fin 0) v = true →
      ffmpeg.ffprobeDurationSeconds r1 r2 r3 = (v, none)) ∧
    (¬ Spec.probePositive r1 → ∀ m ∈ Spec.streamValues r2,
      (∀ v ∈ Spec.streamValues r2, Float64.lt m v = false) →
      Float64.lt (Float64.fin 0) m = true →
      ffmpeg.ffprobeDurationSeconds r1 r2 r3 = (m, none)) ∧
    (¬ Spec.probePositive r1 → ¬ Spec.streamPositive r2 →
      ∀ v, Spec.probeValue r3 = some v → Float64.lt (Float64.fin 0) v = true →
      ffmpeg.ffprobeDurationSeconds r1 r2 r3 = (v, none)) ∧
    ((ffmpeg.ffprobeDurationSeconds r1 r2 r3).2 ≠ none ↔
      (¬ Spec.probePositive r1 ∧ ¬ Spec.streamPositive r2 ∧ ¬ Spec.probePositive r3)) ∧
    ((ffmpeg.ffprobeDurationSeconds r1 r2 r3).2 = none →
      Float64.lt (Float64.fin 0) (ffmpeg.ffprobeDurationSeconds r1 r2 r3).1 = true) := by
  refine ⟨?_, ?_, ?_, ?_, ?_⟩
  · intro v hv hpos
    unfold ffmpeg.ffprobeDurationSeconds
    rw [(singleDuration_eq_some r1 v).mpr ⟨hv, hpos⟩]
  · intro h1 m hm hle hpos
    unfold ffmpeg.ffprobeDurationSeconds
    rw [(singleDuration_eq_none r1).mpr h1, (maxStreamDuration_eq_some r2 m).mpr ⟨hm, hle, hpos⟩]
  · intro h1 h2 v hv hpos
    unfold ffmpeg.ffprobeDurationSeconds
    rw [(singleDuration_eq_none r1).mpr h1, (maxStreamDuration_eq_none r2).mpr h2,
      (singleDuration_eq_some r3 v).mpr ⟨hv, hpos⟩]
  · rw [← singleDuration_eq_none, ← maxStreamDuration_eq_none, ← singleDuration_eq_none]
    unfold ffmpeg.ffprobeDurationSeconds
    cases ffmpeg.singleDuration r1 with
    | some v => simp
    | none =>
      cases ffmpeg.maxStreamDuration r2 with
      | some v => simp
      | none =>
        cases ffmpeg.singleDuration r3 with
        | some v => simp
        | none => simp
  · unfold ffmpeg.ffprobeDurationSeconds
    cases h1 : ffmpeg.singleDuration r1 with
    | some v =>
      intro _
      exact ((singleDuration_eq_some r1 v).mp h1).2
    | none =>
      cases h2 : ffmpeg.maxStreamDuration r2 with
      | some v =>
        intro _
        exact ((maxStreamDuration_eq_some r2 v).mp h2).2.2
      | none =>
        cases h3 : ffmpeg.singleDuration r3 with
        | some v =>
          intro _
          exact ((singleDuration_eq_some r3 v).mp h3).2
        | none =>
          intro h
          simp at h

theorem parseFloat_NA : strconv.ParseFloat "N/A" = (Float64.fin 0, some "invalid syntax") := by
  have h1 : strconv.special "N/A".data = none := by decide
  have h2 : strconv.readFloat "N/A".data = none := by decide
  unfold strconv.ParseFloat
  rw [h1, h2]

theorem parseFloat_120_5 : strconv.ParseFloat "120.5" = (Float64.fin (241 / 2), none) := by
  rw [ParseFloat_of_scan "120.5" ⟨false, false, 1205, 1, 0, false, []⟩ (by decide)
    (by decide) rfl rfl]
  have hv : (strconv.Scan.mk false false 1205 1 0 false []).value = 1205 / 10 := by
    norm_num [strconv.Scan.value]
  have h : Float64.ofRat ((1205 : ℚ) / 10) = Float64.fin (241 / 2) :=
    ofRat_eval_lit 46 8479433673408512 _ (by norm_num) (by norm_num) (by norm_num) (by norm_num)
      (by norm_num) (by norm_num)
  rw [hv, h]

theorem probeValue_twoMinutes :
    Spec.probeValue Sample.twoMinutes = some (Float64.fin (241 / 2)) := by
  have h1 : strings.TrimSpace Sample.twoMinutes.out = "120.5" := by decide
  unfold Spec.probeValue
  have he : Sample.twoMinutes.err = none := rfl
  rw [he]
  dsimp only
  rw [h1, parseFloat_120_5]

theorem probePositive_notAvailable : ¬ Spec.probePositive Sample.notAvailable := by
  rintro ⟨v, hv, -⟩
  have h1 : strings.TrimSpace Sample.notAvailable.out = "N/A" := by decide
  unfold Spec.probeValue at hv
  have he : Sample.notAvailable.err = none := rfl
  rw [he] at hv
  dsimp only at hv
  rw [h1, parseFloat_NA] at hv
  cases hv

theorem streamPositive_notAvailable : ¬ Spec.streamPositive Sample.notAvailable := by
  rintro ⟨v, hv, -⟩
  have hL : strings.Split (strings.TrimSpace Sample.notAvailable.out) '\n' = ["N/A"] := by decide
  have hs : Spec.streamValue "N/A" = none := by
    unfold Spec.streamValue
    rw [if_pos (Or.inl rfl)]
  unfold Spec.streamValues at hv
  have he : Sample.notAvailable.err = none := rfl
  rw [he] at hv
  dsimp only at hv
  rw [hL] at hv
  simp [hs] at hv

/-- Witness of C14: when the container and the streams report `N/A` and the
first video stream reports 120.5, the duration is 120.5. -/
theorem duration_fallback_chain_witness :
    ffmpeg.ffprobeDurationSeconds Sample.notAvailable Sample.notAvailable Sample.twoMinutes =
      (Float64.fin (241 / 2), none) :=
  (duration_fallback_chain Sample.notAvailable Sample.notAvailable Sample.twoMinutes).2.2.1
    probePositive_notAvailable streamPositive_notAvailable (Float64.fin (241 / 2))
    probeValue_twoMinutes (decide_eq_true (show (0 : ℚ) < 241 / 2 by norm_num))

/-! ## Frame-rate parsing -/

theorem takeWhile_ne_append (sep : Char) (l r : List Char) (h : sep ∉ l) :
    (l ++ sep :: r).takeWhile (fun c => c ≠ sep) = l := by
  induction l with
  | nil => simp [List.takeWhile]
  | cons c cs ih =>
    have hc : c ≠ sep := fun hc => h (by rw [hc]; exact List.mem_cons_self _ _)
    have hcs : sep ∉ cs := fun hm => h (List.mem_cons_of_mem _ hm)
    simpa [List.takeWhile, hc] using ih hcs

theorem fraction_data (a b : String) : (a ++ "/" ++ b).data = a.data ++ '/' :: b.data := by
  rw [String.data_append, String.data_append]
  have : ("/" : String).data = ['/'] := rfl
  rw [this]
  simp

theorem SplitN_fraction (a b : String) (h : '/' ∉ a.data) :
    strings.SplitN (a ++ "/" ++ b) '/' = [a, b] := by
  unfold strings.SplitN
  dsimp only
  rw [fraction_data, takeWhile_ne_append '/' _ _ h]
  have hlen : a.data.length < (a.data ++ '/' :: b.data).length := by
    rw [List.length_append, List.length_cons]
    omega
  rw [if_pos hlen]
  have hdrop : (a.data ++ '/' :: b.data).drop (a.data.length + 1) = b.data := by
    rw [← List.drop_drop, List.drop_left]
    rfl
  rw [hdrop]

theorem parseFloat_N : strconv.ParseFloat "N" = (Float64.fin 0, some "invalid syntax") := by
  have h1 : strconv.special "N".data = none := by decide
  have h2 : strconv.readFloat "N".data = none := by decide
  unfold strconv.ParseFloat
  rw [h1, h2]

theorem parseFloat_A : strconv.ParseFloat "A" = (Float64.fin 0, some "invalid syntax") := by
  have h1 : strconv.special "A".data = none := by decide
  have h2 : strconv.readFloat "A".data = none := by decide
  unfold strconv.ParseFloat
  rw [h1, h2]

theorem fraction_NA (a b : String) (h : a ++ "/" ++ b = "N/A") (ha : '/' ∉ a.data) :
    a = "N" ∧ b = "A" := by
  have h1 := congrArg String.data h
  rw [fraction_data] at h1
  have h2 : ("N/A" : String).data = ['N', '/', 'A'] := rfl
  rw [h2] at h1
  cases hd : a.data with
  | nil =>
    rw [hd] at h1
    simp at h1
  | cons c cs =>
    rw [hd, List.cons_append] at h1
    injection h1 with h3 h4
    cases hcs : cs with
    | nil =>
      rw [hcs] at h4
      simp only [List.nil_append, List.cons.injEq, true_and] at h4
      constructor
      · apply String.ext
        rw [hd, hcs, h3]
      · apply String.ext
        rw [h4]
    | cons c2 cs2 =>
      rw [hcs, List.cons_append] at h4
      injection h4 with h5 _
      exfalso
      apply ha
      rw [hd, hcs, h5]
      simp

theorem eq_zero_of_eq {x : Float64} (h : Float64.eq x (Float64.fin 0) = true) :
    x = Float64.fin 0 := by
  cases x with
  | fin q =>
    have : q = 0 := of_decide_eq_true h
    rw [this]
  | inf s => cases h
  | nan => cases h

theorem parseRatio_fraction (s a b : String) (hs : strings.TrimSpace s = a ++ "/" ++ b)
    (ha : '/' ∉ a.data) :
    ffmpeg.parseRatio s =
      if Float64.eq (strconv.ParseFloat b).1 (Float64.fin 0) = false then
        Float64.div (strconv.ParseFloat a).1 (strconv.ParseFloat b).1
      else if Float64.lt (Float64.fin 0) (strconv.ParseFloat a).1 = true then
        (strconv.ParseFloat a).1
      else Float64.fin 0 := by
  have hne : (a ++ "/" ++ b) ≠ "" := by
    intro h
    have h1 := congrArg String.data h
    rw [fraction_data] at h1
    have h2 : ("" : String).data = [] := rfl
    rw [h2] at h1
    simp at h1
  have hcont : strings.Contains (a ++ "/" ++ b) '/' = true := by
    unfold strings.Contains
    rw [fraction_data]
    simp
  unfold ffmpeg.parseRatio
  dsimp only
  rw [hs]
  by_cases hna : a ++ "/" ++ b = "N/A"
  · obtain ⟨e1, e2⟩ := fraction_NA a b hna ha
    rw [if_pos (Or.inr hna), e1, e2, parseFloat_N, parseFloat_A]
    rfl
  · rw [if_neg (by simp [hne, hna]), if_pos hcont, SplitN_fraction a b ha]
    simp only [List.getD_cons_zero, List.getD_cons_succ]
    split_ifs <;> simp_all

theorem VideoProps_fps (r : execx.Result) (h : r.err = none) :
    (ffmpeg.VideoProps r).fps =
      if 3 ≤ (Spec.propsLines r).length ∧
          Float64.eq (ffmpeg.parseRatio ((Spec.propsLines r).getD 2 "")) (Float64.fin 0) = false
      then ffmpeg.parseRatio ((Spec.propsLines r).getD 2 "")
      else if 4 ≤ (Spec.propsLines r).length
        then ffmpeg.parseRatio ((Spec.propsLines r).getD 3 "")
        else Float64.fin 0 := by
  unfold ffmpeg.VideoProps Spec.propsLines
  rw [h]
  dsimp only
  generalize strings.Split (strings.TrimSpace r.out) '\n' = L
  have hz : Float64.eq (Float64.fin 0) (Float64.fin 0) = true := by simp [Float64.eq]
  by_cases hp : Float64.eq (ffmpeg.parseRatio (L.getD 2 "")) (Float64.fin 0) = true
  · have hp0 := eq_zero_of_eq hp
    generalize ffmpeg.parseRatio (L.getD 2 "") = p2 at hp hp0 ⊢
    subst hp0
    generalize ffmpeg.parseRatio (L.getD 3 "") = p3
    generalize (strconv.Atoi (strings.TrimSpace (L.getD 0 ""))).1 = w0
    generalize (strconv.Atoi (strings.TrimSpace (L.getD 1 ""))).1 = h0
    generalize L.length = n
    by_cases h3 : n ≥ 3 <;> by_cases h4 : n ≥ 4 <;>
      by_cases hw : (if n ≥ 1 then w0 else 0) ≤ 0 ∨ (if n ≥ 2 then h0 else 0) ≤ 0 <;>
      simp only [h3, h4, hz, hw, if_true, if_false, and_true, and_false, true_and, false_and,
        ge_iff_le, Bool.true_eq_false]
  · have hp1 : Float64.eq (ffmpeg.parseRatio (L.getD 2 "")) (Float64.fin 0) = false := by
      simpa using hp
    generalize ffmpeg.parseRatio (L.getD 2 "") = p2 at hp hp1 ⊢
    generalize ffmpeg.parseRatio (L.getD 3 "") = p3
    generalize (strconv.Atoi (strings.TrimSpace (L.getD 0 ""))).1 = w0
    generalize (strconv.Atoi (strings.TrimSpace (L.getD 1 ""))).1 = h0
    generalize L.length = n
    by_cases h3 : n ≥ 3 <;> by_cases h4 : n ≥ 4 <;>
      by_cases hw : (if n ≥ 1 then w0 else 0) ≤ 0 ∨ (if n ≥ 2 then h0 else 0) ≤ 0 <;>
      simp only [h3, h4, hz, hp1, hw, if_true, if_false, and_true, and_false, true_and,
        false_and, ge_iff_le, Bool.false_eq_true]

theorem VideoProps_err_iff (r : execx.Result) :
    (ffmpeg.VideoProps r).err ≠ none ↔
      (r.err ≠ none ∨ Spec.parsedWidth r ≤ 0 ∨ Spec.parsedHeight r ≤ 0) := by
  unfold ffmpeg.VideoProps Spec.parsedWidth Spec.parsedHeight Spec.propsLines
  cases h : r.err with
  | some e => simp
  | none =>
    dsimp only
    generalize strings.Split (strings.TrimSpace r.out) '\n' = L
    generalize ffmpeg.parseRatio (L.getD 2 "") = p2
    generalize ffmpeg.parseRatio (L.getD 3 "") = p3
    generalize (strconv.Atoi (strings.TrimSpace (L.getD 0 ""))).1 = w0
    generalize (strconv.Atoi (strings.TrimSpace (L.getD 1 ""))).1 = h0
    generalize L.length = n
    by_cases hw : (if n ≥ 1 then w0 else 0) ≤ 0 ∨ (if n ≥ 2 then h0 else 0) ≤ 0
    · rw [if_pos hw]
      simp only [ne_eq, not_true_eq_false, false_or]
      exact ⟨fun _ => hw, fun _ => by simp⟩
    · rw [if_neg hw]
      simp only [ne_eq, not_true_eq_false, false_or]
      exact ⟨fun hc => hc.elim, fun hc => absurd hc hw⟩

theorem VideoProps_of_err (r : execx.Result) (h : (ffmpeg.VideoProps r).err ≠ none) :
    (ffmpeg.VideoProps r).w = 0 ∧ (ffmpeg.VideoProps r).h = 0 ∧
    (r.err ≠ none → (ffmpeg.VideoProps r).fps = Float64.fin 0) := by
  unfold ffmpeg.VideoProps at h ⊢
  cases he : r.err with
  | some e => simp
  | none =>
    rw [he] at h
    dsimp only at h ⊢
    generalize strings.Split (strings.TrimSpace r.out) '\n' = L at h ⊢
    generalize ffmpeg.parseRatio (L.getD 2 "") = p2 at h ⊢
    generalize ffmpeg.parseRatio (L.getD 3 "") = p3 at h ⊢
    generalize (strconv.Atoi (strings.TrimSpace (L.getD 0 ""))).1 = w0 at h ⊢
    generalize (strconv.Atoi (strings.TrimSpace (L.getD 1 ""))).1 = h0 at h ⊢
    generalize L.length = n at h ⊢
    by_cases hw : (if n ≥ 1 then w0 else 0) ≤ 0 ∨ (if n ≥ 2 then h0 else 0) ≤ 0
    · rw [if_pos hw]
      simp
    · rw [if_neg hw] at h
      exact absurd rfl h

theorem parseFloat_25 : strconv.ParseFloat "25" = (Float64.fin 25, none) := by
  have := ParseFloat_nat "25" 25 (by decide) (by decide) (by norm_num)
  simpa using this

theorem parseFloat_1 : strconv.ParseFloat "1" = (Float64.fin 1, none) := by
  have := ParseFloat_nat "1" 1 (by decide) (by decide) (by norm_num)
  simpa using this

theorem parseFloat_0 : strconv.ParseFloat "0" = (Float64.fin 0, none) := by
  have := ParseFloat_nat "0" 0 (by decide) (by decide) (by norm_num)
  simpa using this

theorem parseRatio_25_1 : ffmpeg.parseRatio "25/1" = Float64.fin 25 := by
  have h3 : strings.TrimSpace "25/1" = "25" ++ "/" ++ "1" := by decide
  rw [parseRatio_fraction "25/1" "25" "1" h3 (by decide), parseFloat_25, parseFloat_1]
  have h1 : Float64.eq (Float64.fin 1) (Float64.fin 0) = false :=
    decide_eq_false (show ¬ (1 : ℚ) = 0 by norm_num)
  have h2 : Float64.div (Float64.fin 25) (Float64.fin 1) = Float64.fin 25 := by
    rw [Float64.div_fin _ _ (by norm_num)]
    have := Float64.ofRat_int 25 (by norm_num)
    norm_num at this ⊢
    exact this
  simp only [h1, h2, if_true]

theorem parseRatio_special :
    ffmpeg.parseRatio "0/0" = Float64.fin 0 ∧ ffmpeg.parseRatio "" = Float64.fin 0 ∧
    ffmpeg.parseRatio "N/A" = Float64.fin 0 := by
  refine ⟨?_, ?_, ?_⟩
  · have h3 : strings.TrimSpace "0/0" = "0" ++ "/" ++ "0" := by decide
    rw [parseRatio_fraction "0/0" "0" "0" h3 (by decide), parseFloat_0]
    have h1 : Float64.eq (Float64.fin 0) (Float64.fin 0) = true :=
      decide_eq_true (show (0 : ℚ) = 0 from rfl)
    have h2 : Float64.lt (Float64.fin 0) (Float64.fin 0) = false :=
      decide_eq_false (show ¬ (0 : ℚ) < 0 from lt_irrefl _)
    simp only [h1, h2, Bool.true_eq_false, Bool.false_eq_true, if_false]
  · have h : strings.TrimSpace "" = "" := by decide
    unfold ffmpeg.parseRatio
    rw [h]
    simp
  · have h : strings.TrimSpace "N/A" = "N/A" := by decide
    unfold ffmpeg.parseRatio
    rw [h]
    simp

/-- C15: in `VideoProps` a field whose text before the first `/` reads as the
number `num` and whose text after it reads as `den` (`float64` values as
`strconv.ParseFloat` returns them, its errors dropped) yields `num / den`
when `den` is not 0, `num` when `den` is 0 and `num` is positive, and 0 when
`den` is 0 and `num` is not positive; `0/0`, the empty field and `N/A` yield
0. The frame-rate returned is that of the third output line unless that line
is absent or yields 0, and then that of the fourth line (0 when there is
none). `VideoProps` returns an error exactly when the ffprobe run failed or
the parsed width or height is not positive. -/
theorem frame_rate_parsing :
    (∀ (s a b : String), strings.TrimSpace s = a ++ "/" ++ b → '/' ∉ a.data →
      (Float64.eq (strconv.ParseFloat b).1 (Float64.fin 0) = false →
        ffmpeg.parseRatio s =
          Float64.div (strconv.ParseFloat a).1 (strconv.ParseFloat b).1) ∧
      (Float64.eq (strconv.ParseFloat b).1 (Float64.fin 0) = true →
        Float64.lt (Float64.fin 0) (strconv.ParseFloat a).1 = true →
        ffmpeg.parseRatio s = (strconv.ParseFloat a).1) ∧
      (Float64.eq (strconv.ParseFloat b).1 (Float64.fin 0) = true →
        Float64.lt (Float64.fin 0) (strconv.ParseFloat a).1 = false →
        ffmpeg.parseRatio s = Float64.fin 0)) ∧
    (ffmpeg.parseRatio "0/0" = Float64.fin 0 ∧ ffmpeg.parseRatio "" = Float64.fin 0 ∧
      ffmpeg.parseRatio "N/A" = Float64.fin 0) ∧
    (∀ r : execx.Result, r.err = none →
      (ffmpeg.VideoProps r).fps =
        if 3 ≤ (Spec.propsLines r).length ∧
            Float64.eq (ffmpeg.parseRatio ((Spec.propsLines r).getD 2 "")) (Float64.fin 0)
              = false
        then ffmpeg.parseRatio ((Spec.propsLines r).getD 2 "")
        else if 4 ≤ (Spec.propsLines r).length
          then ffmpeg.parseRatio ((Spec.propsLines r).getD 3 "")
          else Float64.fin 0) ∧
    (∀ r : execx.Result,
      (ffmpeg.VideoProps r).err ≠ none ↔
        (r.err ≠ none ∨ Spec.parsedWidth r ≤ 0 ∨ Spec.parsedHeight r ≤ 0)) := by
  refine ⟨?_, parseRatio_special, VideoProps_fps, VideoProps_err_iff⟩
  intro s a b hs ha
  have h := parseRatio_fraction s a b hs ha
  refine ⟨?_, ?_, ?_⟩
  · intro hd
    rw [h, if_pos hd]
  · intro hd hn
    rw [h, if_neg (by rw [hd]; simp), if_pos hn]
  · intro hd hn
    rw [h, if_neg (by rw [hd]; simp), if_neg (by rw [hn]; simp)]

/-- Witness of C15: the field `25/1` yields 25, and the probe output `0`, `0`,
`25/1`, `25/1` gives the error for the missing dimensions. -/
theorem frame_rate_parsing_witness :
    ffmpeg.parseRatio "25/1" =
      Float64.div (strconv.ParseFloat "25").1 (strconv.ParseFloat "1").1 ∧
    (ffmpeg.VideoProps Sample.noDimensions).err ≠ none := by
  constructor
  · refine (frame_rate_parsing.1 "25/1" "25" "1" (by decide) (by decide)).1 ?_
    rw [parseFloat_1]
    exact decide_eq_false (show ¬ (1 : ℚ) = 0 by norm_num)
  · exact (frame_rate_parsing.2.2.2 Sample.noDimensions).mpr (Or.inr (Or.inl (by decide)))

/-! ## Clamping after a failed probe -/

theorem VideoProps_no_dimensions (r : execx.Result) (h : r.err = none)
    (hw : Spec.parsedWidth r ≤ 0 ∨ Spec.parsedHeight r ≤ 0) :
    (ffmpeg.VideoProps r).err = some "ffprobe: no dimensions" := by
  unfold Spec.parsedWidth Spec.parsedHeight Spec.propsLines at hw
  unfold ffmpeg.VideoProps
  rw [h]
  dsimp only
  generalize strings.Split (strings.TrimSpace r.out) '\n' = L at hw ⊢
  generalize ffmpeg.parseRatio (L.getD 2 "") = p2
  generalize ffmpeg.parseRatio (L.getD 3 "") = p3
  generalize (strconv.Atoi (strings.TrimSpace (L.getD 0 ""))).1 = w0 at hw ⊢
  generalize (strconv.Atoi (strings.TrimSpace (L.getD 1 ""))).1 = h0 at hw ⊢
  generalize L.length = n at hw ⊢
  rw [if_pos hw]

theorem noDimensions_props :
    (ffmpeg.VideoProps Sample.noDimensions).err = some "ffprobe: no dimensions" ∧
    (ffmpeg.VideoProps Sample.noDimensions).fps = Float64.fin 25 := by
  have hL : Spec.propsLines Sample.noDimensions = ["0", "0", "25/1", "25/1"] := by decide
  have herr : Sample.noDimensions.err = none := rfl
  constructor
  · exact VideoProps_no_dimensions _ herr (Or.inl (by decide))
  · rw [VideoProps_fps _ herr, hL]
    have h1 : Float64.eq (Float64.fin 25) (Float64.fin 0) = false :=
      decide_eq_false (show ¬ (25 : ℚ) = 0 by norm_num)
    simp only [List.length_cons, List.length_nil, List.getD_cons_succ, List.getD_cons_zero,
      parseRatio_25_1, h1]
    simp

/-- C13, as stated, fails: when `VideoProps` fails because the parsed width or
height is not positive it still returns the parsed frame-rate, and `Compress`
and `GIF`, which discard the error, clamp the requested fps to it. For the
probe output `0`, `0`, `25/1`, `25/1` the probe returns the error
`ffprobe: no dimensions`, and a requested fps of 60 becomes 25. -/
theorem failed_probe_clamping_counterexample :
    (ffmpeg.VideoProps Sample.noDimensions).err = some "ffprobe: no dimensions" ∧
    ffmpeg.effFPS Float64.amd64 60 (ffmpeg.VideoProps Sample.noDimensions).fps = 25 ∧
    ffmpeg.effFPS Float64.amd64 60 (ffmpeg.VideoProps Sample.noDimensions).fps ≠ 60 := by
  have hadd : Float64.ofRat ((25 : ℚ) + 7378697629483821 / 2 ^ 66) =
      Float64.fin (7036902565264071 / 2 ^ 48) :=
    ofRat_eval_lit 48 7036902565264071 _ (by norm_num) (by norm_num) (by norm_num) (by norm_num)
      (by norm_num) (by norm_num)
  have h25 : ffmpeg.effFPS Float64.amd64 60 (ffmpeg.VideoProps Sample.noDimensions).fps =
      25 := by
    rw [noDimensions_props.2, effFPS_fin Float64.amd64 60 (by decide) (by norm_num) hadd
      (abs_lt.mpr ⟨by norm_num, by norm_num⟩),
      trunc_eval 25 (by norm_num) (by norm_num) (by norm_num)]
    decide
  refine ⟨noDimensions_props.1, h25, ?_⟩
  rw [h25]
  decide

/-- C13 (amended): whenever `VideoProps` returns an error, `Compress` and
`GIF` use the requested width unchanged. They use the requested fps unchanged
when the ffprobe run itself failed, and whenever the frame-rate returned with
the error is not positive (0, negative or NaN); when the error is the missing
dimensions and a positive frame-rate was parsed, a positive requested fps is
still clamped to `int(srcFPS + 0.0001)` and raised to at least 1. -/
theorem failed_probe_clamping (r : execx.Result) (x : ffmpeg.Transcode)
    (hx : x.props = ffmpeg.VideoProps r) (herr : (ffmpeg.VideoProps r).err ≠ none) :
    (∀ w : Int, ffmpeg.effWidth w x.props.w = w) ∧
    (r.err ≠ none → ∀ (conv : Float64 → Int) (f : Int), ffmpeg.effFPS conv f x.props.fps = f) ∧
    (Float64.lt (Float64.fin 0) x.props.fps = false →
      ∀ (conv : Float64 → Int) (f : Int), ffmpeg.effFPS conv f x.props.fps = f) ∧
    (∀ (conv : Float64 → Int) (f : Int), 0 < f →
      Float64.lt (Float64.fin 0) x.props.fps = true →
      ffmpeg.effFPS conv f x.props.fps =
        max 1 (min f (Float64.toInt conv
          (Float64.add x.props.fps (Float64.ofRat (1 / 10000)))))) ∧
    (∀ (conv : Float64 → Int) (taskID input output : String) (crf w f : Int),
      ffmpeg.Compress conv x taskID input output crf w f =
        Started.cons (Effect.videoProps input)
          (ffmpeg.runWithProgress conv x taskID
            (ffmpeg.compressArgs input output crf w (ffmpeg.effFPS conv f x.props.fps))
            input) ∧
      ffmpeg.GIF conv x taskID input output w f =
        Started.cons (Effect.videoProps input)
          (ffmpeg.runWithProgress conv x taskID
            (ffmpeg.gifArgs input output w (ffmpeg.effFPS conv f x.props.fps)) input)) := by
  obtain ⟨hw0, -, hfps0⟩ := VideoProps_of_err r herr
  have hw : ∀ w : Int, ffmpeg.effWidth w x.props.w = w := by
    intro w
    rw [hx, hw0]
    unfold ffmpeg.effWidth
    simp
  refine ⟨hw, ?_, ?_, ?_, ?_⟩
  · intro hr conv f
    apply effFPS_of_not_pos
    rw [hx, hfps0 hr]
    exact decide_eq_false (show ¬ (0 : ℚ) < 0 from lt_irrefl _)
  · intro h conv f
    exact effFPS_of_not_pos conv f _ h
  · intro conv f hf hs
    exact effFPS_pos conv f _ hf hs
  · intro conv taskID input output crf w f
    unfold ffmpeg.Compress ffmpeg.GIF
    simp only [hw, and_self]

/-- Witness of C13 (amended): for the probe output without dimensions the
requested width 1280 is kept. -/
theorem failed_probe_clamping_witness :
    ffmpeg.effWidth 1280 (ffmpeg.VideoProps Sample.noDimensions).w = 1280 :=
  (failed_probe_clamping Sample.noDimensions
    { Sample.quietRun with props := ffmpeg.VideoProps Sample.noDimensions } rfl
    (by rw [noDimensions_props.1]; simp)).1 1280

/-! ## An unknown operation type -/

theorem finalRecord_append_completed (l : List Effect) (t : store.TaskStatus)
    (ttl : store.Duration) (a b p : String) :
    Spec.finalRecord (l ++ [Effect.rename a b, Effect.set t ttl, Effect.removeAll p]) = some t := by
  unfold Spec.finalRecord
  rw [records_append]
  simp [records]

theorem transform_unknown (pType : String) (h1 : pType ≠ "video_compress")
    (h2 : pType ≠ "video_to_gif") (h3 : pType ≠ "video_to_audio")
    (h4 : pType ≠ "image_compress") (conv : Float64 → Int) (x : ffmpeg.Transcode)
    (taskID curPath outPath : String) (crf width fps quality : Int) :
    httpapi.transform conv x taskID pType curPath outPath crf width fps quality =
      ⟨[], [], [], none⟩ := by
  unfold httpapi.transform
  rw [if_neg h1, if_neg h2, if_neg h3, if_neg h4]

theorem outName_unknown (pType : String) (h1 : pType ≠ "video_compress")
    (h2 : pType ≠ "video_to_gif") (h3 : pType ≠ "video_to_audio")
    (h4 : pType ≠ "image_compress") (imgFormat n : String) :
    httpapi.outName pType imgFormat n = "out_" ++ n := by
  unfold httpapi.outName
  dsimp only
  rw [if_neg h1, if_neg h2, if_neg h3, if_neg h4]

theorem processJob_unknown (pType : String) (h1 : pType ≠ "video_compress")
    (h2 : pType ≠ "video_to_gif") (h3 : pType ≠ "video_to_audio")
    (h4 : pType ≠ "image_compress") (env : httpapi.Env) (w : httpapi.World)
    (jobDir taskID url curPath curName imgFormat : String) (crf width fps quality : Int) :
    httpapi.processJob env w jobDir taskID pType url curPath curName imgFormat
        crf width fps quality =
      (httpapi.acquireLocal jobDir url curPath curName).1 ++
        [Effect.rename
           (filepath.Join [jobDir,
              "out_" ++ (httpapi.acquireLocal jobDir url curPath curName).2.2])
           (filepath.Join [env.uploadsPath,
              "out_" ++ (httpapi.acquireLocal jobDir url curPath curName).2.2]),
         Effect.set { ID := taskID, Status := "completed",
                      OutputFile := "out_" ++ (httpapi.acquireLocal jobDir url curPath curName).2.2,
                      Stage := "finalize", Percent := 100 } (30 * store.Minute),
         Effect.removeAll jobDir] := by
  unfold httpapi.processJob
  dsimp only
  rw [transform_unknown pType h1 h2 h3 h4, outName_unknown pType h1 h2 h3 h4]
  unfold Started.followedBy
  dsimp only
  rw [interleave_nil_left]
  rfl

theorem yt_readerStep_of_value (conv : Float64 → Int) (taskID : String) {line : String}
    {f : Float64} (h : yt.lineValue line = some f) :
    yt.readerStep conv taskID line =
      some { ID := taskID, Status := "processing", Stage := "download",
             Percent := yt.downloadPercent conv f } := by
  unfold yt.readerStep
  rw [h]

theorem goodFetch_writes (conv : Float64 → Int) (taskID : String) :
    yt.readerWrites conv taskID Sample.goodFetch.lines =
      [{ ID := taskID, Status := "processing", Stage := "download", Percent := 38 },
       { ID := taskID, Status := "processing", Stage := "download", Percent := 100 }] := by
  have hl : Sample.goodFetch.lines =
      ["[download]  37.5% of 10.00MiB", "[download] 100.0% of 10.00MiB"] := rfl
  have v1 : yt.lineValue "[download]  37.5% of 10.00MiB" = some (Float64.fin (75 / 2)) := by
    rw [yt_lineValue_eval _ ['3', '7'] ['5'] (by decide)
      ⟨by decide, by decide, by decide, by decide, by decide⟩]
    have h1 : Spec.digitsValue ['3', '7'] = 37 := by decide
    have h2 : Spec.digitsValue ['5'] = 5 := by decide
    have h3 : Spec.tokenValue ['3', '7'] ['5'] = ((75 : Int) : ℚ) / 2 ^ 1 := by
      unfold Spec.tokenValue
      rw [h1, h2]
      norm_num
    rw [h3, Float64.round_dyadic 75 1 (by norm_num) (by norm_num)]
    norm_num
  have v2 : yt.lineValue "[download] 100.0% of 10.00MiB" = some (Float64.fin 100) := by
    rw [yt_lineValue_eval _ ['1', '0', '0'] ['0'] (by decide)
      ⟨by decide, by decide, by decide, by decide, by decide⟩]
    have h1 : Spec.digitsValue ['1', '0', '0'] = 100 := by decide
    have h2 : Spec.digitsValue ['0'] = 0 := by decide
    have h3 : Spec.tokenValue ['1', '0', '0'] ['0'] = ((100 : Int) : ℚ) := by
      unfold Spec.tokenValue
      rw [h1, h2]
      norm_num
    rw [h3, Float64.round_int 100 (by norm_num)]
    norm_num
  have p1 : yt.downloadPercent conv (Float64.fin (75 / 2)) = 38 := by
    rw [downloadPercent_eval conv (75 / 2) 38 38
      (by
        have := Float64.ofRat_int 38 (by norm_num)
        norm_num at this ⊢
        exact this)
      (by norm_num) (by norm_num) (by norm_num) (by norm_num)]
    rfl
  unfold yt.readerWrites
  rw [hl, List.filterMap_cons, yt_readerStep_of_value conv taskID v1, List.filterMap_cons,
    yt_readerStep_of_value conv taskID v2, p1, downloadPercent_100]
  rfl

theorem goodFetch_download :
    yt.DownloadWithProgress Float64.amd64 "" Sample.goodFetch "6f1c" "https://example.org/v" ""
        "/tmp/app/6f1c" =
      ⟨[Effect.exec "yt-dlp" ["--get-filename", "-o", "/tmp/app/6f1c/%(title)s.%(ext)s",
          "--restrict-filenames", "https://example.org/v"],
        Effect.set { ID := "6f1c", Status := "processing", Stage := "download", Percent := 0 }
          (30 * store.Minute),
        Effect.exec "yt-dlp" ["-o", "/tmp/app/6f1c/%(title)s.%(ext)s", "--restrict-filenames",
          "--newline", "https://example.org/v"]],
       (yt.readerWrites Float64.amd64 "6f1c" Sample.goodFetch.lines).map
         fun t => Effect.set t (30 * store.Minute),
       [Effect.set { ID := "6f1c", Status := "processing", Stage := "download",
                     Percent := 100 } (30 * store.Minute)],
       some (.ok "/tmp/app/6f1c/clip.mp4")⟩ := rfl

theorem late_url_trace :
    httpapi.uploadJob Sample.env (Sample.lateWorld Sample.goodFetch Sample.run) "6f1c"
        "rotate" "https://example.org/v" "" "" "" 0 0 0 0 =
      [Effect.mkdirAll "/tmp/app/6f1c",
       Effect.exec "yt-dlp" ["--get-filename", "-o", "/tmp/app/6f1c/%(title)s.%(ext)s",
         "--restrict-filenames", "https://example.org/v"],
       Effect.set { ID := "6f1c", Status := "processing", Stage := "download", Percent := 0 }
         (30 * store.Minute),
       Effect.exec "yt-dlp" ["-o", "/tmp/app/6f1c/%(title)s.%(ext)s", "--restrict-filenames",
         "--newline", "https://example.org/v"],
       Effect.set { ID := "6f1c", Status := "processing", Stage := "download", Percent := 100 }
         (30 * store.Minute),
       Effect.rename "/tmp/app/6f1c/out_clip.mp4" "uploads/out_clip.mp4",
       Effect.set { ID := "6f1c", Status := "completed", OutputFile := "out_clip.mp4",
                    Stage := "finalize", Percent := 100 } (30 * store.Minute),
       Effect.removeAll "/tmp/app/6f1c"] ++
      (yt.readerWrites Float64.amd64 "6f1c" Sample.goodFetch.lines).map
        fun t => Effect.set t (30 * store.Minute) := by
  have hj : filepath.Join [Sample.env.tempDir, "app", "6f1c"] = "/tmp/app/6f1c" := by decide
  have hw1 : (Sample.lateWorld Sample.goodFetch Sample.run).conv = Float64.amd64 := rfl
  have hw2 : (Sample.lateWorld Sample.goodFetch Sample.run).fetch = Sample.goodFetch := rfl
  have hw3 : (Sample.lateWorld Sample.goodFetch Sample.run).downloadSched =
      [false, false, false, false, false, false, false, false, false, false,
       false, false, false, false, false, false] := rfl
  have he1 : Sample.env.envYtDlp = "" := rfl
  have he2 : Sample.env.proxy = "" := rfl
  have hp : httpapi.processJob Sample.env (Sample.lateWorld Sample.goodFetch Sample.run)
      "/tmp/app/6f1c" "6f1c" "rotate" "https://example.org/v" "/tmp/app/6f1c/clip.mp4"
      (filepath.Base "/tmp/app/6f1c/clip.mp4") "" 0 0 0 0 =
      [Effect.rename "/tmp/app/6f1c/out_clip.mp4" "uploads/out_clip.mp4",
       Effect.set { ID := "6f1c", Status := "completed", OutputFile := "out_clip.mp4",
                    Stage := "finalize", Percent := 100 } (30 * store.Minute),
       Effect.removeAll "/tmp/app/6f1c"] := by
    rw [processJob_unknown "rotate" (by decide) (by decide) (by decide) (by decide)]
    have ha : httpapi.acquireLocal "/tmp/app/6f1c" "https://example.org/v"
        "/tmp/app/6f1c/clip.mp4" (filepath.Base "/tmp/app/6f1c/clip.mp4") =
        ([], "/tmp/app/6f1c/clip.mp4", "clip.mp4") := by decide
    rw [ha]
    decide
  unfold httpapi.uploadJob
  dsimp only
  rw [if_pos (by decide), hj, hw1, hw2, hw3, he1, he2, goodFetch_download]
  dsimp only
  rw [hp]
  generalize (yt.readerWrites Float64.amd64 "6f1c" Sample.goodFetch.lines).map
    (fun t => Effect.set t (30 * store.Minute)) = xs
  unfold Started.followedBy
  dsimp only
  simp only [interleave, List.cons_append, List.nil_append, List.singleton_append]

/-- C16, as stated, fails for a URL input: the scanner goroutine of the
download is never waited for. In the run of the sample request with the
operation type `rotate` in which yt-dlp succeeds and the goroutine makes its
calls after the job has written `completed`, the last record written is a
`processing` record of the download stage. -/
theorem unknown_operation_completes_counterexample :
    Spec.fetchErr Sample.env (Sample.lateWorld Sample.goodFetch Sample.run) "6f1c"
      "https://example.org/v" = none ∧
    Spec.finalRecord
        (httpapi.uploadJob Sample.env (Sample.lateWorld Sample.goodFetch Sample.run) "6f1c"
          "rotate" "https://example.org/v" "" "" "" 0 0 0 0) =
      some { ID := "6f1c", Status := "processing", Stage := "download", Percent := 100 } := by
  constructor
  · have he1 : Sample.env.envYtDlp = "" := rfl
    have he2 : Sample.env.proxy = "" := rfl
    have hj : Spec.jobDir Sample.env "6f1c" = "/tmp/app/6f1c" := by decide
    have hw1 : (Sample.lateWorld Sample.goodFetch Sample.run).conv = Float64.amd64 := rfl
    have hw2 : (Sample.lateWorld Sample.goodFetch Sample.run).fetch = Sample.goodFetch := rfl
    unfold Spec.fetchErr
    rw [if_pos (by decide), hj, hw1, hw2, he1, he2, goodFetch_download]
  · unfold Spec.finalRecord
    rw [late_url_trace, records_append, records_map_set, goodFetch_writes]
    rfl

/-- C16 (amended): for an operation type other than the four known ones the
switch of the job matches no case: no transform is invoked, no probe is called
and no transcode-stage record is written, the output name stays `out_` + the
source name, and the job still renames that path, writes the record
`completed` with percent 100 and that output file, and removes its directory.
That record is the one terminal record of the job whenever the fetch step
returned a file, and it is the last record written when the input is an
uploaded file. -/
theorem unknown_operation_completes (pType : String) (h1 : pType ≠ "video_compress")
    (h2 : pType ≠ "video_to_gif") (h3 : pType ≠ "video_to_audio")
    (h4 : pType ≠ "image_compress") :
    (∀ (conv : Float64 → Int) (x : ffmpeg.Transcode) (taskID curPath outPath : String)
        (crf width fps quality : Int),
      httpapi.transform conv x taskID pType curPath outPath crf width fps quality =
        ⟨[], [], [], none⟩) ∧
    (∀ (env : httpapi.Env) (w : httpapi.World)
        (jobDir taskID url curPath curName imgFormat : String) (crf width fps quality : Int),
      (∀ eff ∈ httpapi.processJob env w jobDir taskID pType url curPath curName imgFormat
          crf width fps quality, Spec.isMediaCall eff = false) ∧
      (∀ t ∈ records (httpapi.processJob env w jobDir taskID pType url curPath curName
          imgFormat crf width fps quality), t.Stage ≠ "transcode") ∧
      Spec.finalRecord (httpapi.processJob env w jobDir taskID pType url curPath curName
          imgFormat crf width fps quality) =
        some { ID := taskID, Status := "completed",
               OutputFile := "out_" ++ (httpapi.acquireLocal jobDir url curPath curName).2.2,
               Stage := "finalize", Percent := 100 }) ∧
    (∀ (env : httpapi.Env) (w : httpapi.World)
        (taskID url srcPath filename imgFormat : String) (crf width fps quality : Int)
        (src : String × String),
      Spec.jobSource env w taskID url srcPath filename = some src →
      Spec.terminalRecords (httpapi.uploadJob env w taskID pType url srcPath filename imgFormat
          crf width fps quality) =
        [{ ID := taskID, Status := "completed",
           OutputFile := "out_" ++
             (httpapi.acquireLocal (Spec.jobDir env taskID) url src.1 src.2).2.2,
           Stage := "finalize", Percent := 100 }]) ∧
    (∀ (env : httpapi.Env) (w : httpapi.World)
        (taskID srcPath filename imgFormat : String) (crf width fps quality : Int),
      Spec.finalRecord (httpapi.uploadJob env w taskID pType "" srcPath filename imgFormat
          crf width fps quality) =
        some { ID := taskID, Status := "completed",
               OutputFile := "out_" ++
                 (httpapi.acquireLocal (Spec.jobDir env taskID) "" srcPath filename).2.2,
               Stage := "finalize", Percent := 100 }) := by
  refine ⟨transform_unknown pType h1 h2 h3 h4, ?_, ?_, ?_⟩
  · intro env w jobDir taskID url curPath curName imgFormat crf width fps quality
    rw [processJob_unknown pType h1 h2 h3 h4]
    refine ⟨?_, ?_, finalRecord_append_completed _ _ _ _ _ _⟩
    · intro eff he
      simp only [List.mem_append, List.mem_cons, List.mem_singleton, List.not_mem_nil,
        or_false] at he
      rcases he with he | he | he | he
      · unfold httpapi.acquireLocal at he
        split_ifs at he
        · simp only [List.mem_singleton] at he
          rw [he]
          rfl
        · simp at he
      · rw [he]
        rfl
      · rw [he]
        rfl
      · rw [he]
        rfl
    · intro t ht
      rw [records_append, acquireLocal_records] at ht
      simp only [records, List.nil_append, List.mem_singleton] at ht
      rw [ht]
      have hne : ("finalize" : String) ≠ "transcode" := by decide
      exact hne
  · intro env w taskID url srcPath filename imgFormat crf width fps quality src hsrc
    have hte : Spec.transformErr env w taskID pType url srcPath filename imgFormat crf width
        fps quality = none := by
      unfold Spec.transformErr Spec.jobTransform
      rw [hsrc]
      dsimp only
      rw [transform_unknown pType h1 h2 h3 h4]
    rcases terminalRecords_uploadJob env w taskID pType url srcPath filename imgFormat crf
        width fps quality with
      ⟨-, -, -, -, hn⟩ | ⟨-, e, -, -, -, hn⟩ | ⟨-, -, e, he, -⟩ | ⟨-, -, -, src2, hsrc2, hterm⟩
    · rw [hn] at hsrc
      cases hsrc
    · rw [hn] at hsrc
      cases hsrc
    · rw [hte] at he
      cases he
    · rw [hsrc] at hsrc2
      injection hsrc2 with hsrc2
      rw [hterm, ← hsrc2, outName_unknown pType h1 h2 h3 h4]
  · intro env w taskID srcPath filename imgFormat crf width fps quality
    unfold httpapi.uploadJob
    dsimp only
    rw [if_neg (by simp), processJob_unknown pType h1 h2 h3 h4, ← List.append_assoc]
    exact finalRecord_append_completed _ _ _ _ _ _

/-- Witness of C16: the job of an uploaded `clip.mp4` with the operation type
`rotate` ends with the record `completed` and the output file `out_clip.mp4`,
and its trace has no probe and no ffmpeg run. -/
theorem unknown_operation_completes_witness :
    Spec.finalRecord (httpapi.processJob Sample.env (Sample.world Sample.deadFetch Sample.run)
        "/tmp/app/6f1c" "6f1c" "rotate" "" "uploads/clip.mp4" "clip.mp4" "" 0 0 0 0) =
      some { ID := "6f1c", Status := "completed", OutputFile := "out_clip.mp4",
             Stage := "finalize", Percent := 100 } := by
  have h := ((unknown_operation_completes "rotate" (by decide) (by decide) (by decide)
    (by decide)).2.1 Sample.env (Sample.world Sample.deadFetch Sample.run) "/tmp/app/6f1c"
    "6f1c" "" "uploads/clip.mp4" "clip.mp4" "" 0 0 0 0).2.2
  rw [h]
  decide

/-! ## Package `transcoding`: `itoa` -/

/-- C17 fails on the code: `transcoding.itoa` writes two bytes, `0` + v/10 and
`0` + v%10, so it is the decimal representation only for 10 to 99. For 480 it
returns a backquote followed by `0`, for 5 it returns `05`, while the decimal
representations are `480` and `5`. -/
theorem itoa_not_decimal :
    transcoding.itoa 480 = "\x600" ∧ transcoding.itoa 5 = "05" ∧
    strconv.Itoa 480 = "480" ∧ strconv.Itoa 5 = "5" ∧
    transcoding.itoa 480 ≠ strconv.Itoa 480 ∧ transcoding.itoa 5 ≠ strconv.Itoa 5 ∧
    (∀ n : Nat, n < 90 → transcoding.itoa (10 + n) = strconv.Itoa (10 + n)) ∧
    (∀ n : Nat, n < 10 → transcoding.itoa n = "0" ++ strconv.Itoa n) := by
  refine ⟨by decide, by decide, by decide, by decide, by decide, by decide, ?_, ?_⟩
  · decide
  · decide


/-! ## Monotonicity of the transcode decoder -/

theorem progressPercent_1e30 :
    ffmpeg.progressPercent Float64.amd64 (Float64.fin 120)
      (Float64.fin (7105427357601002 * 2 ^ 47)) = 0 := by
  have hlt : Float64.lt (Float64.fin 0) (Float64.fin 120) = true :=
    decide_eq_true (show (0 : ℚ) < 120 by norm_num)
  rw [progressPercent_eq_clamp, if_pos hlt, known_1e30]
  have hfit : Float64.fitsInt (Float64.fin (6208817164103190 * 2 ^ 27)) = false := by
    have ht : Float64.trunc ((6208817164103190 * 2 ^ 27 : ℚ)) = 6208817164103190 * 2 ^ 27 :=
      trunc_eval _ (by norm_num) (by norm_num) (by norm_num)
    show decide (_ ∧ _) = false
    rw [ht]
    decide
  have hc : Float64.toInt Float64.amd64 (Float64.fin (6208817164103190 * 2 ^ 27)) =
      -(2 ^ 63) := by
    show (if Float64.fitsInt (Float64.fin (6208817164103190 * 2 ^ 27)) = true then _ else _) = _
    rw [hfit]
    rfl
  rw [hc]
  rfl

/-- C18, as stated, fails: on amd64, with a duration of 120 s, the value
60000000 gives 50 and the larger value `1e30` gives 0. The `float64` computed
from `1e30` is beyond the range of `int`, the conversion gives the least
`int`, and the clamp makes it 0. -/
theorem transcode_decoder_monotone_counterexample :
    strconv.ParseFloat (strings.TrimSpace "1e30\n") =
      (Float64.fin (7105427357601002 * 2 ^ 47), none) ∧
    Float64.le (Float64.fin 60000000) (Float64.fin (7105427357601002 * 2 ^ 47)) = true ∧
    ffmpeg.progressPercent Float64.amd64 (Float64.fin 120) (Float64.fin 60000000) = 50 ∧
    ffmpeg.progressPercent Float64.amd64 (Float64.fin 120)
      (Float64.fin (7105427357601002 * 2 ^ 47)) = 0 ∧
    (ffmpeg.readerWrites Float64.amd64 "task" (Float64.fin 120)
        ["out_time_ms=60000000\n", "out_time_ms=1e30\n"]).map store.TaskStatus.Percent =
      [50, 0] := by
  have hl : ffmpeg.lineValue "out_time_ms=1e30\n" =
      some (Float64.fin (7105427357601002 * 2 ^ 47)) := by
    have : "out_time_ms=1e30\n" = "out_time_ms=" ++ "1e30\n" := by decide
    rw [this, lineValue_out_time, parseFloat_1e30]
  refine ⟨parseFloat_1e30,
    decide_eq_true (show (60000000 : ℚ) ≤ 7105427357601002 * 2 ^ 47 by norm_num),
    progressPercent_120_60 Float64.amd64, progressPercent_1e30, ?_⟩
  rw [readerWrites_percents, List.filterMap_cons, lineValue_60, List.filterMap_cons, hl]
  show [ffmpeg.progressPercent Float64.amd64 (Float64.fin 120) (Float64.fin 60000000),
    ffmpeg.progressPercent Float64.amd64 (Float64.fin 120)
      (Float64.fin (7105427357601002 * 2 ^ 47))] = [50, 0]
  rw [progressPercent_120_60, progressPercent_1e30]

/-- C18 (amended): for a fixed duration `d`, known (`d > 0`) or unknown, the
percent the transcode decoder computes is monotone in the `out_time_ms` value
over the values whose `float64` result, the operand of `int(...)`, is finite
and within the range of `int`: for `v1 <= v2` of that kind the percent of `v1`
is at most the percent of `v2`. Hence the reader loop writes a non-decreasing
sequence of percents for lines whose values are of that kind and form a
non-decreasing sequence. -/
theorem transcode_decoder_monotone (conv : Float64 → Int) (d v1 v2 : Float64)
    (h : Float64.le v1 v2 = true)
    (h1 : Float64.fitsInt (ffmpeg.convertedValue d v1) = true)
    (h2 : Float64.fitsInt (ffmpeg.convertedValue d v2) = true) :
    ffmpeg.progressPercent conv d v1 ≤ ffmpeg.progressPercent conv d v2 ∧
    (∀ (taskID : String) (lines : List String),
      (lines.filterMap ffmpeg.lineValue).Pairwise (fun a b => Float64.le a b = true) →
      (∀ v ∈ lines.filterMap ffmpeg.lineValue,
        Float64.fitsInt (ffmpeg.convertedValue d v) = true) →
      ((ffmpeg.readerWrites conv taskID d lines).map store.TaskStatus.Percent).Pairwise
        (· ≤ ·)) := by
  refine ⟨progressPercent_mono conv h h1 h2, ?_⟩
  intro taskID lines hs hf
  rw [readerWrites_percents]
  exact progressPercent_pairwise conv d _ hs hf

/-- Witness of C18: with a duration of 120 s the percent of the value 30 s is
at most the percent of the value 60 s. -/
theorem transcode_decoder_monotone_witness :
    ffmpeg.progressPercent Float64.amd64 (Float64.fin 120) (Float64.fin 30000000) ≤
      ffmpeg.progressPercent Float64.amd64 (Float64.fin 120) (Float64.fin 60000000) :=
  (transcode_decoder_monotone Float64.amd64 (Float64.fin 120) (Float64.fin 30000000)
    (Float64.fin 60000000)
    (decide_eq_true (show (30000000 : ℚ) ≤ 60000000 by norm_num))
    converted_120_30 converted_120_60).1

/-! ## The memory store as a map -/

theorem memoryStore_get (m : store.MemoryStore) (id : String) : m.Get id = m.data id := by
  unfold store.MemoryStore.Get
  cases m.data id <;> rfl

theorem memoryStore_fold_get (sets : List (store.TaskStatus × store.Duration))
    (m : store.MemoryStore) (id : String) (h : ∀ p ∈ sets, p.1.ID ≠ id) :
    (sets.foldl (fun s p => (s.Set p.1 p.2).1) m).Get id = m.Get id := by
  induction sets generalizing m with
  | nil => rfl
  | cons p ps ih =>
    rw [List.foldl_cons, ih _ (fun q hq => h q (List.mem_cons_of_mem _ hq))]
    have hp : p.1.ID ≠ id := h p (List.mem_cons_self _ _)
    rw [memoryStore_get, memoryStore_get]
    simp [store.MemoryStore.Set, Ne.symm hp]

/-- C19: `MemoryStore.Set` is an upsert on one key. After `Set(t, ttl)`,
`Get(t.ID)` returns `t`; a later `Set` of a record with the same id replaces
it whole; for every other id `Get` returns what it returned before; `Get` on
an id that no `Set` has named returns nothing; and a `Get` leaves the store
as it was. -/
theorem memory_store_upsert (m : store.MemoryStore) (t : store.TaskStatus)
    (ttl : store.Duration) :
    (m.Set t ttl).1.Get t.ID = some t ∧
    (m.Set t ttl).2 = none ∧
    (∀ (t2 : store.TaskStatus) (ttl2 : store.Duration), t2.ID = t.ID →
      ((m.Set t ttl).1.Set t2 ttl2).1.Get t.ID = some t2) ∧
    (∀ id : String, id ≠ t.ID → (m.Set t ttl).1.Get id = m.Get id) ∧
    (∀ id : String, store.NewMemoryStore.Get id = none) ∧
    (∀ (sets : List (store.TaskStatus × store.Duration)) (id : String),
      (∀ p ∈ sets, p.1.ID ≠ id) →
      (sets.foldl (fun s p => (s.Set p.1 p.2).1) store.NewMemoryStore).Get id = none) ∧
    (∀ (R : Type) (B : store.Backend R) (s : store.RedisStore R) (now : Int) (id : String),
      (store.runCalls B s [store.Call.get now id]).1 = s) := by
  refine ⟨?_, rfl, ?_, ?_, ?_, ?_, ?_⟩
  · rw [memoryStore_get]
    simp [store.MemoryStore.Set]
  · intro t2 ttl2 h
    rw [memoryStore_get]
    simp [store.MemoryStore.Set, h]
  · intro id h
    rw [memoryStore_get, memoryStore_get]
    simp [store.MemoryStore.Set, h]
  · intro id
    rfl
  · intro sets id h
    rw [memoryStore_fold_get sets _ id h]
    rfl
  · intro R B s now id
    rfl

/-- Witness of C19: on the empty store the sample record is found after it is
set, and a second record with the same id replaces it. -/
theorem memory_store_upsert_witness :
    (store.NewMemoryStore.Set Sample.task (30 * store.Minute)).1.Get "6f1c" =
      some Sample.task ∧
    ((store.NewMemoryStore.Set Sample.task (30 * store.Minute)).1.Set
        { Sample.task with Percent := 77 } 0).1.Get "6f1c" =
      some { Sample.task with Percent := 77 } :=
  ⟨(memory_store_upsert store.NewMemoryStore Sample.task (30 * store.Minute)).1,
   (memory_store_upsert store.NewMemoryStore Sample.task (30 * store.Minute)).2.2.1
     { Sample.task with Percent := 77 } 0 rfl⟩

end Comp
